import Mathlib

/-!
# BitsFS block allocator and block map

A shallow embedding of `src/block.c` (with the constants of `src/bitsfs.h`):
the bitmap primitives, `alloc_single_block`, `find_avai_block_range`,
`alloc_batch_blocks`, `bitsfs_get_block` and `bitsfs_truncate_blocks`; of the inode
functions of `src/inode.c`; of `bitsfs_fill_super` (`src/super.c`); of the formatter
`src/mkfs_bitsfs.c`; of the directory functions of `src/dentry.c` (lookup, append,
delete, relink, `bitsfs_make_empty`, `bitsfs_empty_dir`); and of the operations of
`src/namei.c` (`bitsfs_create`, `bitsfs_unlink`, `bitsfs_mkdir`, `bitsfs_rmdir`,
`bitsfs_rename`).

The buffer `bh->b_data` of the block bitmap is a map from bit index to bit
value; the searches only look at the first `BITSFS_BLOCK_SIZE << 3` bits.
State is passed explicitly: every operation returns the bitmap (and the
`i_data` table) it leaves behind.  A directory is its `i_size`, its lookup hint
and the slots of its pages as the page cache holds them; the directory functions
return the directory they leave behind.
-/

set_option linter.unusedVariables false

namespace Bitsfs

/-! ## Constants of `bitsfs.h` -/

def BITSFS_BLOCK_SIZE : Nat := 4096
def BITSFS_DDIR_BLOCKS : Nat := 12
def BITSFS_NDIR_BLOCKS : Nat := 4
def BITSFS_TMAX_BLOCKS : Nat := BITSFS_DDIR_BLOCKS + BITSFS_NDIR_BLOCKS
def BITSFS_NDIR_BLOCK_COUNT : Nat := 1024
def BITSFS_DATA_BLOCK : Nat := 135

/-- The value of the errno constant `EIO`; the code returns its negation. -/
def EIO_errno : Int := 5

/-- The bit array held in `bh->b_data`, the buffer of the block-bitmap block that
`read_block_bitmap` returns (assumed readable): bit index to bit value.  The
buffer is `BITSFS_BLOCK_SIZE` bytes long, so its bits are those with index below
`BITSFS_BLOCK_SIZE << 3 = 32768`; no search reads an index beyond them. -/
abbrev Bitmap := Nat → Bool

/-! ## Bitmap primitives (`test_and_set_bit_le` and friends) -/

/-- Modelled from the spec: `set(bit)` of section 4.3, the kernel primitive behind
`bitsfs_set_bit`, which is not part of the sources.  The previous value it
returns is ignored by every caller in `block.c`, so only the new bitmap is kept. -/
def bitsfs_set_bit (nr : Nat) (addr : Bitmap) : Bitmap :=
  fun i => if i = nr then true else addr i

/-- Modelled from the spec: `clear(bit)` of section 4.3, the kernel primitive behind
`bitsfs_clear_bit`, which is not part of the sources. -/
def bitsfs_clear_bit (nr : Nat) (addr : Bitmap) : Bitmap :=
  fun i => if i = nr then false else addr i

/-- Linear scan shared by the two searches: the first index `i` with
`offset <= i < size` at which `p` holds, or `size` when there is none.
The first argument bounds the number of positions still to be looked at. -/
def scan_bits (p : Nat → Bool) (size : Nat) : Nat → Nat → Nat
  | 0, _ => size
  | fuel + 1, i =>
    if i < size then
      if p i then i else scan_bits p size fuel (i + 1)
    else size

/-- Modelled from the spec: `find_first_zero(from)` of section 4.3 ("the position of
the first clear bit at or after `from`, or `LEN` if none"), the kernel primitive
`find_next_zero_bit_le`, which is not part of the sources. -/
def bitsfs_find_next_zero_bit (addr : Bitmap) (size offset : Nat) : Nat :=
  scan_bits (fun i => !addr i) size (size - offset) offset

/-- Modelled from the spec: `find_next_one(from)` of section 4.3 ("first set bit at or
after `from`"), the kernel primitive `find_next_bit_le`, which is not part of the
sources; like the zero search it answers `size` when no bit is found. -/
def bitsfs_find_next_bit (addr : Bitmap) (size offset : Nat) : Nat :=
  scan_bits (fun i => addr i) size (size - offset) offset

/-! ## Allocation of a single block -/

/-- What an allocator hands back: the `int` it returns, the value left in `*pos`
and the bitmap it leaves behind. -/
structure AllocResult where
  err : Int
  pos : Nat
  bitmap : Bitmap

/-- Embedding of `alloc_single_block` (block.c, lines 47-68). -/
def alloc_single_block (bm : Bitmap) : AllocResult :=
  let block_length := BITSFS_BLOCK_SIZE <<< 3
  let pos := bitsfs_find_next_zero_bit bm block_length 0
  if pos ≥ block_length then
    { err := - EIO_errno, pos := pos, bitmap := bm }
  else
    { err := 0, pos := pos, bitmap := bitsfs_set_bit pos bm }

/-! ## Allocation of a contiguous run -/

/-- What `find_avai_block_range` leaves behind: its return value and `*start`,
`*end`. -/
structure RangeResult where
  err : Int
  start : Nat
  stop : Nat

/-- The `while ((*end - *start) < range)` loop of `find_avai_block_range`.
The first argument bounds the number of iterations; `none` means the bound was
reached before the loop ended (shown below never to happen for the bound that
`find_avai_block_range` passes).  `*end` is never below `*start` when the
difference is taken, so the unsigned subtraction does not wrap. -/
def find_avai_loop (bm : Bitmap) (block_length range : Nat) :
    Nat → Nat → Nat → Option RangeResult
  | 0, _, _ => none
  | fuel + 1, start, stop =>
    if stop - start < range then
      let start1 := bitsfs_find_next_zero_bit bm block_length stop
      if start1 = block_length then
        some { err := - EIO_errno, start := start1, stop := stop }
      else
        find_avai_loop bm block_length range fuel start1
          (bitsfs_find_next_bit bm block_length start1)
    else
      some { err := 0, start := start, stop := stop }

/-- Embedding of `find_avai_block_range` (block.c, lines 70-95). -/
def find_avai_block_range (bm : Bitmap) (range offset : Nat) : Option RangeResult :=
  let block_length := BITSFS_BLOCK_SIZE <<< 3
  let start := bitsfs_find_next_zero_bit bm block_length offset
  if start = block_length then
    some { err := - EIO_errno, start := start, stop := 0 }
  else
    find_avai_loop bm block_length range (block_length + 1) start
      (bitsfs_find_next_bit bm block_length start)

/-- The loop `for (; start < end; ++start) bitsfs_set_bit(start, bh->b_data)` of
`alloc_batch_blocks`, with the number of iterations left as first argument. -/
def set_bits_from : Nat → Nat → Bitmap → Bitmap
  | 0, _, bm => bm
  | k + 1, start, bm => set_bits_from k (start + 1) (bitsfs_set_bit start bm)

/-- Embedding of `alloc_batch_blocks` (block.c, lines 97-119).  `none` only when
the search ran out of its iteration bound. -/
def alloc_batch_blocks (bm : Bitmap) (count : Nat) : Option AllocResult :=
  match find_avai_block_range bm count 0 with
  | none => none
  | some r =>
    if r.err ≠ 0 then
      some { err := r.err, pos := 0, bitmap := bm }
    else
      some { err := 0, pos := r.start, bitmap := set_bits_from (r.stop - r.start) r.start bm }

/-! ## The block map: `bitsfs_get_block` -/

/-- The fields of `struct bitsfs_inode_info` (and of its `vfs_inode`) that
`block.c` reads or writes. -/
structure bitsfs_inode_info where
  i_data : Nat → Nat
  i_mode : Nat
  i_blkbits : Nat

/-- The fields of the caller's `struct buffer_head` that `bitsfs_get_block`
touches: the mapped block number, the extent size, and the `BH_Mapped` and
`BH_New` state bits. -/
structure buffer_head where
  b_blocknr : Nat
  b_size : Nat
  mapped : Bool
  is_new : Bool
deriving DecidableEq

/-- Conversion of an unsigned 64-bit value to `int` (keep the low 32 bits, read
them as two's complement), as in `pos = iblock` and
`pos = iblock + 1 - BITSFS_DDIR_BLOCKS`. -/
def to_int (x : Nat) : Int :=
  if x % 2 ^ 32 < 2 ^ 31 then ((x % 2 ^ 32 : Nat) : Int) else ((x % 2 ^ 32 : Nat) : Int) - 2 ^ 32

/-- The local state of `bitsfs_get_block` while it allocates: the inode's
`i_data`, the block bitmap, and the locals `new` and `block_cnt`. -/
structure MapState where
  i_data : Nat → Nat
  bitmap : Bitmap
  is_new : Bool
  block_cnt : Nat

/-- How an allocation loop of `bitsfs_get_block` ends: it ran to its end, it took
`goto fail` with `err`, or the search inside `alloc_batch_blocks` ran out of its
iteration bound. -/
inductive LoopExit where
  | finished
  | failed (err : Int)
  | no_fuel

/-- The three allocation loops of `bitsfs_get_block` have one shape,
`for (n = first; n <= last; ++n) { if (!bi->i_data[n]) { err = alloc(..., &block_no);
if (err) goto fail; bi->i_data[n] = block_no + BITSFS_DATA_BLOCK; new = true; }
block_cnt += step; }`, with `alloc_single_block` and no `block_cnt` update for the
direct slots, `alloc_batch_blocks` and `step = BITSFS_NDIR_BLOCK_COUNT` for the
indirect ones.  The first numeric argument is the number of iterations left, the
second is `n`.  The store into the `__le32` slot keeps the low 32 bits. -/
def alloc_slots (alloc : Bitmap → Option AllocResult) (step : Nat) :
    Nat → Nat → MapState → LoopExit × MapState
  | 0, _, s => (LoopExit.finished, s)
  | k + 1, n, s =>
    if s.i_data n = 0 then
      match alloc s.bitmap with
      | none => (LoopExit.no_fuel, s)
      | some a =>
        if a.err ≠ 0 then
          (LoopExit.failed a.err, { s with bitmap := a.bitmap })
        else
          alloc_slots alloc step k (n + 1)
            { i_data := fun m => if m = n then (a.pos + BITSFS_DATA_BLOCK) % 2 ^ 32 else s.i_data m,
              bitmap := a.bitmap,
              is_new := true,
              block_cnt := s.block_cnt + step }
    else
      alloc_slots alloc step k (n + 1) { s with block_cnt := s.block_cnt + step }

/-- The return statement through which `bitsfs_get_block` leaves.  `too_big` is the
`return -EIO` under "Exceed supported max block size"; `alloc_failed` is the `fail:`
label; both hand the caller the same number.  `bad_index` marks the runs in which
`bi->i_data[pos]` is read with `pos` outside `0..15`, for which C defines no
behaviour.  `no_fuel` as in `LoopExit`. -/
inductive GetBlockExit where
  | mapped
  | too_big
  | alloc_failed
  | bad_index
  | no_fuel
deriving DecidableEq

/-- Everything `bitsfs_get_block` leaves behind: the return statement taken, the
`int` returned, the inode's `i_data`, the block bitmap and the caller's buffer
head. -/
structure GetBlockResult where
  exit : GetBlockExit
  ret : Int
  i_data : Nat → Nat
  bitmap : Bitmap
  bh_result : buffer_head

/-- The tail of `bitsfs_get_block` from `blk_no = bi->i_data[pos] + offset` to
`return 0` (block.c, lines 182-192).  The sum is formed in 32-bit unsigned
arithmetic (`__le32` plus `int`) and `b_size` is a 64-bit `size_t`. -/
def get_block_finish (inode : bitsfs_inode_info) (s : MapState) (pos offset : Int)
    (bh_result : buffer_head) : GetBlockResult :=
  if 0 ≤ pos ∧ pos < 16 then
    let blk_no : Nat := (((s.i_data pos.toNat : Nat) : Int) + offset).emod (2 ^ 32) |>.toNat
    { exit := GetBlockExit.mapped,
      ret := 0,
      i_data := s.i_data,
      bitmap := s.bitmap,
      bh_result :=
        { b_blocknr := blk_no,
          b_size := (s.block_cnt <<< inode.i_blkbits) % 2 ^ 64,
          mapped := true,
          is_new := if s.is_new then true else bh_result.is_new } }
  else
    { exit := GetBlockExit.bad_index, ret := 0, i_data := s.i_data, bitmap := s.bitmap,
      bh_result := bh_result }

/-- What `bitsfs_get_block` returns when an allocation loop did not run to its end. -/
def get_block_abort (e : LoopExit) (s : MapState) (bh_result : buffer_head) :
    GetBlockResult :=
  match e with
  | LoopExit.failed err =>
    { exit := GetBlockExit.alloc_failed, ret := err, i_data := s.i_data, bitmap := s.bitmap,
      bh_result := bh_result }
  | _ =>
    { exit := GetBlockExit.no_fuel, ret := 0, i_data := s.i_data, bitmap := s.bitmap,
      bh_result := bh_result }

/-- The value of `pos` when `bitsfs_get_block` reaches its allocation loops
(block.c, lines 132-133 and 145-147): the index of the `i_data` slot that is
mapped.  `iblock` is a `sector_t` (unsigned 64-bit), `pos` is an `int`, and `/`
and `%` on `int` truncate towards zero. -/
def get_block_pos (iblock : Nat) : Int :=
  if (iblock + 1) % 2 ^ 64 ≤ BITSFS_DDIR_BLOCKS then
    to_int iblock
  else
    let pos0 : Int := to_int ((iblock + 1) % 2 ^ 64 - BITSFS_DDIR_BLOCKS)
    let pos1 : Int :=
      if pos0.tmod BITSFS_NDIR_BLOCK_COUNT = 0 then pos0.tdiv BITSFS_NDIR_BLOCK_COUNT
      else pos0.tdiv BITSFS_NDIR_BLOCK_COUNT + 1
    pos1 + (BITSFS_DDIR_BLOCKS - 1 : Nat)

/-- The value of `offset` in `bitsfs_get_block`: its initial `0` on the direct
path, and `offset = pos % BITSFS_NDIR_BLOCK_COUNT` (line 148, taken after `pos`
has become the slot index) on the other. -/
def get_block_offset (iblock : Nat) : Int :=
  if (iblock + 1) % 2 ^ 64 ≤ BITSFS_DDIR_BLOCKS then 0
  else (get_block_pos iblock).tmod BITSFS_NDIR_BLOCK_COUNT

/-- Embedding of `bitsfs_get_block` (block.c, lines 121-197), with `pos` and
`offset` as computed by `get_block_pos` and `get_block_offset`.  `create` is
only ever printed. -/
def bitsfs_get_block (inode : bitsfs_inode_info) (bm : Bitmap) (iblock : Nat)
    (bh_result : buffer_head) (create : Int) : GetBlockResult :=
  let s0 : MapState := { i_data := inode.i_data, bitmap := bm, is_new := false, block_cnt := 0 }
  let pos : Int := get_block_pos iblock
  let offset : Int := get_block_offset iblock
  if (iblock + 1) % 2 ^ 64 ≤ BITSFS_DDIR_BLOCKS then
    let s1 : MapState := { s0 with block_cnt := (iblock + 1) % 2 ^ 64 }
    match alloc_slots (fun b => some (alloc_single_block b)) 0 (pos + 1).toNat 0 s1 with
    | (LoopExit.finished, s) => get_block_finish inode s pos offset bh_result
    | (e, s) => get_block_abort e s bh_result
  else
    let s1 : MapState := { s0 with block_cnt := BITSFS_DDIR_BLOCKS }
    if pos ≥ BITSFS_TMAX_BLOCKS then
      { exit := GetBlockExit.too_big, ret := - EIO_errno, i_data := inode.i_data, bitmap := bm,
        bh_result := bh_result }
    else
      match alloc_slots (fun b => some (alloc_single_block b)) 0 BITSFS_DDIR_BLOCKS 0 s1 with
      | (LoopExit.finished, s2) =>
        match alloc_slots (fun b => alloc_batch_blocks b BITSFS_NDIR_BLOCK_COUNT)
            BITSFS_NDIR_BLOCK_COUNT (pos + 1 - BITSFS_DDIR_BLOCKS).toNat BITSFS_DDIR_BLOCKS s2 with
        | (LoopExit.finished, s3) => get_block_finish inode s3 pos offset bh_result
        | (e, s3) => get_block_abort e s3 bh_result
      | (e, s2) => get_block_abort e s2 bh_result

/-! ## Truncation -/

def S_IFMT : Nat := 0o170000
def S_IFREG : Nat := 0o100000
def S_IFDIR : Nat := 0o040000
def S_IFLNK : Nat := 0o120000

/-- The kernel's `S_ISREG`. -/
def S_ISREG (m : Nat) : Bool := m &&& S_IFMT == S_IFREG
/-- The kernel's `S_ISDIR`. -/
def S_ISDIR (m : Nat) : Bool := m &&& S_IFMT == S_IFDIR
/-- The kernel's `S_ISLNK`. -/
def S_ISLNK (m : Nat) : Bool := m &&& S_IFMT == S_IFLNK

/-- Embedding of `__bitsfs_truncate_blocks` (block.c, lines 199-220): the loop over
the direct slots followed by the loop over the indirect slots, each with the
guard `if (!bi->i_data[n])` as written. -/
def __bitsfs_truncate_blocks (inode : bitsfs_inode_info) (bm : Bitmap) : Bitmap :=
  let bm1 := (List.range BITSFS_DDIR_BLOCKS).foldl
    (fun b n => if inode.i_data n = 0 then bitsfs_clear_bit (inode.i_data n) b else b) bm
  (List.range' BITSFS_DDIR_BLOCKS BITSFS_NDIR_BLOCKS).foldl
    (fun b n =>
      if inode.i_data n = 0 then
        (List.range BITSFS_NDIR_BLOCK_COUNT).foldl
          (fun c k => bitsfs_clear_bit (inode.i_data n + k) c) b
      else b) bm1

/-- Embedding of `bitsfs_truncate_blocks` (block.c, lines 223-233). -/
def bitsfs_truncate_blocks (inode : bitsfs_inode_info) (bm : Bitmap) (offset : Int) : Bitmap :=
  if !(S_ISREG inode.i_mode || S_ISDIR inode.i_mode || S_ISLNK inode.i_mode) then bm
  else __bitsfs_truncate_blocks inode bm

/-! ## Vocabulary of the statements -/

/-- Bits `s .. s+n-1` all lie among the 32768 searched bits and are all clear. -/
def free_run (bm : Bitmap) (s n : Nat) : Prop :=
  s + n ≤ 32768 ∧ ∀ k, k < n → bm (s + k) = false

instance (bm : Bitmap) (s n : Nat) : Decidable (free_run bm s n) := by
  unfold free_run
  infer_instance

/-- The allocator call of the direct-slot loops. -/
def single_alloc : Bitmap → Option AllocResult :=
  fun b => some (alloc_single_block b)

/-- The allocator call of the indirect-slot loop. -/
def batch_alloc : Bitmap → Option AllocResult :=
  fun b => alloc_batch_blocks b BITSFS_NDIR_BLOCK_COUNT

/-- The allocation loops of `bitsfs_get_block` taken together: the loop exit and
the state with which the function reaches `blk_no = ...` or `fail:`. -/
def alloc_phase (inode : bitsfs_inode_info) (bm : Bitmap) (iblock : Nat) :
    LoopExit × MapState :=
  if (iblock + 1) % 2 ^ 64 ≤ BITSFS_DDIR_BLOCKS then
    alloc_slots single_alloc 0 (get_block_pos iblock + 1).toNat 0
      { i_data := inode.i_data, bitmap := bm, is_new := false,
        block_cnt := (iblock + 1) % 2 ^ 64 }
  else
    match alloc_slots single_alloc 0 BITSFS_DDIR_BLOCKS 0
        { i_data := inode.i_data, bitmap := bm, is_new := false,
          block_cnt := BITSFS_DDIR_BLOCKS } with
    | (LoopExit.finished, s2) =>
      alloc_slots batch_alloc BITSFS_NDIR_BLOCK_COUNT
        (get_block_pos iblock + 1 - BITSFS_DDIR_BLOCKS).toNat BITSFS_DDIR_BLOCKS s2
    | (e, s2) => (e, s2)

/-- One past the last `i_data` slot that the allocation loops of
`bitsfs_get_block` visit for `iblock`: `pos + 1` on the direct path; on the other
path the twelve direct slots and the indirect slots up to `pos`. -/
def window_end (iblock : Nat) : Nat :=
  if (iblock + 1) % 2 ^ 64 ≤ BITSFS_DDIR_BLOCKS then (get_block_pos iblock + 1).toNat
  else BITSFS_DDIR_BLOCKS + (get_block_pos iblock + 1 - BITSFS_DDIR_BLOCKS).toNat

/-- The part of `bitsfs_get_block` after its allocation loops: the mapping of the
buffer head when they ran to their end, the `fail:` label otherwise. -/
def get_block_tail (inode : bitsfs_inode_info) (r : LoopExit × MapState) (pos offset : Int)
    (bh_result : buffer_head) : GetBlockResult :=
  match r with
  | (LoopExit.finished, s) => get_block_finish inode s pos offset bh_result
  | (e, s) => get_block_abort e s bh_result

/-- A sequence of `bitsfs_get_block` calls on one inode, each with its own
`iblock`, buffer head and `create`, threading `i_data` and the block bitmap from
one call to the next (whatever way each call ends). -/
def get_block_calls (inode : bitsfs_inode_info) :
    List (Nat × buffer_head × Int) → (Nat → Nat) × Bitmap → (Nat → Nat) × Bitmap
  | [], st => st
  | (iblock, bh, create) :: rest, st =>
    get_block_calls inode rest
      ((bitsfs_get_block { inode with i_data := st.1 } st.2 iblock bh create).i_data,
       (bitsfs_get_block { inode with i_data := st.1 } st.2 iblock bh create).bitmap)

/-! ## Concrete states used in the examples -/

/-- A buffer head as the caller passes it in: nothing mapped yet. -/
def unmapped_bh : buffer_head :=
  { b_blocknr := 0, b_size := 0, mapped := false, is_new := false }

/-- A regular file (mode 0100644, 4096-byte blocks) that owns no block. -/
def empty_file : bitsfs_inode_info :=
  { i_data := fun _ => 0, i_mode := 0o100644, i_blkbits := 12 }

/-- A regular file whose twelve direct slots hold blocks 136..147 and whose first
indirect slot holds the run starting at block 148. -/
def mapped_file : bitsfs_inode_info :=
  { i_data := fun n => if n < 13 then 136 + n else 0, i_mode := 0o100644, i_blkbits := 12 }

/-- A regular file whose only block is 2135 (bitmap bit 2000), in direct slot 0. -/
def one_block_file : bitsfs_inode_info :=
  { i_data := fun n => if n = 0 then 2135 else 0, i_mode := 0o100644, i_blkbits := 12 }

/-- The block bitmap right after the first mount: only bit 0 (the root directory's
block 135) is set. -/
def fresh_bitmap : Bitmap := fun i => decide (i = 0)

/-- A block bitmap in which bits 1..1999 are clear and every other bit is set. -/
def busy_bitmap : Bitmap := fun i => decide (i = 0 ∨ 2000 ≤ i)

/-- The block bitmap matching `mapped_file` next to the root directory: bits 0..1036
are set. -/
def mapped_bitmap : Bitmap := fun i => decide (i < 1037)

/-- A block bitmap in which only bit 0 is clear. -/
def nearly_full_bitmap : Bitmap := fun i => decide (i ≠ 0)

/-- The block bitmap matching `one_block_file` next to the root directory: bits 0 and
2000 are set. -/
def one_block_bitmap : Bitmap := fun i => decide (i = 0 ∨ i = 2000)

/-! ## Inodes: `inode.c` -/

def BITSFS_ROOT_INO : Nat := 2
def BITSFS_INDTBL_BLOCK : Nat := 7
def BITSFS_INDTBL_BLOCKS : Nat := 128
def BITSFS_STATE_NEW : Nat := 1

def EINVAL_errno : Int := 22
def ENOMEM_errno : Int := 12
def ESTALE_errno : Int := 116

/-- The on-disk inode record `struct bitsfs_inode` (bitsfs.h, lines 153-169), field
by field; `i_reserved` is left out.  Every field of a record holds a value within
the width of its C type, and the host is little-endian, as everywhere in the
sources that store into a record without `cpu_to_le`. -/
structure bitsfs_inode where
  i_mode : Nat
  i_uid : Nat
  i_size : Nat
  i_atime : Nat
  i_ctime : Nat
  i_mtime : Nat
  i_dtime : Nat
  i_gid : Nat
  i_links_count : Nat
  i_blocks : Nat
  i_flags : Nat
  i_block : Nat → Nat
  i_file_acl : Nat
  i_dir_acl : Nat

/-- The in-memory inode as `inode.c` sees it: the fields of `struct inode` and of
the `struct bitsfs_inode_info` around it that the file reads or writes (`tv_nsec`,
owner ids and the per-cpu counters are left out).  `is_bad` is what
`is_bad_inode` answers. -/
structure vfs_inode where
  i_ino : Nat
  i_mode : Nat
  i_nlink : Nat
  i_size : Int
  i_atime_sec : Int
  i_ctime_sec : Int
  i_mtime_sec : Int
  i_blocks : Nat
  i_blkbits : Nat
  i_data : Nat → Nat
  i_flags : Nat
  i_state : Nat
  i_file_acl : Nat
  i_dir_acl : Nat
  i_dtime : Nat
  is_bad : Bool

/-- The part of an in-memory inode that `block.c` works on. -/
def block_view (inode : vfs_inode) : bitsfs_inode_info :=
  { i_data := inode.i_data, i_mode := inode.i_mode, i_blkbits := inode.i_blkbits }

/-- The device as the buffer cache shows it to `inode.c`: whether `sb_bread` of a
block succeeds, and the inode record that starts at a given byte offset of the
device.  The bytes inside a record are not modelled. -/
structure inode_disk where
  bread_ok : Nat → Bool
  inode_at : Nat → bitsfs_inode

/-- What `bitsfs_read_inode` hands back: 0 and the byte offset on the device of
`raw_inode`, or the negative errno carried by the error pointer. -/
structure ReadInodeResult where
  ret : Int
  addr : Nat

/-- Embedding of `bitsfs_read_inode` (inode.c, lines 40-81).  `s_inode_size` is
`bs->s_inode_size` of the mounted superblock. -/
def bitsfs_read_inode (d : inode_disk) (s_inode_size : Nat) (ino : Nat) : ReadInodeResult :=
  if ino ≠ BITSFS_ROOT_INO ∧ ino < BITSFS_ROOT_INO then
    { ret := - EINVAL_errno, addr := 0 }
  else
    let block := s_inode_size * (ino - 1) / BITSFS_BLOCK_SIZE
    let offset := s_inode_size * (ino - 1) % BITSFS_BLOCK_SIZE
    if !d.bread_ok (BITSFS_INDTBL_BLOCK + block) then
      { ret := - EIO_errno, addr := 0 }
    else
      { ret := 0, addr := (BITSFS_INDTBL_BLOCK + block) * BITSFS_BLOCK_SIZE + offset }

/-- The record that `bitsfs_write_inode` leaves at `raw_inode` (inode.c, lines
98-114): the stores narrow `i_nlink` to 16 bits and `i_size`, the seconds of the
three times and `i_blocks` to 32 bits; `i_dir_acl` is stored unless the inode is a
regular file; all 16 entries of `i_data` are copied; owner ids are not stored. -/
def write_inode_record (inode : vfs_inode) (raw : bitsfs_inode) : bitsfs_inode :=
  { raw with
    i_mode := inode.i_mode,
    i_links_count := inode.i_nlink % 2 ^ 16,
    i_size := (inode.i_size.emod (2 ^ 32)).toNat,
    i_atime := (inode.i_atime_sec.emod (2 ^ 32)).toNat,
    i_ctime := (inode.i_ctime_sec.emod (2 ^ 32)).toNat,
    i_mtime := (inode.i_mtime_sec.emod (2 ^ 32)).toNat,
    i_blocks := inode.i_blocks % 2 ^ 32,
    i_dtime := inode.i_dtime,
    i_flags := inode.i_flags,
    i_file_acl := inode.i_file_acl,
    i_dir_acl := if !S_ISREG inode.i_mode then inode.i_dir_acl else raw.i_dir_acl,
    i_block := fun n => if n < BITSFS_TMAX_BLOCKS then inode.i_data n else raw.i_block n }

/-- Embedding of `bitsfs_write_inode` (inode.c, lines 83-124): the device and the
in-memory inode it leaves behind.  The function uses the result of
`bitsfs_read_inode` without looking at it; `none` stands for the runs in which that
result is an error pointer, for which C defines no behaviour. -/
def bitsfs_write_inode (inode : vfs_inode) (d : inode_disk) (s_inode_size : Nat) :
    Option (inode_disk × vfs_inode) :=
  let r := bitsfs_read_inode d s_inode_size inode.i_ino
  if r.ret ≠ 0 then none
  else
    some ({ d with inode_at := fun a =>
              if a = r.addr then write_inode_record inode (d.inode_at r.addr)
              else d.inode_at a },
          { inode with i_state := inode.i_state - inode.i_state % 2 })

/-- What `bitsfs_new_inode` hands back: 0 and the new inode, or the negative errno
carried by the error pointer; and the inode bitmap it leaves behind. -/
structure NewInodeResult where
  ret : Int
  inode : vfs_inode
  imap : Bitmap

/-- Embedding of `bitsfs_new_inode` (inode.c, lines 126-192).  `fresh` is the inode
that the kernel's `new_inode(sb)` returns and `have_inode` tells whether it
returned one; `collides` tells whether `insert_inode_locked` finds the number in
use; `now` is `current_time`; `s_inodes_count` is `bs->s_inodes_count`.  The inode
bitmap block is taken to be readable (the code does not check). -/
def bitsfs_new_inode (imap : Bitmap) (s_inodes_count : Nat) (mode : Nat) (now : Int)
    (fresh : vfs_inode) (have_inode collides : Bool) : NewInodeResult :=
  if !have_inode then
    { ret := - ENOMEM_errno, inode := fresh, imap := imap }
  else
    let ino := bitsfs_find_next_zero_bit imap s_inodes_count (BITSFS_ROOT_INO - 1)
    let imap1 := bitsfs_set_bit ino imap
    let ino1 := ino + 1
    let inode : vfs_inode :=
      { fresh with
        i_mode := mode, i_ino := ino1, i_blocks := 0,
        i_mtime_sec := now, i_atime_sec := now, i_ctime_sec := now,
        i_data := fun _ => 0, i_file_acl := 0, i_dir_acl := 0, i_dtime := 0,
        i_state := BITSFS_STATE_NEW }
    if collides then
      { ret := - EIO_errno, inode := { inode with is_bad := true }, imap := imap1 }
    else
      { ret := 0, inode := inode, imap := imap1 }

/-- What `bitsfs_iget` hands back: 0 and the inode, or the negative errno carried
by the error pointer. -/
structure IgetResult where
  ret : Int
  inode : vfs_inode

/-- Embedding of `bitsfs_iget` (inode.c, lines 194-268) on the path where
`iget_locked` hands back a new inode (one not in the inode cache): `fresh` is that
inode as `bitsfs_alloc_inode` left it; its `bitsfs_inode_info` fields are whatever
the slab object held.  The statements run in the order of the source: the test
for a deleted inode reads `bi->i_dtime` before the record's `i_dtime` is loaded,
and the copy of the block map stops at `BITSFS_NDIR_BLOCKS`. -/
def bitsfs_iget (d : inode_disk) (s_inode_size : Nat) (fresh : vfs_inode) (ino : Nat) :
    IgetResult :=
  let r := bitsfs_read_inode d s_inode_size ino
  if r.ret ≠ 0 then
    { ret := r.ret, inode := { fresh with i_ino := ino, is_bad := true } }
  else
    let raw := d.inode_at r.addr
    let inode1 : vfs_inode :=
      { fresh with
        i_ino := ino,
        i_mode := raw.i_mode,
        i_nlink := raw.i_links_count,
        i_size := (raw.i_size : Int),
        i_atime_sec := to_int raw.i_atime,
        i_ctime_sec := to_int raw.i_ctime,
        i_mtime_sec := to_int raw.i_mtime,
        i_blocks := raw.i_blocks }
    if inode1.i_nlink = 0 ∧ (inode1.i_mode = 0 ∨ inode1.i_dtime ≠ 0) then
      { ret := - ESTALE_errno, inode := { inode1 with is_bad := true } }
    else
      { ret := 0,
        inode :=
          { inode1 with
            i_dtime := raw.i_dtime,
            i_flags := raw.i_flags,
            i_file_acl := raw.i_file_acl,
            i_dir_acl := if S_ISDIR inode1.i_mode then raw.i_dir_acl else 0,
            i_state := 0,
            i_data := fun n => if n < BITSFS_NDIR_BLOCKS then raw.i_block n
              else inode1.i_data n } }

/-- Embedding of `bitsfs_free_inode` (inode.c, lines 270-288): the inode bitmap it
leaves behind.  `imap_ok` tells whether `read_inode_bitmap` returned a buffer. -/
def bitsfs_free_inode (inode : vfs_inode) (imap : Bitmap) (imap_ok : Bool) : Bitmap :=
  if !imap_ok then imap
  else bitsfs_clear_bit (inode.i_ino - 1) imap

/-- What `bitsfs_evict_inode` leaves behind. -/
structure EvictResult where
  inode : vfs_inode
  disk : inode_disk
  imap : Bitmap
  bmap : Bitmap

/-- Embedding of `bitsfs_evict_inode` (inode.c, lines 290-333).  `now` is
`ktime_get_real_seconds()`, stored into the 32-bit `i_dtime`; `imap` and `bmap` are
the inode and block bitmaps.  `none` as in `bitsfs_write_inode`. -/
def bitsfs_evict_inode (inode : vfs_inode) (d : inode_disk) (s_inode_size : Nat)
    (imap bmap : Bitmap) (imap_ok : Bool) (now : Int) : Option EvictResult :=
  let do_delete : Bool := inode.i_nlink = 0 ∧ !inode.is_bad
  if do_delete then
    let inode1 := { inode with i_dtime := (now.emod (2 ^ 32)).toNat }
    match bitsfs_write_inode inode1 d s_inode_size with
    | none => none
    | some (d1, inode2) =>
      let inode3 := { inode2 with i_size := 0 }
      let bmap1 :=
        if inode3.i_blocks ≠ 0 then bitsfs_truncate_blocks (block_view inode3) bmap 0
        else bmap
      some { inode := inode3, disk := d1, imap := bitsfs_free_inode inode3 imap imap_ok,
             bmap := bmap1 }
  else
    some { inode := inode, disk := d, imap := imap, bmap := bmap }

/-! ## Mount: `bitsfs_fill_super` -/

def BITSFS_SUPER_MAGIC : Nat := 0xEF99
def BITSFS_SUPER_BLOCK : Nat := 1
def BITSFS_VALID_FS : Nat := 1
def BITSFS_OS_LINUX : Nat := 0
def BITSFS_BLKBMP_BLOCK : Nat := 2
def BITSFS_BLKBMP_BLOCKS : Nat := 4
def BITSFS_INDBMP_BLOCK : Nat := 6

/-- The on-disk superblock `struct bitsfs_super_block` (bitsfs.h, lines 129-148);
`s_reserved` is left out and `s_name` is its eight bytes. -/
structure bitsfs_super_block where
  s_inodes_count : Nat
  s_blocks_count : Nat
  s_free_inodes_count : Nat
  s_free_blocks_count : Nat
  s_block_bitmap_block : Nat
  s_inode_bitmap_block : Nat
  s_inode_table_block : Nat
  s_data_block : Nat
  s_block_size : Nat
  s_first_ino : Nat
  s_inode_size : Nat
  s_mtime : Nat
  s_wtime : Nat
  s_magic : Nat
  s_state : Nat
  s_creator_os : Nat
  s_name : List Nat
deriving DecidableEq

/-- The label or statement through which `bitsfs_fill_super` leaves: the final
`return 0`, the label `cantfind_bitsfs`, or the label `failed` reached directly. -/
inductive FillSuperExit where
  | mounted
  | cantfind_bitsfs
  | failed
deriving DecidableEq

/-- What `bitsfs_fill_super` leaves behind: where it left, the `int` it returned,
and the inode and block bitmaps. -/
structure FillSuperResult where
  exit : FillSuperExit
  ret : Int
  imap : Bitmap
  bmap : Bitmap

/-- The test `!S_ISDIR(root->i_mode) || !root->i_blocks || !root->i_size` of
`bitsfs_fill_super`, negated: the root inode is accepted. -/
def root_inode_ok (root : vfs_inode) : Bool :=
  !(!S_ISDIR root.i_mode || root.i_blocks = 0 || root.i_size = 0)

/-- Embedding of `bitsfs_fill_super` (super.c, lines 62-160).  `kzalloc_ok` and
`make_root_ok` tell whether `kzalloc` and `d_make_root` succeed; `min_blocksize`
is what `sb_min_blocksize` returns (not 0); `read_super b o` is the superblock
record at offset `o` of block `b` when `sb_bread` of that block succeeds; `d` and
`fresh` are handed to `bitsfs_iget`.  `ret` starts at 0 and is only assigned where
the source assigns it. -/
def bitsfs_fill_super (kzalloc_ok : Bool) (min_blocksize : Nat)
    (read_super : Nat → Nat → Option bitsfs_super_block) (d : inode_disk) (fresh : vfs_inode)
    (imap bmap : Bitmap) (make_root_ok : Bool) : FillSuperResult :=
  if !kzalloc_ok then
    { exit := FillSuperExit.failed, ret := 0, imap := imap, bmap := bmap }
  else
    let sb_block :=
      if min_blocksize ≠ BITSFS_BLOCK_SIZE then
        BITSFS_SUPER_BLOCK * BITSFS_BLOCK_SIZE / min_blocksize
      else BITSFS_SUPER_BLOCK
    let sb_offset :=
      if min_blocksize ≠ BITSFS_BLOCK_SIZE then sb_block * BITSFS_BLOCK_SIZE % min_blocksize
      else 0
    match read_super sb_block sb_offset with
    | none => { exit := FillSuperExit.failed, ret := 0, imap := imap, bmap := bmap }
    | some bs =>
      if bs.s_magic ≠ BITSFS_SUPER_MAGIC then
        { exit := FillSuperExit.cantfind_bitsfs, ret := 0, imap := imap, bmap := bmap }
      else
        let r := bitsfs_iget d bs.s_inode_size fresh BITSFS_ROOT_INO
        if r.ret ≠ 0 then
          { exit := FillSuperExit.failed, ret := r.ret, imap := imap, bmap := bmap }
        else if !root_inode_ok r.inode then
          { exit := FillSuperExit.failed, ret := 0, imap := imap, bmap := bmap }
        else
          let bmap1 := bitsfs_set_bit 0 bmap
          let imap1 := bitsfs_set_bit (BITSFS_ROOT_INO - 1) imap
          if !make_root_ok then
            { exit := FillSuperExit.failed, ret := - ENOMEM_errno, imap := imap1, bmap := bmap1 }
          else
            { exit := FillSuperExit.mounted, ret := 0, imap := imap1, bmap := bmap1 }

/-! ## The formatter: `mkfs_bitsfs.c` -/

def DENT_NAME_LEN : Nat := 56
def DENT_LEN : Nat := 64
def BITSFS_FT_DIR : Nat := 2
def BDEV_MIN_SIZE : Int := 256
def DFD : Int := 3
def EXIT_SUCCESS : Int := 0
def EXIT_FAILURE : Int := 1
/-- The value of `sizeof(struct bitsfs_inode)`. -/
def INODE_SIZE : Nat := 128

/-- The record `struct bitsfs_dir_special` (mkfs_bitsfs.h, lines 135-146): the two
directory entries of the root directory. -/
structure bitsfs_dir_special where
  inode1 : Nat
  rec_len1 : Nat
  name_len1 : Nat
  file_type1 : Nat
  name1 : Nat → Nat
  inode2 : Nat
  rec_len2 : Nat
  name_len2 : Nat
  file_type2 : Nat
  name2 : Nat → Nat

/-- What the buffer handed to `PUT` holds. -/
inductive Payload where
  | zeros
  | super (sb : bitsfs_super_block)
  | inode (raw : bitsfs_inode)
  | root_dir (rdir : bitsfs_dir_special)

/-- One call `PUT(fd, off, buff, len)`. -/
structure Put where
  off : Nat
  len : Nat
  payload : Payload

/-- The buffer after `memset(buff, 0, BITSFS_BLOCK_SIZE)`, read as a superblock. -/
def zero_super_block : bitsfs_super_block :=
  { s_inodes_count := 0, s_blocks_count := 0, s_free_inodes_count := 0,
    s_free_blocks_count := 0, s_block_bitmap_block := 0, s_inode_bitmap_block := 0,
    s_inode_table_block := 0, s_data_block := 0, s_block_size := 0, s_first_ino := 0,
    s_inode_size := 0, s_mtime := 0, s_wtime := 0, s_magic := 0, s_state := 0,
    s_creator_os := 0, s_name := [0, 0, 0, 0, 0, 0, 0, 0] }

/-- The buffer after `memset(buff, 0, BITSFS_BLOCK_SIZE)`, read as an inode record. -/
def zero_inode_record : bitsfs_inode :=
  { i_mode := 0, i_uid := 0, i_size := 0, i_atime := 0, i_ctime := 0, i_mtime := 0,
    i_dtime := 0, i_gid := 0, i_links_count := 0, i_blocks := 0, i_flags := 0,
    i_block := fun _ => 0, i_file_acl := 0, i_dir_acl := 0 }

/-- The buffer after `memset(buff, 0, BITSFS_BLOCK_SIZE)`, read as the root
directory's two entries. -/
def zero_dir_special : bitsfs_dir_special :=
  { inode1 := 0, rec_len1 := 0, name_len1 := 0, file_type1 := 0, name1 := fun _ => 0,
    inode2 := 0, rec_len2 := 0, name_len2 := 0, file_type2 := 0, name2 := fun _ => 0 }

/-- Embedding of `fill_sb` (mkfs_bitsfs.c, lines 92-105); the name is "bitsfs" padded
with zero bytes by `strncpy`. -/
def fill_sb (sb : bitsfs_super_block) : bitsfs_super_block :=
  { sb with
    s_block_bitmap_block := BITSFS_BLKBMP_BLOCK,
    s_inode_bitmap_block := BITSFS_INDBMP_BLOCK,
    s_inode_table_block := BITSFS_INDTBL_BLOCK,
    s_data_block := BITSFS_DATA_BLOCK,
    s_block_size := BITSFS_BLOCK_SIZE,
    s_first_ino := BITSFS_ROOT_INO,
    s_inode_size := INODE_SIZE,
    s_magic := BITSFS_SUPER_MAGIC,
    s_state := BITSFS_VALID_FS,
    s_creator_os := BITSFS_OS_LINUX,
    s_name := [98, 105, 116, 115, 102, 115, 0, 0] }

/-- Embedding of `fill_inode` (mkfs_bitsfs.c, lines 107-118); `tsp` is `time(NULL)`,
stored into 32-bit fields. -/
def fill_inode (inode : bitsfs_inode) (tsp : Int) : bitsfs_inode :=
  { inode with
    i_mode := S_IFDIR ||| 0o700 ||| 0o40 ||| 0o4 ||| 0o10 ||| 0o1,
    i_mtime := (tsp.emod (2 ^ 32)).toNat,
    i_atime := (tsp.emod (2 ^ 32)).toNat,
    i_ctime := (tsp.emod (2 ^ 32)).toNat,
    i_size := BITSFS_BLOCK_SIZE,
    i_links_count := 2,
    i_block := fun n => if n = 0 then BITSFS_DATA_BLOCK else inode.i_block n,
    i_blocks := 1 }

/-- Embedding of `fill_root_dir` (mkfs_bitsfs.c, lines 120-134); 46 is '.'. -/
def fill_root_dir (rdir : bitsfs_dir_special) : bitsfs_dir_special :=
  { rdir with
    inode1 := BITSFS_ROOT_INO, rec_len1 := DENT_LEN, name_len1 := 1,
    file_type1 := BITSFS_FT_DIR,
    name1 := fun i => if i = 0 then 46 else rdir.name1 i,
    inode2 := BITSFS_ROOT_INO, rec_len2 := DENT_LEN, name_len2 := 2,
    file_type2 := BITSFS_FT_DIR,
    name2 := fun i => if i = 0 then 46 else if i = 1 then 46 else rdir.name2 i }

/-- What the formatter meets outside itself: `argc`, what `open` and `dup2` return,
what `fstat` returns and whether the file is a block device, what
`lseek(fd, 0, SEEK_END)` returns, `time(NULL)`, and the value returned by its
`k`-th call of `PUT` (counting from 0). -/
structure MkfsInput where
  argc : Int
  open_fd : Int
  dup_fd : Int
  stat_ret : Int
  is_blk : Bool
  dsize : Int
  tsp : Int
  put_ret : Nat → Int

/-- The superblock that `main` builds in its buffer (mkfs_bitsfs.c, lines 187-203)
from `kbytes`.  `nblocks` and `inode_count` are `int`; the four counts are
`uint32_t`, so the two subtractions are taken modulo `2^32`. -/
def mkfs_super_block (kbytes : Int) : bitsfs_super_block :=
  let nblocks : Int := to_int ((kbytes * 1024).tdiv BITSFS_BLOCK_SIZE).toNat
  let inode_count : Int := to_int (BITSFS_INDTBL_BLOCKS * BITSFS_BLOCK_SIZE / INODE_SIZE)
  let sb := fill_sb zero_super_block
  let s_inodes_count := (inode_count.emod (2 ^ 32)).toNat
  let s_blocks_count := (nblocks.emod (2 ^ 32)).toNat
  { sb with
    s_inodes_count := s_inodes_count,
    s_blocks_count := s_blocks_count,
    s_free_inodes_count := (((s_inodes_count : Int) - 1).emod (2 ^ 32)).toNat,
    s_free_blocks_count :=
      (((s_blocks_count : Int) - BITSFS_DATA_BLOCK - 1).emod (2 ^ 32)).toNat }

/-- The loop `for (int i = 0; i < BITSFS_INDTBL_BLOCKS; ++i)` of `main` that zeroes
the inode table: the number of iterations left, `i`, and the calls of `PUT` made
so far; the result tells whether the loop ran to its end (no `goto mend`). -/
def put_inode_table (put_ret : Nat → Int) : Nat → Nat → List Put → Bool × List Put
  | 0, _, acc => (true, acc)
  | k + 1, i, acc =>
    let p : Put :=
      { off := (BITSFS_INDTBL_BLOCK + i) * BITSFS_BLOCK_SIZE, len := BITSFS_BLOCK_SIZE,
        payload := Payload.zeros }
    if put_ret (6 + i) ≠ BITSFS_BLOCK_SIZE then (false, acc ++ [p])
    else put_inode_table put_ret k (i + 1) (acc ++ [p])

/-- What a run of the formatter leaves behind: the exit status of the process and
the calls of `PUT` it made, in order. -/
structure MkfsRun where
  exit_code : Int
  puts : List Put

/-- The checks of `main` before it computes anything (mkfs_bitsfs.c, lines
153-182); each one that fails ends the run with `exit(EXIT_FAILURE)`. -/
def mkfs_accepts (inp : MkfsInput) : Bool :=
  !(inp.argc ≤ 1) && !(inp.open_fd < 0) &&
  !((if inp.open_fd = DFD then DFD else inp.dup_fd) ≠ DFD) &&
  !(inp.stat_ret < 0) && inp.is_blk && !(inp.dsize.tdiv 1024 < BDEV_MIN_SIZE)

/-- Embedding of `main` (mkfs_bitsfs.c, lines 136-274).  Every `goto mend` and the
end of the function reach `return 0`. -/
def mkfs_main (inp : MkfsInput) : MkfsRun :=
  if !mkfs_accepts inp then { exit_code := EXIT_FAILURE, puts := [] }
  else
    let kbytes := inp.dsize.tdiv 1024
    let blk (n : Nat) : Put :=
      { off := n * BITSFS_BLOCK_SIZE, len := BITSFS_BLOCK_SIZE, payload := Payload.zeros }
    let p_sb : Put :=
      { off := BITSFS_SUPER_BLOCK * BITSFS_BLOCK_SIZE, len := BITSFS_BLOCK_SIZE,
        payload := Payload.super (mkfs_super_block kbytes) }
    if inp.put_ret 0 ≠ BITSFS_BLOCK_SIZE then { exit_code := 0, puts := [p_sb] }
    else
      let bmp : List Put :=
        [blk BITSFS_BLKBMP_BLOCK, blk (BITSFS_BLKBMP_BLOCK + 1), blk (BITSFS_BLKBMP_BLOCK + 2),
         blk (BITSFS_BLKBMP_BLOCK + 3)]
      if inp.put_ret 1 + inp.put_ret 2 + inp.put_ret 3 + inp.put_ret 4 ≠
          BITSFS_BLOCK_SIZE * BITSFS_BLKBMP_BLOCKS then
        { exit_code := 0, puts := p_sb :: bmp }
      else
        let p_ibmp := blk BITSFS_INDBMP_BLOCK
        if inp.put_ret 5 ≠ BITSFS_BLOCK_SIZE then
          { exit_code := 0, puts := p_sb :: bmp ++ [p_ibmp] }
        else
          match put_inode_table inp.put_ret BITSFS_INDTBL_BLOCKS 0 (p_sb :: bmp ++ [p_ibmp]) with
          | (false, puts) => { exit_code := 0, puts := puts }
          | (true, puts) =>
            let p_root : Put :=
              { off := BITSFS_INDTBL_BLOCK * BITSFS_BLOCK_SIZE + (BITSFS_ROOT_INO - 1) * INODE_SIZE,
                len := INODE_SIZE, payload := Payload.inode (fill_inode zero_inode_record inp.tsp) }
            if inp.put_ret 134 ≠ INODE_SIZE then { exit_code := 0, puts := puts ++ [p_root] }
            else
              let p_dir : Put :=
                { off := BITSFS_DATA_BLOCK * BITSFS_BLOCK_SIZE, len := BITSFS_BLOCK_SIZE,
                  payload := Payload.root_dir (fill_root_dir zero_dir_special) }
              { exit_code := 0, puts := puts ++ [p_root, p_dir] }

/-- The effect of one completed `PUT` on the inode records of the device: a block
of zeros turns every record lying inside it into the zero record, an inode record
replaces the record at its offset; the other payloads are not read as inode
records (the records they overlap are left as they were). -/
def apply_put (p : Put) (v : Nat → bitsfs_inode) : Nat → bitsfs_inode :=
  match p.payload with
  | Payload.zeros =>
    fun a => if p.off ≤ a ∧ a + INODE_SIZE ≤ p.off + p.len then zero_inode_record else v a
  | Payload.inode raw => fun a => if a = p.off then raw else v a
  | _ => v

/-- The effect of a list of completed `PUT`s, first to last. -/
def apply_puts (ps : List Put) (v : Nat → bitsfs_inode) : Nat → bitsfs_inode :=
  ps.foldl (fun w p => apply_put p w) v

/-- The superblock carried by a `PUT`, if it carries one. -/
def put_super (p : Put) : Option bitsfs_super_block :=
  match p.payload with
  | Payload.super sb => some sb
  | _ => none

/-! ## Directories: name lookup in `dentry.c` -/

def PAGE_SIZE : Nat := 4096
def ENOENT_errno : Int := 2

/-- The directory entry `struct bitsfs_dir_entry` (bitsfs.h, lines 176-182); `name`
gives the bytes of `char name[DENT_NAME_LEN]` by index. -/
structure bitsfs_dir_entry where
  inode : Nat
  rec_len : Nat
  name_len : Nat
  file_type : Nat
  name : Nat → Nat

/-- A directory as `dentry.c` reads it: `i_size`, the hint `i_dir_start_lookup`, and
the entry at slot `k` (byte offset `k * DENT_LEN`) of page `n` of its page cache.
Every page is taken to be readable. -/
structure dir_inode where
  i_size : Nat
  i_dir_start_lookup : Nat
  entry : Nat → Nat → bitsfs_dir_entry

/-- The kernel's `dir_pages`: the number of pages that `i_size` bytes take. -/
def dir_pages (dir : dir_inode) : Nat :=
  (dir.i_size + PAGE_SIZE - 1) / PAGE_SIZE

/-- Embedding of `bitsfs_last_byte` (dentry.c, lines 28-36); `last_byte` is an
`unsigned`, so the subtraction is taken modulo `2^32`. -/
def bitsfs_last_byte (dir : dir_inode) (page_nr : Nat) : Nat :=
  let last_byte := (((dir.i_size : Int) - (page_nr * PAGE_SIZE : Nat)).emod (2 ^ 32)).toNat
  if last_byte > PAGE_SIZE then PAGE_SIZE else last_byte

/-- Embedding of `bitsfs_name_match` (dentry.c, lines 9-14): `memcmp` over the first
`len` bytes of the two names. -/
def bitsfs_name_match (len : Nat) (name : Nat → Nat) (de : bitsfs_dir_entry) : Bool :=
  if de.inode = 0 then false
  else (List.range len).all (fun i => name i == de.name i)

/-- How the walk over the slots of one page ends in `bitsfs_find_entry`: at a
matching slot, at a slot with `rec_len == 0` (`goto out`), or past the last slot. -/
inductive PageScan where
  | found (slot : Nat)
  | empty_entry
  | page_end

/-- The loop `while ((char*)de <= kaddr)` of `bitsfs_find_entry` on one page, with
the number of slots left before `kaddr` is passed and the current slot. -/
def find_in_page (page : Nat → bitsfs_dir_entry) (len : Nat) (name : Nat → Nat) :
    Nat → Nat → PageScan
  | 0, _ => PageScan.page_end
  | left + 1, k =>
    if (page k).rec_len = 0 then PageScan.empty_entry
    else if bitsfs_name_match len name (page k) then PageScan.found k
    else find_in_page page len name left (k + 1)

/-- What `bitsfs_find_entry` hands back: 0 and the place (page, slot) of the entry
it returns, or `-ENOENT`; and the hint `i_dir_start_lookup` it leaves. -/
structure FindResult where
  ret : Int
  page : Nat
  slot : Nat
  start_lookup : Nat
deriving DecidableEq

/-- The `do ... while (n != start)` loop of `bitsfs_find_entry` over the pages, with
a bound on the number of pages still to visit; `none` means the bound was
reached.  The slots walked on page `n` are those that end at or before
`bitsfs_last_byte(dir, n)`. -/
def find_in_pages (dir : dir_inode) (len : Nat) (name : Nat → Nat) (npages start : Nat) :
    Nat → Nat → Option FindResult
  | 0, _ => none
  | fuel + 1, n =>
    match find_in_page (dir.entry n) len name (bitsfs_last_byte dir n / DENT_LEN) 0 with
    | PageScan.found k =>
      some { ret := 0, page := n, slot := k, start_lookup := n }
    | PageScan.empty_entry =>
      some { ret := - ENOENT_errno, page := 0, slot := 0,
             start_lookup := dir.i_dir_start_lookup }
    | PageScan.page_end =>
      let n1 := if n + 1 ≥ npages then 0 else n + 1
      if n1 = start then
        some { ret := - ENOENT_errno, page := 0, slot := 0,
               start_lookup := dir.i_dir_start_lookup }
      else find_in_pages dir len name npages start fuel n1

/-- Embedding of `bitsfs_find_entry` (dentry.c, lines 126-212) for the name
`child->name` of length `child->len`. -/
def bitsfs_find_entry (dir : dir_inode) (len : Nat) (name : Nat → Nat) : Option FindResult :=
  let npages := dir_pages dir
  if npages = 0 then
    some { ret := - ENOENT_errno, page := 0, slot := 0, start_lookup := dir.i_dir_start_lookup }
  else
    let start := if dir.i_dir_start_lookup ≥ npages then 0 else dir.i_dir_start_lookup
    find_in_pages dir len name npages start npages start

/-! ## Concrete states used in the examples for inodes, mount, formatter and
directories -/

/-- An in-memory inode as a zeroed slab object would give it. -/
def blank_inode : vfs_inode :=
  { i_ino := 0, i_mode := 0, i_nlink := 0, i_size := 0, i_atime_sec := 0, i_ctime_sec := 0,
    i_mtime_sec := 0, i_blocks := 0, i_blkbits := 12, i_data := fun _ => 0, i_flags := 0,
    i_state := 0, i_file_acl := 0, i_dir_acl := 0, i_dtime := 0, is_bad := false }

/-- A device whose blocks can all be read and whose inode table holds zero records. -/
def blank_disk : inode_disk :=
  { bread_ok := fun _ => true, inode_at := fun _ => zero_inode_record }

/-- An inode bitmap in which bits 0..4095 are set: with 4096 inodes, no inode is
free. -/
def full_inode_bitmap : Bitmap := fun i => decide (i < 4096)

/-- An inode bitmap in which bits 0, 1 and 2 are set (inodes 1, 2 and 3 in use). -/
def three_inode_bitmap : Bitmap := fun i => decide (i < 3)

/-- A device holding, as inode 3, the record of a regular file with link count 1
and a non-zero deletion time. -/
def dtime_disk : inode_disk :=
  { bread_ok := fun _ => true,
    inode_at := fun a =>
      if a = 7 * 4096 + 2 * 128 then
        { zero_inode_record with i_mode := 0o100644, i_links_count := 1, i_dtime := 5 }
      else zero_inode_record }

/-- An in-memory regular file, inode 3, with link count 1, 20480 bytes and the five
blocks 136..140 in direct slots 0..4. -/
def five_block_inode : vfs_inode :=
  { blank_inode with
    i_ino := 3, i_mode := 0o100644, i_nlink := 1, i_size := 20480, i_blocks := 40,
    i_data := fun n => if n < 5 then 136 + n else 0 }

/-- A run of the formatter on a block device of 256 KiB (64 blocks): the writes
that fall inside the device (the first 63 calls of `PUT`) return their full
length, the later ones return -1. -/
def small_device : MkfsInput :=
  { argc := 2, open_fd := 4, dup_fd := 3, stat_ret := 0, is_blk := true, dsize := 262144,
    tsp := 1700000000, put_ret := fun k => if k < 63 then 4096 else -1 }

/-- A run of the formatter on a block device of 1 MiB (256 blocks) on which every
write returns its full length. -/
def good_device : MkfsInput :=
  { argc := 2, open_fd := 4, dup_fd := 3, stat_ret := 0, is_blk := true, dsize := 1048576,
    tsp := 1700000000, put_ret := fun k => if k = 134 then 128 else 4096 }

/-- A superblock record as the formatter writes it for a 1 MiB device, with the
magic number replaced by 0. -/
def bad_magic_super : bitsfs_super_block :=
  { mkfs_super_block 1024 with s_magic := 0 }

/-- The entry of name "." for inode `ino`. -/
def dot_entry (ino : Nat) : bitsfs_dir_entry :=
  { inode := ino, rec_len := 64, name_len := 1, file_type := 0,
    name := fun i => if i = 0 then 46 else 0 }

/-- The entry of name ".." for inode `ino`. -/
def dotdot_entry (ino : Nat) : bitsfs_dir_entry :=
  { inode := ino, rec_len := 64, name_len := 2, file_type := 0,
    name := fun i => if i < 2 then 46 else 0 }

/-- A slot never written: all zero. -/
def zero_entry : bitsfs_dir_entry :=
  { inode := 0, rec_len := 0, name_len := 0, file_type := 0, name := fun _ => 0 }

/-- The root directory holding ".", ".." and one file "ab" (97, 98) of inode 3. -/
def ab_dir : dir_inode :=
  { i_size := 4096, i_dir_start_lookup := 0,
    entry := fun n k =>
      if n = 0 ∧ k = 0 then dot_entry 2
      else if n = 0 ∧ k = 1 then dotdot_entry 2
      else if n = 0 ∧ k = 2 then
        { inode := 3, rec_len := 64, name_len := 2, file_type := 0,
          name := fun i => if i = 0 then 97 else if i = 1 then 98 else 0 }
      else zero_entry }

/-- The one-byte name "a". -/
def name_a : Nat → Nat := fun i => if i = 0 then 97 else 0

/-! ## Directories: the writers of `dentry.c` -/

def EEXIST_errno : Int := 17
def ENOTEMPTY_errno : Int := 39
def RENAME_NOREPLACE : Nat := 1
/-- The number of file blocks that `bitsfs_get_block` can map: 12 direct ones and 4
runs of 1024. -/
def BITSFS_MAX_BLOCKS : Nat := BITSFS_DDIR_BLOCKS + BITSFS_NDIR_BLOCKS * BITSFS_NDIR_BLOCK_COUNT

/-- The size update of `bitsfs_commit_chunk` (dentry.c, lines 43-66): `i_size`
becomes `pos + len` when that is larger.  The value the function returns (0, or
the error of `write_one_page` / `sync_inode_metadata` on a DIRSYNC directory) is a
parameter of its callers. -/
def bitsfs_commit_chunk (dir : dir_inode) (pos len : Nat) : dir_inode :=
  if pos + len > dir.i_size then { dir with i_size := pos + len } else dir

/-- The page cache of `dir` with slot `k` of page `n` replaced by `de`. -/
def put_entry (dir : dir_inode) (n k : Nat) (de : bitsfs_dir_entry) : dir_inode :=
  { dir with entry := fun n1 k1 => if n1 = n ∧ k1 = k then de else dir.entry n1 k1 }

/-- How the walk over the slots of one page ends in `bitsfs_add_link`: at `got_it`,
at a slot that matches the name (`-EEXIST`), or past the last slot. -/
inductive AddScan where
  | got_it (slot : Nat)
  | name_exists
  | page_end

/-- The loop `while ((char *)de <= kaddr)` of `bitsfs_add_link` on one page, with
`kaddr = page_addr + PAGE_SIZE - DENT_LEN`: the number of slots left, and the
current slot.  `dir_end` is `bitsfs_last_byte(dir, n)`, the offset of the pointer
`dir_end` in the page. -/
def add_link_in_page (page : Nat → bitsfs_dir_entry) (dir_end : Nat) (len : Nat)
    (name : Nat → Nat) : Nat → Nat → AddScan
  | 0, _ => AddScan.page_end
  | left + 1, k =>
    if k * DENT_LEN = dir_end ∨ (page k).rec_len = 0 then AddScan.got_it k
    else if bitsfs_name_match len name (page k) then AddScan.name_exists
    else add_link_in_page page dir_end len name left (k + 1)

/-- Where the search of `bitsfs_add_link` ends: at the slot to write, at a slot
that matches the name, or after page `npages` without either (the `return -EEXIST`
that follows the loop). -/
inductive AddPlace where
  | here (page slot : Nat)
  | name_exists
  | no_room

/-- The loop `for (n = 0; n <= npages; n++)` of `bitsfs_add_link`: the number of
pages left, and `n`. -/
def add_link_in_pages (dir : dir_inode) (len : Nat) (name : Nat → Nat) : Nat → Nat → AddPlace
  | 0, _ => AddPlace.no_room
  | left + 1, n =>
    match add_link_in_page (dir.entry n) (bitsfs_last_byte dir n) len name
        (PAGE_SIZE / DENT_LEN) 0 with
    | AddScan.got_it k => AddPlace.here n k
    | AddScan.name_exists => AddPlace.name_exists
    | AddScan.page_end => add_link_in_pages dir len name left (n + 1)

/-- What a writer of `dentry.c` hands back: its return value and the directory it
leaves. -/
structure DirResult where
  ret : Int
  dir : dir_inode

/-- Embedding of `bitsfs_add_link` (dentry.c, lines 274-360) for a name of `len`
bytes (at most `DENT_NAME_LEN`) and the inode number `ino` of `inode`.
`prepare_err` is what `bitsfs_prepare_chunk` returns and `commit_err` what
`bitsfs_commit_chunk` returns.  `de->inode` is a `__le32`, `de->name_len` a `__u8`;
`memcpy` leaves the bytes of `de->name` from `len` on as they were;
`bitsfs_set_de_type` does nothing. -/
def bitsfs_add_link (dir : dir_inode) (len : Nat) (name : Nat → Nat) (ino : Nat)
    (prepare_err commit_err : Int) : DirResult :=
  match add_link_in_pages dir len name (dir_pages dir + 1) 0 with
  | AddPlace.no_room => { ret := - EEXIST_errno, dir := dir }
  | AddPlace.name_exists => { ret := - EEXIST_errno, dir := dir }
  | AddPlace.here n k =>
    if prepare_err ≠ 0 then { ret := prepare_err, dir := dir }
    else
      let de : bitsfs_dir_entry :=
        { dir.entry n k with
          inode := ino % 2 ^ 32,
          rec_len := DENT_LEN,
          name_len := len % 256,
          name := fun i => if i < len then name i else (dir.entry n k).name i }
      { ret := commit_err,
        dir := bitsfs_commit_chunk (put_entry dir n k de) (n * PAGE_SIZE + k * DENT_LEN)
          DENT_LEN }

/-- Embedding of `bitsfs_delete_entry` (dentry.c, lines 365-392) for the entry at
slot `k` of page `n`; `chunk_size` is `bitsfs_chunk_size(inode)`, an `unsigned`,
and `commit_err` is what `bitsfs_commit_chunk` returns.  (`bitsfs_prepare_chunk`
must succeed: `BUG_ON(err)`.) -/
def bitsfs_delete_entry (dir : dir_inode) (n k : Nat) (chunk_size : Nat) (commit_err : Int) :
    DirResult :=
  let mask : Nat := (2 ^ 32 - 1) ^^^ ((chunk_size + 2 ^ 32 - 1) % 2 ^ 32)
  let from_off : Nat := (k * DENT_LEN) &&& mask
  let to_off : Nat := k * DENT_LEN + DENT_LEN
  let pos : Nat := n * PAGE_SIZE + from_off
  { ret := commit_err,
    dir := bitsfs_commit_chunk (put_entry dir n k { dir.entry n k with inode := 0 }) pos
      (to_off - from_off) }

/-- Embedding of `bitsfs_set_link` (dentry.c, lines 249-269) for the entry at slot
`k` of page `n` and the inode number `ino` of `inode`.  (`bitsfs_prepare_chunk`
must succeed: `BUG_ON(err)`; the value of `bitsfs_commit_chunk` is dropped.) -/
def bitsfs_set_link (dir : dir_inode) (n k : Nat) (ino : Nat) : dir_inode :=
  bitsfs_commit_chunk (put_entry dir n k { dir.entry n k with inode := ino % 2 ^ 32 })
    (n * PAGE_SIZE + k * DENT_LEN) DENT_LEN

/-- Embedding of `bitsfs_make_empty` (dentry.c, lines 397-434) on the directory
`inode` of number `ino` with parent number `parent_ino`.  `page_ok` tells whether
`grab_cache_page` returned a page, `prepare_err` and `commit_err` are what
`bitsfs_prepare_chunk` and `bitsfs_commit_chunk` return; `chunk_size` is a multiple
of `DENT_LEN`, so `memset` clears whole slots; 46 is '.'. -/
def bitsfs_make_empty (inode : dir_inode) (ino parent_ino chunk_size : Nat) (page_ok : Bool)
    (prepare_err commit_err : Int) : DirResult :=
  if !page_ok then { ret := - ENOMEM_errno, dir := inode }
  else if prepare_err ≠ 0 then { ret := prepare_err, dir := inode }
  else
    let cleared : Nat → bitsfs_dir_entry := fun k =>
      if (k + 1) * DENT_LEN ≤ chunk_size then
        { inode := 0, rec_len := 0, name_len := 0, file_type := 0, name := fun _ => 0 }
      else inode.entry 0 k
    let de0 : bitsfs_dir_entry :=
      { cleared 0 with
        inode := ino % 2 ^ 32, name_len := 1, rec_len := DENT_LEN,
        name := fun i => if i = 0 then 46 else if i < 4 then 0 else (cleared 0).name i }
    let de1 : bitsfs_dir_entry :=
      { cleared 1 with
        inode := parent_ino % 2 ^ 32, name_len := 2, rec_len := DENT_LEN,
        name := fun i => if i < 2 then 46 else if i < 4 then 0 else (cleared 1).name i }
    let filled : dir_inode :=
      { inode with
        entry := fun n k =>
          if n = 0 then (if k = 0 then de0 else if k = 1 then de1 else cleared k)
          else inode.entry n k }
    { ret := commit_err, dir := bitsfs_commit_chunk filled 0 chunk_size }

/-- The test that `bitsfs_empty_dir` makes on an entry with `de->inode != 0`
(dentry.c, lines 463-474): `true` when it takes `goto not_empty`. -/
def empty_dir_rejects (de : bitsfs_dir_entry) (ino : Nat) : Bool :=
  if de.name 0 ≠ 46 then true
  else if de.name_len > 2 then true
  else if de.name_len < 2 then
    (if de.inode ≠ ino % 2 ^ 32 then true else false)
  else if de.name 1 ≠ 46 then true
  else false

/-- How the walk over the slots of one page ends in `bitsfs_empty_dir`. -/
inductive EmptyScan where
  | not_empty
  | empty_entry
  | page_end

/-- The loop `while ((char *)de <= kaddr)` of `bitsfs_empty_dir` on one page: the
number of slots left before `kaddr` is passed, and the current slot. -/
def empty_dir_in_page (page : Nat → bitsfs_dir_entry) (ino : Nat) : Nat → Nat → EmptyScan
  | 0, _ => EmptyScan.page_end
  | left + 1, k =>
    if (page k).rec_len = 0 then EmptyScan.empty_entry
    else if (page k).inode ≠ 0 ∧ empty_dir_rejects (page k) ino = true then EmptyScan.not_empty
    else empty_dir_in_page page ino left (k + 1)

/-- The loop `for (i = 0; i < npages; i++)` of `bitsfs_empty_dir`: the number of
pages left, and `i`; the value is the one the function returns. -/
def empty_dir_in_pages (dir : dir_inode) (ino : Nat) : Nat → Nat → Int
  | 0, _ => 1
  | left + 1, i =>
    match empty_dir_in_page (dir.entry i) ino (bitsfs_last_byte dir i / DENT_LEN) 0 with
    | EmptyScan.not_empty => 0
    | EmptyScan.empty_entry => 1
    | EmptyScan.page_end => empty_dir_in_pages dir ino left (i + 1)

/-- Embedding of `bitsfs_empty_dir` (dentry.c, lines 439-486) for the directory
`dir` of inode number `ino`. -/
def bitsfs_empty_dir (dir : dir_inode) (ino : Nat) : Int :=
  empty_dir_in_pages dir ino (dir_pages dir) 0

/-- What `bitsfs_get_ino_by_name` hands back: its return value, the number stored
through `ino` (meaningful when the value is 0), and the directory with the hint
that `bitsfs_find_entry` left. -/
structure GetInoResult where
  ret : Int
  ino : Nat
  dir : dir_inode

/-- Embedding of `bitsfs_get_ino_by_name` (dentry.c, lines 230-247): the name search
of `bitsfs_lookup`.  `none` as in `bitsfs_find_entry`. -/
def bitsfs_get_ino_by_name (dir : dir_inode) (len : Nat) (name : Nat → Nat) :
    Option GetInoResult :=
  match bitsfs_find_entry dir len name with
  | none => none
  | some r =>
    if r.ret ≠ 0 then some { ret := r.ret, ino := 0, dir := dir }
    else
      some { ret := 0, ino := (dir.entry r.page r.slot).inode,
             dir := { dir with i_dir_start_lookup := r.start_lookup } }

/-! ## Names: `namei.c` -/

/-- The in-memory inode as `namei.c` handles it: number, mode and link count of the
`struct inode` and, for a directory, what `dentry.c` reads and writes of it
(`i_size`, the lookup hint and the pages). -/
structure mem_inode where
  i_ino : Nat
  i_mode : Nat
  i_nlink : Nat
  dir : dir_inode

/-- The kernel's `inode_inc_link_count`; `i_nlink` is an `unsigned int`. -/
def inode_inc_link_count (inode : mem_inode) : mem_inode :=
  { inode with i_nlink := (inode.i_nlink + 1) % 2 ^ 32 }

/-- The kernel's `inode_dec_link_count` (and `drop_nlink`); `i_nlink` is an
`unsigned int`. -/
def inode_dec_link_count (inode : mem_inode) : mem_inode :=
  { inode with i_nlink := (inode.i_nlink + 2 ^ 32 - 1) % 2 ^ 32 }

/-- The inode that `bitsfs_new_inode` returned, as `namei.c` goes on with it: its
page cache is empty, so every page reads as zeroes; `hint` is the
`i_dir_start_lookup` that the slab object held. -/
def mem_inode_of (v : vfs_inode) (hint : Nat) : mem_inode :=
  { i_ino := v.i_ino, i_mode := v.i_mode, i_nlink := v.i_nlink,
    dir := { i_size := v.i_size.toNat, i_dir_start_lookup := hint,
             entry := fun _ _ => zero_entry } }

/-- The directory with the hint that a call of `bitsfs_find_entry` left. -/
def with_hint (dir : dir_inode) (r : FindResult) : dir_inode :=
  { dir with i_dir_start_lookup := r.start_lookup }

/-- What `bitsfs_create` and `bitsfs_mkdir` leave: the return value, the parent
directory, the inode they made and the inode bitmap. -/
structure CreateResult where
  ret : Int
  dir : mem_inode
  inode : mem_inode
  imap : Bitmap

/-- Embedding of `bitsfs_create` with `bitsfs_add_nondir` (namei.c, lines 31-63).
The parameters from `imap` to `collides` are those of `bitsfs_new_inode`; `hint` as
in `mem_inode_of`; `prepare_err` and `commit_err` as in `bitsfs_add_link`.  What
`discard_new_inode` does to the inode after a failed `bitsfs_add_link` is left
out. -/
def bitsfs_create (dir : mem_inode) (imap : Bitmap) (s_inodes_count : Nat) (len : Nat)
    (name : Nat → Nat) (mode : Nat) (now : Int) (fresh : vfs_inode) (hint : Nat)
    (have_inode collides : Bool) (prepare_err commit_err : Int) : CreateResult :=
  let r := bitsfs_new_inode imap s_inodes_count mode now fresh have_inode collides
  if r.ret ≠ 0 then
    { ret := r.ret, dir := dir, inode := mem_inode_of r.inode hint, imap := r.imap }
  else
    let inode := mem_inode_of r.inode hint
    let a := bitsfs_add_link dir.dir len name inode.i_ino prepare_err commit_err
    if a.ret = 0 then
      { ret := 0, dir := { dir with dir := a.dir }, inode := inode, imap := r.imap }
    else
      { ret := a.ret, dir := { dir with dir := a.dir }, inode := inode_dec_link_count inode,
        imap := r.imap }

/-- What `bitsfs_unlink` and `bitsfs_rmdir` leave: the return value, the parent
directory and the inode named. -/
structure UnlinkResult where
  ret : Int
  dir : mem_inode
  inode : mem_inode

/-- Embedding of `bitsfs_unlink` (namei.c, lines 92-124); `chunk_size` and
`commit_err` as in `bitsfs_delete_entry`.  `none` as in `bitsfs_find_entry`. -/
def bitsfs_unlink (dir inode : mem_inode) (len : Nat) (name : Nat → Nat) (chunk_size : Nat)
    (commit_err : Int) : Option UnlinkResult :=
  match bitsfs_find_entry dir.dir len name with
  | none => none
  | some r =>
    if r.ret ≠ 0 then some { ret := r.ret, dir := dir, inode := inode }
    else
      let d := bitsfs_delete_entry (with_hint dir.dir r) r.page r.slot chunk_size commit_err
      if d.ret ≠ 0 then some { ret := d.ret, dir := { dir with dir := d.dir }, inode := inode }
      else
        some { ret := 0, dir := { dir with dir := d.dir },
               inode := inode_dec_link_count inode }

/-- Embedding of `bitsfs_mkdir` (namei.c, lines 126-175).  The parameters from
`imap` to `collides` are those of `bitsfs_new_inode`, `hint` as in `mem_inode_of`,
`chunk_size`, `page_ok` and the two `empty_` values those of `bitsfs_make_empty`,
the two `link_` values those of `bitsfs_add_link`.  What `discard_new_inode` does
to the inode under `out_fail` is left out. -/
def bitsfs_mkdir (dir : mem_inode) (imap : Bitmap) (s_inodes_count : Nat) (len : Nat)
    (name : Nat → Nat) (mode : Nat) (now : Int) (fresh : vfs_inode) (hint : Nat)
    (have_inode collides : Bool) (chunk_size : Nat) (page_ok : Bool)
    (empty_prepare_err empty_commit_err link_prepare_err link_commit_err : Int) :
    CreateResult :=
  let dir1 := inode_inc_link_count dir
  let r := bitsfs_new_inode imap s_inodes_count (S_IFDIR ||| mode) now fresh have_inode collides
  if r.ret ≠ 0 then
    { ret := r.ret, dir := inode_dec_link_count dir1, inode := mem_inode_of r.inode hint,
      imap := r.imap }
  else
    let inode1 := inode_inc_link_count (mem_inode_of r.inode hint)
    let e := bitsfs_make_empty inode1.dir inode1.i_ino dir1.i_ino chunk_size page_ok
      empty_prepare_err empty_commit_err
    let inode2 : mem_inode := { inode1 with dir := e.dir }
    if e.ret ≠ 0 then
      { ret := e.ret, dir := inode_dec_link_count dir1,
        inode := inode_dec_link_count (inode_dec_link_count inode2), imap := r.imap }
    else
      let a := bitsfs_add_link dir1.dir len name inode2.i_ino link_prepare_err link_commit_err
      let dir2 : mem_inode := { dir1 with dir := a.dir }
      if a.ret ≠ 0 then
        { ret := a.ret, dir := inode_dec_link_count dir2,
          inode := inode_dec_link_count (inode_dec_link_count inode2), imap := r.imap }
      else
        { ret := 0, dir := dir2, inode := inode2, imap := r.imap }

/-- Embedding of `bitsfs_rmdir` (namei.c, lines 177-196) for the directory `inode`
named `name` in `dir`. -/
def bitsfs_rmdir (dir inode : mem_inode) (len : Nat) (name : Nat → Nat) (chunk_size : Nat)
    (commit_err : Int) : Option UnlinkResult :=
  if bitsfs_empty_dir inode.dir inode.i_ino ≠ 0 then
    match bitsfs_unlink dir inode len name chunk_size commit_err with
    | none => none
    | some u =>
      if u.ret = 0 then
        some { ret := 0, dir := inode_dec_link_count u.dir,
               inode := inode_dec_link_count
                 { u.inode with dir := { u.inode.dir with i_size := 0 } } }
      else some u
  else some { ret := - ENOTEMPTY_errno, dir := dir, inode := inode }

/-- The inode cache with the inode of number `i` replaced by `x`. -/
def set_inode (c : Nat → mem_inode) (i : Nat) (x : mem_inode) : Nat → mem_inode :=
  fun j => if j = i then x else c j

/-- What `bitsfs_rename` leaves: the return value and the in-memory inodes. -/
structure RenameResult where
  ret : Int
  cache : Nat → mem_inode

/-- Embedding of `bitsfs_rename` (namei.c, lines 219-313).  The four inodes it
works on may coincide, so they are taken from the inode cache `c` by their numbers:
`old_dir`, `new_dir`, `old_inode = d_inode(old_dentry)` and
`new_inode = d_inode(new_dentry)` (`none` for a negative dentry).  `prepare_err`
and `commit_err` are those of `bitsfs_add_link`.  `bitsfs_dotdot` always finds its
page, so `dir_de` is non-NULL exactly when `old_inode` is a directory; it is the
slot at offset `DENT_LEN` of page 0. -/
def bitsfs_rename (c : Nat → mem_inode) (old_dir : Nat) (old_len : Nat) (old_name : Nat → Nat)
    (old_inode : Nat) (new_dir : Nat) (new_len : Nat) (new_name : Nat → Nat)
    (new_inode : Option Nat) (flags chunk_size : Nat) (prepare_err commit_err : Int) :
    Option RenameResult :=
  if flags &&& ((2 ^ 32 - 1) ^^^ RENAME_NOREPLACE) ≠ 0 then
    some { ret := - EINVAL_errno, cache := c }
  else
    match bitsfs_find_entry (c old_dir).dir old_len old_name with
    | none => none
    | some old_de =>
      if old_de.ret ≠ 0 then some { ret := old_de.ret, cache := c }
      else
        let c1 := set_inode c old_dir
          { c old_dir with dir := with_hint (c old_dir).dir old_de }
        let dir_de : Bool := S_ISDIR (c1 old_inode).i_mode
        let linked : Option RenameResult :=
          match new_inode with
          | some ni =>
            if dir_de ∧ bitsfs_empty_dir (c1 ni).dir (c1 ni).i_ino = 0 then
              some { ret := - ENOTEMPTY_errno, cache := c1 }
            else
              match bitsfs_find_entry (c1 new_dir).dir new_len new_name with
              | none => none
              | some new_de =>
                if new_de.ret ≠ 0 then some { ret := new_de.ret, cache := c1 }
                else
                  let c2 := set_inode c1 new_dir
                    { c1 new_dir with
                      dir := bitsfs_set_link (with_hint (c1 new_dir).dir new_de) new_de.page
                        new_de.slot (c1 old_inode).i_ino }
                  let c3 := if dir_de then set_inode c2 ni (inode_dec_link_count (c2 ni)) else c2
                  some { ret := 0, cache := set_inode c3 ni (inode_dec_link_count (c3 ni)) }
          | none =>
            let a := bitsfs_add_link (c1 new_dir).dir new_len new_name (c1 old_inode).i_ino
              prepare_err commit_err
            let c2 := set_inode c1 new_dir { c1 new_dir with dir := a.dir }
            if a.ret ≠ 0 then some { ret := a.ret, cache := c2 }
            else if dir_de then
              some { ret := 0, cache := set_inode c2 new_dir (inode_inc_link_count (c2 new_dir)) }
            else some { ret := 0, cache := c2 }
        match linked with
        | none => none
        | some l =>
          if l.ret ≠ 0 then some l
          else
            let c4 := l.cache
            let c5 := set_inode c4 old_dir
              { c4 old_dir with
                dir := (bitsfs_delete_entry (c4 old_dir).dir old_de.page old_de.slot chunk_size
                  0).dir }
            if dir_de then
              let c6 :=
                if old_dir ≠ new_dir then
                  set_inode c5 old_inode
                    { c5 old_inode with
                      dir := bitsfs_set_link (c5 old_inode).dir 0 1 (c5 new_dir).i_ino }
                else c5
              some { ret := 0, cache := set_inode c6 old_dir (inode_dec_link_count (c6 old_dir)) }
            else some { ret := 0, cache := c5 }

/-! ## Vocabulary of the statements about directories -/

/-- The directory of an inode fresh from `bitsfs_new_inode`: size 0 and an empty
page cache. -/
def new_dir (hint : Nat) : dir_inode :=
  { i_size := 0, i_dir_start_lookup := hint, entry := fun _ _ => zero_entry }

/-- The root directory of a freshly formatted image as `dentry.c` reads it: the
size that `fill_inode` records, and as page 0 the block that `main` zeroes and
passes to `fill_root_dir`. -/
def formatted_root (hint : Nat) : dir_inode :=
  { i_size := (fill_inode zero_inode_record 0).i_size,
    i_dir_start_lookup := hint,
    entry := fun n k =>
      if n = 0 ∧ k = 0 then
        { inode := (fill_root_dir zero_dir_special).inode1,
          rec_len := (fill_root_dir zero_dir_special).rec_len1,
          name_len := (fill_root_dir zero_dir_special).name_len1,
          file_type := (fill_root_dir zero_dir_special).file_type1,
          name := (fill_root_dir zero_dir_special).name1 }
      else if n = 0 ∧ k = 1 then
        { inode := (fill_root_dir zero_dir_special).inode2,
          rec_len := (fill_root_dir zero_dir_special).rec_len2,
          name_len := (fill_root_dir zero_dir_special).name_len2,
          file_type := (fill_root_dir zero_dir_special).file_type2,
          name := (fill_root_dir zero_dir_special).name2 }
      else zero_entry }

/-- The states of a directory that the filesystem's own operations reach: the
formatted root or the result of `bitsfs_make_empty` on a new inode, followed by
calls of `bitsfs_add_link` (names of at most `DENT_NAME_LEN` bytes), of
`bitsfs_find_entry`, and of `bitsfs_delete_entry` and `bitsfs_set_link` on an entry
that `bitsfs_find_entry` returned or (`bitsfs_set_link` in `bitsfs_rename`) on the
entry of `bitsfs_dotdot`.  The pages are those of the page cache, which keeps what
was written to it.  `bitsfs_prepare_chunk` maps the page through
`bitsfs_get_block`, which has no block for a page index of `BITSFS_MAX_BLOCKS` or
more, so no call of `bitsfs_add_link` takes the directory past that many pages. -/
inductive dir_reachable : dir_inode → Prop where
  | formatted (hint : Nat) : dir_reachable (formatted_root hint)
  | make_empty (hint ino parent_ino : Nat) (commit_err : Int) :
    dir_reachable
      (bitsfs_make_empty (new_dir hint) ino parent_ino BITSFS_BLOCK_SIZE true 0 commit_err).dir
  | add_link (d : dir_inode) (h : dir_reachable d) (len : Nat) (name : Nat → Nat) (ino : Nat)
    (prepare_err commit_err : Int) (hlen : len ≤ DENT_NAME_LEN)
    (hmap : (bitsfs_add_link d len name ino prepare_err commit_err).dir.i_size ≤
      BITSFS_MAX_BLOCKS * PAGE_SIZE) :
    dir_reachable (bitsfs_add_link d len name ino prepare_err commit_err).dir
  | find_entry (d : dir_inode) (h : dir_reachable d) (len : Nat) (name : Nat → Nat)
    (r : FindResult) (hr : bitsfs_find_entry d len name = some r) :
    dir_reachable (with_hint d r)
  | delete_entry (d : dir_inode) (h : dir_reachable d) (len : Nat) (name : Nat → Nat)
    (r : FindResult) (hr : bitsfs_find_entry d len name = some r) (hret : r.ret = 0)
    (commit_err : Int) :
    dir_reachable (bitsfs_delete_entry d r.page r.slot BITSFS_BLOCK_SIZE commit_err).dir
  | set_link (d : dir_inode) (h : dir_reachable d) (len : Nat) (name : Nat → Nat)
    (r : FindResult) (hr : bitsfs_find_entry d len name = some r) (hret : r.ret = 0)
    (ino : Nat) :
    dir_reachable (bitsfs_set_link d r.page r.slot ino)
  | set_dotdot (d : dir_inode) (h : dir_reachable d) (ino : Nat) :
    dir_reachable (bitsfs_set_link d 0 1 ino)

/-- A slot at which `bitsfs_add_link` takes `goto got_it`: slot `k` of page `n` lies at
the directory's end (`de == dir_end`) or has `rec_len == 0`. -/
def add_candidate (d : dir_inode) (n k : Nat) : Prop :=
  k * DENT_LEN = bitsfs_last_byte d n ∨ (d.entry n k).rec_len = 0

/-- The shape of a directory with `used` slots in use: in (page, offset) order its
first `used` slots have `rec_len = 64` and every later slot has `rec_len = 0`;
`i_size` is one page while the slots in use fit in page 0 and `64 * used` after
that; and the directory fits in the blocks that `bitsfs_get_block` can map.  Slot
`k` of page `n` is number `64 * n + k` in that order. -/
def dir_wf (d : dir_inode) (used : Nat) : Prop :=
  2 ≤ used ∧
  (∀ n k, k < 64 → 64 * n + k < used → (d.entry n k).rec_len = 64) ∧
  (∀ n k, k < 64 → used ≤ 64 * n + k → (d.entry n k).rec_len = 0) ∧
  d.i_size = (if used ≤ 64 then 4096 else 64 * used) ∧
  d.i_size ≤ BITSFS_MAX_BLOCKS * PAGE_SIZE

/-- The two patterns that `bitsfs_empty_dir` lets pass in the directory of number
`ino`: a name that starts with '.' and has `name_len < 2` on an entry that points
at the directory itself, or `name_len = 2` and the name "..". -/
def dots_entry (de : bitsfs_dir_entry) (ino : Nat) : Prop :=
  de.name 0 = 46 ∧
  ((de.name_len < 2 ∧ de.inode = ino % 2 ^ 32) ∨ (de.name_len = 2 ∧ de.name 1 = 46))

/-- The entry's name is "." or "..". -/
def named_dot_or_dotdot (de : bitsfs_dir_entry) : Prop :=
  (de.name_len = 1 ∧ de.name 0 = 46) ∨ (de.name_len = 2 ∧ de.name 0 = 46 ∧ de.name 1 = 46)

instance (de : bitsfs_dir_entry) : Decidable (named_dot_or_dotdot de) := by
  unfold named_dot_or_dotdot
  infer_instance

/-! ## Concrete states used in the examples for directories and names -/

/-- The two-byte name number `i` of `fill_dir`: a letter from 'a' on and a digit
'0'..'7'. -/
def fill_name (i : Nat) : Nat → Nat :=
  fun j => if j = 0 then 97 + i / 8 else if j = 1 then 48 + i % 8 else 0

/-- The formatted root directory after `i` calls of `bitsfs_add_link`, with the
names `fill_name 0`, ..., `fill_name (i - 1)` for the inodes 3, 4, ... -/
def fill_dir : Nat → dir_inode
  | 0 => formatted_root 0
  | i + 1 => (bitsfs_add_link (fill_dir i) 2 (fill_name i) (3 + i) 0 0).dir

/-- A deleted entry: `inode = 0`, `rec_len = 64`. -/
def deleted_entry : bitsfs_dir_entry :=
  { inode := 0, rec_len := 64, name_len := 1, file_type := 0,
    name := fun i => if i = 0 then 97 else 0 }

/-- A directory (meant for inode 5) of one page, all of whose slots have
`rec_len = 64`: ".." for inode 2, an entry named "." that points at inode 7, and 62
deleted entries. -/
def stray_dot_dir : dir_inode :=
  { i_size := 4096, i_dir_start_lookup := 0,
    entry := fun n k =>
      if n = 0 ∧ k = 0 then dot_entry 7
      else if n = 0 ∧ k = 1 then dotdot_entry 2
      else deleted_entry }

/-- The one-byte name "x". -/
def name_x : Nat → Nat := fun i => if i = 0 then 120 else 0
/-- The two-byte name "xy". -/
def name_xy : Nat → Nat := fun i => if i = 0 then 120 else if i = 1 then 121 else 0
/-- The one-byte name "y". -/
def name_y : Nat → Nat := fun i => if i = 0 then 121 else 0

/-- The formatted root directory after the files "x" (inode 3), "xy" (inode 4) and
"y" (inode 5) have been added to it. -/
def xy_dir : dir_inode :=
  (bitsfs_add_link
    (bitsfs_add_link (bitsfs_add_link (formatted_root 0) 1 name_x 3 0 0).dir 2 name_xy 4 0 0).dir
    1 name_y 5 0 0).dir

/-- An inode cache with the root directory `xy_dir` as inode 2 and regular files
with link count 1 under the other numbers. -/
def xy_cache : Nat → mem_inode := fun i =>
  if i = 2 then { i_ino := 2, i_mode := 0o40755, i_nlink := 2, dir := xy_dir }
  else { i_ino := i, i_mode := 0o100644, i_nlink := 1, dir := new_dir 0 }

/-- A parent directory for the examples: inode 2 with link count 2 and the
formatted root as its pages. -/
def root_mem_inode : mem_inode :=
  { i_ino := 2, i_mode := 0o40755, i_nlink := 2, dir := formatted_root 0 }

/-- The inode that the kernel's `new_inode` hands out: link count 1, size 0. -/
def kernel_new_inode : vfs_inode := { blank_inode with i_nlink := 1 }

/-- The block bitmap of a 256-block device on which every block of the data region
(blocks 135..255, bits 0..120) is in use; the bits past the device are clear, as the
formatter leaves them. -/
def device_full_bitmap : Bitmap := fun i => decide (i < 121)

end Bitsfs

/-! # Properties -/

namespace Bitsfs

/-! ## The bit searches -/

/-- The number of bits every search of `block.c` looks at. -/
theorem block_length_eq : BITSFS_BLOCK_SIZE <<< 3 = 32768 := by decide

theorem scan_bits_le (p : Nat → Bool) (size : Nat) :
    ∀ fuel i, scan_bits p size fuel i ≤ size := by
  intro fuel
  induction fuel with
  | zero => intro i; simp [scan_bits]
  | succ k ih =>
    intro i
    unfold scan_bits
    split
    · split
      · omega
      · exact ih (i + 1)
    · exact Nat.le_refl _

theorem scan_bits_ge (p : Nat → Bool) (size : Nat) :
    ∀ fuel i, i ≤ size → i ≤ scan_bits p size fuel i := by
  intro fuel
  induction fuel with
  | zero => intro i h; simpa [scan_bits] using h
  | succ k ih =>
    intro i h
    unfold scan_bits
    split
    · split
      · exact Nat.le_refl _
      · have := ih (i + 1) (by omega)
        omega
    · exact h

theorem scan_bits_skipped (p : Nat → Bool) (size : Nat) :
    ∀ fuel i, size ≤ i + fuel → ∀ j, i ≤ j → j < scan_bits p size fuel i → p j = false := by
  intro fuel
  induction fuel with
  | zero =>
    intro i h j hij hj
    simp [scan_bits] at hj
    omega
  | succ k ih =>
    intro i h j hij hj
    unfold scan_bits at hj
    split at hj
    · split at hj
      · omega
      · rename_i hp
        by_cases hji : j = i
        · subst hji; simpa using hp
        · exact ih (i + 1) (by omega) j (by omega) hj
    · omega

theorem scan_bits_found (p : Nat → Bool) (size : Nat) :
    ∀ fuel i, size ≤ i + fuel → scan_bits p size fuel i < size →
      p (scan_bits p size fuel i) = true := by
  intro fuel
  induction fuel with
  | zero =>
    intro i h hlt
    simp [scan_bits] at hlt
  | succ k ih =>
    intro i h hlt
    unfold scan_bits at hlt ⊢
    split
    · split
      · assumption
      · rename_i h1 h2
        simp only [h1, h2, if_true, if_false] at hlt
        exact ih (i + 1) (by omega) (by simpa using hlt)
    · rename_i h1
      simp only [h1, if_false] at hlt
      omega

theorem find_next_zero_bit_le (bm : Bitmap) (size off : Nat) :
    bitsfs_find_next_zero_bit bm size off ≤ size :=
  scan_bits_le _ _ _ _

theorem find_next_zero_bit_ge (bm : Bitmap) (size off : Nat) (h : off ≤ size) :
    off ≤ bitsfs_find_next_zero_bit bm size off :=
  scan_bits_ge _ _ _ _ h

theorem find_next_zero_bit_skipped (bm : Bitmap) (size off j : Nat) (h1 : off ≤ j)
    (h2 : j < bitsfs_find_next_zero_bit bm size off) : bm j = true := by
  have := scan_bits_skipped (fun i => !bm i) size (size - off) off (by omega) j h1 h2
  simpa using this

theorem find_next_zero_bit_found (bm : Bitmap) (size off : Nat)
    (h : bitsfs_find_next_zero_bit bm size off < size) :
    bm (bitsfs_find_next_zero_bit bm size off) = false := by
  have := scan_bits_found (fun i => !bm i) size (size - off) off (by omega) h
  simpa [bitsfs_find_next_zero_bit] using this

theorem find_next_bit_le (bm : Bitmap) (size off : Nat) :
    bitsfs_find_next_bit bm size off ≤ size :=
  scan_bits_le _ _ _ _

theorem find_next_bit_ge (bm : Bitmap) (size off : Nat) (h : off ≤ size) :
    off ≤ bitsfs_find_next_bit bm size off :=
  scan_bits_ge _ _ _ _ h

theorem find_next_bit_skipped (bm : Bitmap) (size off j : Nat) (h1 : off ≤ j)
    (h2 : j < bitsfs_find_next_bit bm size off) : bm j = false :=
  scan_bits_skipped (fun i => bm i) size (size - off) off (by omega) j h1 h2

theorem find_next_bit_found (bm : Bitmap) (size off : Nat)
    (h : bitsfs_find_next_bit bm size off < size) :
    bm (bitsfs_find_next_bit bm size off) = true :=
  scan_bits_found (fun i => bm i) size (size - off) off (by omega) h

/-! ## `alloc_single_block` -/

theorem alloc_single_block_ok (bm : Bitmap)
    (h : bitsfs_find_next_zero_bit bm 32768 0 < 32768) :
    alloc_single_block bm =
      { err := 0, pos := bitsfs_find_next_zero_bit bm 32768 0,
        bitmap := bitsfs_set_bit (bitsfs_find_next_zero_bit bm 32768 0) bm } := by
  unfold alloc_single_block
  simp only [block_length_eq]
  rw [if_neg (by omega)]

theorem alloc_single_block_fail (bm : Bitmap)
    (h : ¬ bitsfs_find_next_zero_bit bm 32768 0 < 32768) :
    alloc_single_block bm =
      { err := - EIO_errno, pos := bitsfs_find_next_zero_bit bm 32768 0, bitmap := bm } := by
  unfold alloc_single_block
  simp only [block_length_eq]
  rw [if_pos (by omega)]

/-- C6: when some bit below 32768 is clear, `alloc_single_block` succeeds, returns the
smallest clear position, sets that bit and leaves every other bit as it was; when
all 32768 searched bits are set it returns `-EIO` and leaves the bitmap unchanged. -/
theorem alloc_single_block_first_fit (bm : Bitmap) :
    ((∃ q, q < 32768 ∧ bm q = false) →
      (alloc_single_block bm).err = 0 ∧
      (alloc_single_block bm).pos < 32768 ∧
      bm (alloc_single_block bm).pos = false ∧
      (∀ q, q < (alloc_single_block bm).pos → bm q = true) ∧
      (alloc_single_block bm).bitmap (alloc_single_block bm).pos = true ∧
      (∀ i, i ≠ (alloc_single_block bm).pos → (alloc_single_block bm).bitmap i = bm i)) ∧
    ((∀ q, q < 32768 → bm q = true) →
      (alloc_single_block bm).err = - EIO_errno ∧
      (alloc_single_block bm).bitmap = bm) := by
  constructor
  · rintro ⟨q, hq, hbq⟩
    have hlt : bitsfs_find_next_zero_bit bm 32768 0 < 32768 := by
      by_contra hge
      have := find_next_zero_bit_skipped bm 32768 0 q (Nat.zero_le _) (by omega)
      simp [hbq] at this
    rw [alloc_single_block_ok bm hlt]
    refine ⟨rfl, hlt, find_next_zero_bit_found bm _ _ hlt, ?_, ?_, ?_⟩
    · intro q hq
      exact find_next_zero_bit_skipped bm 32768 0 q (Nat.zero_le _) hq
    · simp [bitsfs_set_bit]
    · intro i hi
      simp [bitsfs_set_bit, hi]
  · intro hall
    have hge : ¬ bitsfs_find_next_zero_bit bm 32768 0 < 32768 := by
      intro hlt
      have h1 := find_next_zero_bit_found bm _ _ hlt
      have h2 := hall _ hlt
      simp [h1] at h2
    rw [alloc_single_block_fail bm hge]
    exact ⟨rfl, rfl⟩


/-! ## `find_avai_block_range` and `alloc_batch_blocks` -/

theorem set_bits_from_apply : ∀ (k start : Nat) (bm : Bitmap) (i : Nat),
    set_bits_from k start bm i = (decide (start ≤ i ∧ i < start + k) || bm i) := by
  intro k
  induction k with
  | zero =>
    intro start bm i
    simp only [set_bits_from]
    have : ¬ (start ≤ i ∧ i < start + 0) := by omega
    simp [this]
  | succ k ih =>
    intro start bm i
    simp only [set_bits_from]
    rw [ih]
    by_cases h1 : i = start
    · subst h1
      simp [bitsfs_set_bit]
    · simp only [bitsfs_set_bit, if_neg h1]
      by_cases h2 : start + 1 ≤ i ∧ i < start + 1 + k
      · have h3 : start ≤ i ∧ i < start + (k + 1) := by omega
        simp [h2, h3]
      · have h3 : ¬ (start ≤ i ∧ i < start + (k + 1)) := by omega
        simp [h2, h3]

theorem no_free_run_of_set (bm : Bitmap) (s n : Nat) (hn : 1 ≤ n) (h : bm s = true) :
    ¬ free_run bm s n := by
  rintro ⟨_, hall⟩
  have := hall 0 (by omega)
  simp [h] at this

/-- The search loop, started on a maximal clear run `start .. stop-1` before which
no clear run of length `range` begins, ends within its iteration bound: either on
the first clear run of length `range`, or with `-EIO` when there is none. -/
theorem find_avai_loop_spec (bm : Bitmap) (n : Nat) (hn : 1 ≤ n) :
    ∀ fuel start stop,
      start < 32768 → bm start = false → stop = bitsfs_find_next_bit bm 32768 start →
      32768 < start + fuel → (∀ s, s < start → ¬ free_run bm s n) →
      ∃ r, find_avai_loop bm 32768 n fuel start stop = some r ∧
        ((r.err = 0 ∧ free_run bm r.start n ∧ (∀ s, s < r.start → ¬ free_run bm s n) ∧
            r.start + n ≤ r.stop ∧ r.stop ≤ 32768 ∧
            (∀ i, r.start ≤ i → i < r.stop → bm i = false) ∧
            (r.stop < 32768 → bm r.stop = true)) ∨
         (r.err = - EIO_errno ∧ ∀ s, ¬ free_run bm s n)) := by
  intro fuel
  induction fuel with
  | zero => intro start stop h1 _ _ h4; omega
  | succ k ih =>
    intro start stop hlt hclr hstop hfuel hnone
    have hge : start ≤ stop := by rw [hstop]; exact find_next_bit_ge bm _ _ (by omega)
    have hle : stop ≤ 32768 := by rw [hstop]; exact find_next_bit_le bm _ _
    have hrun : ∀ i, start ≤ i → i < stop → bm i = false := by
      intro i h1 h2
      exact find_next_bit_skipped bm 32768 start i h1 (by rw [← hstop]; exact h2)
    have hend : stop < 32768 → bm stop = true := by
      intro h
      rw [hstop]
      exact find_next_bit_found bm _ _ (by rw [← hstop]; exact h)
    have hne : start ≠ stop := by
      intro he
      have := hend (by omega)
      rw [← he, hclr] at this
      simp at this
    unfold find_avai_loop
    by_cases hshort : stop - start < n
    · simp only [hshort, if_true]
      have hs1ge : stop ≤ bitsfs_find_next_zero_bit bm 32768 stop :=
        find_next_zero_bit_ge bm _ _ hle
      have hs1le : bitsfs_find_next_zero_bit bm 32768 stop ≤ 32768 :=
        find_next_zero_bit_le bm _ _
      have hnone1 : ∀ s, s < bitsfs_find_next_zero_bit bm 32768 stop → ¬ free_run bm s n := by
        intro s hs
        by_cases c1 : s < start
        · exact hnone s c1
        · by_cases c2 : s < stop
          · rintro ⟨hb, hall⟩
            have hstoplt : stop < 32768 := by omega
            have h1 := hend hstoplt
            have h2 := hall (stop - s) (by omega)
            rw [show s + (stop - s) = stop by omega, h1] at h2
            simp at h2
          · exact no_free_run_of_set bm s n hn
              (find_next_zero_bit_skipped bm 32768 stop s (by omega) hs)
      by_cases hfull : bitsfs_find_next_zero_bit bm 32768 stop = 32768
      · simp only [hfull, if_true]
        refine ⟨_, rfl, Or.inr ⟨rfl, ?_⟩⟩
        intro s
        by_cases c : s < 32768
        · exact hnone1 s (by rw [hfull]; exact c)
        · rintro ⟨hb, _⟩
          omega
      · simp only [hfull, if_false]
        exact ih _ _ (by omega)
          (find_next_zero_bit_found bm _ _ (by omega)) rfl (by omega) hnone1
    · simp only [hshort, if_false]
      refine ⟨_, rfl, Or.inl ⟨rfl, ⟨by simp only; omega, ?_⟩, hnone, by simp only; omega, hle,
        hrun, hend⟩⟩
      intro j hj
      exact hrun (start + j) (by omega) (by omega)

/-- `find_avai_block_range` searching from bit 0 always ends: on the first clear run
of length `range`, or with `-EIO` when the searched bits hold no such run. -/
theorem find_avai_block_range_spec (bm : Bitmap) (n : Nat) (hn : 1 ≤ n) :
    ∃ r, find_avai_block_range bm n 0 = some r ∧
      ((r.err = 0 ∧ free_run bm r.start n ∧ (∀ s, s < r.start → ¬ free_run bm s n) ∧
          r.start + n ≤ r.stop ∧ r.stop ≤ 32768 ∧
          (∀ i, r.start ≤ i → i < r.stop → bm i = false) ∧
          (r.stop < 32768 → bm r.stop = true)) ∨
       (r.err = - EIO_errno ∧ ∀ s, ¬ free_run bm s n)) := by
  unfold find_avai_block_range
  simp only [block_length_eq]
  have hle : bitsfs_find_next_zero_bit bm 32768 0 ≤ 32768 := find_next_zero_bit_le bm _ _
  have hnone : ∀ s, s < bitsfs_find_next_zero_bit bm 32768 0 → ¬ free_run bm s n := by
    intro s hs
    exact no_free_run_of_set bm s n hn
      (find_next_zero_bit_skipped bm 32768 0 s (Nat.zero_le _) hs)
  by_cases hfull : bitsfs_find_next_zero_bit bm 32768 0 = 32768
  · simp only [hfull, if_true]
    refine ⟨_, rfl, Or.inr ⟨rfl, ?_⟩⟩
    intro s
    by_cases c : s < 32768
    · exact hnone s (by rw [hfull]; exact c)
    · rintro ⟨hb, _⟩
      omega
  · simp only [hfull, if_false]
    exact find_avai_loop_spec bm n hn _ _ _ (by omega)
      (find_next_zero_bit_found bm _ _ (by omega)) rfl (by omega) hnone

theorem EIO_errno_ne : (- EIO_errno : Int) ≠ 0 := by decide

/-- `alloc_batch_blocks` always ends.  On success it returns the start of the first
clear run of length `count` and sets every bit from there up to the end `stop` of
the maximal clear run around it; otherwise it returns `-EIO` and no bit changes. -/
theorem alloc_batch_blocks_spec (bm : Bitmap) (n : Nat) (hn : 1 ≤ n) :
    ∃ a, alloc_batch_blocks bm n = some a ∧
      ((a.err = 0 ∧ free_run bm a.pos n ∧ (∀ s, s < a.pos → ¬ free_run bm s n) ∧
          ∃ stop, a.pos + n ≤ stop ∧ stop ≤ 32768 ∧
            (∀ i, a.pos ≤ i → i < stop → bm i = false) ∧
            (stop < 32768 → bm stop = true) ∧
            (∀ i, a.bitmap i = (decide (a.pos ≤ i ∧ i < stop) || bm i))) ∨
       (a.err = - EIO_errno ∧ (∀ s, ¬ free_run bm s n) ∧ a.bitmap = bm)) := by
  obtain ⟨r, hr, hcase⟩ := find_avai_block_range_spec bm n hn
  unfold alloc_batch_blocks
  rw [hr]
  rcases hcase with ⟨herr, hfree, hmin, hlen, hle, hrun, hend⟩ | ⟨herr, hnone⟩
  · simp only [herr, ne_eq, not_true_eq_false, if_false]
    refine ⟨_, rfl, Or.inl ⟨rfl, hfree, hmin, r.stop, hlen, hle, hrun, hend, ?_⟩⟩
    intro i
    simp only [set_bits_from_apply]
    have : r.start + (r.stop - r.start) = r.stop := by omega
    rw [this]
  · have hne : r.err ≠ 0 := by rw [herr]; exact EIO_errno_ne
    simp only [hne, ne_eq, not_false_eq_true, if_true]
    exact ⟨_, rfl, Or.inr ⟨herr, hnone, rfl⟩⟩


/-! ## The allocation loops of `bitsfs_get_block` -/

/-- Induction along the iterations of an allocation loop: the five ways one
iteration can go. -/
theorem alloc_slots_induct (alloc : Bitmap → Option AllocResult) (step : Nat)
    (P : Nat → Nat → MapState → LoopExit × MapState → Prop)
    (base : ∀ n s, P 0 n s (LoopExit.finished, s))
    (skip : ∀ k n s, s.i_data n ≠ 0 →
      P k (n + 1) { s with block_cnt := s.block_cnt + step }
        (alloc_slots alloc step k (n + 1) { s with block_cnt := s.block_cnt + step }) →
      P (k + 1) n s
        (alloc_slots alloc step k (n + 1) { s with block_cnt := s.block_cnt + step }))
    (nofuel : ∀ k n s, s.i_data n = 0 → alloc s.bitmap = none →
      P (k + 1) n s (LoopExit.no_fuel, s))
    (fail : ∀ k n s a, s.i_data n = 0 → alloc s.bitmap = some a → a.err ≠ 0 →
      P (k + 1) n s (LoopExit.failed a.err, { s with bitmap := a.bitmap }))
    (ok : ∀ k n s a, s.i_data n = 0 → alloc s.bitmap = some a → a.err = 0 →
      P k (n + 1)
        { i_data := fun m => if m = n then (a.pos + BITSFS_DATA_BLOCK) % 2 ^ 32 else s.i_data m,
          bitmap := a.bitmap, is_new := true, block_cnt := s.block_cnt + step }
        (alloc_slots alloc step k (n + 1)
          { i_data := fun m => if m = n then (a.pos + BITSFS_DATA_BLOCK) % 2 ^ 32
              else s.i_data m,
            bitmap := a.bitmap, is_new := true, block_cnt := s.block_cnt + step }) →
      P (k + 1) n s
        (alloc_slots alloc step k (n + 1)
          { i_data := fun m => if m = n then (a.pos + BITSFS_DATA_BLOCK) % 2 ^ 32
              else s.i_data m,
            bitmap := a.bitmap, is_new := true, block_cnt := s.block_cnt + step })) :
    ∀ k n s, P k n s (alloc_slots alloc step k n s) := by
  intro k
  induction k with
  | zero => intro n s; exact base n s
  | succ k ih =>
    intro n s
    by_cases h0 : s.i_data n = 0
    · cases ha : alloc s.bitmap with
      | none =>
        have : alloc_slots alloc step (k + 1) n s = (LoopExit.no_fuel, s) := by
          simp only [alloc_slots, h0, if_true, ha]
        rw [this]
        exact nofuel k n s h0 ha
      | some a =>
        by_cases he : a.err = 0
        · have : alloc_slots alloc step (k + 1) n s =
              alloc_slots alloc step k (n + 1)
                { i_data := fun m => if m = n then (a.pos + BITSFS_DATA_BLOCK) % 2 ^ 32
                    else s.i_data m,
                  bitmap := a.bitmap, is_new := true, block_cnt := s.block_cnt + step } := by
            simp only [alloc_slots, h0, if_true, ha, he, ne_eq, not_true_eq_false, if_false]
          rw [this]
          exact ok k n s a h0 ha he (ih _ _)
        · have : alloc_slots alloc step (k + 1) n s =
              (LoopExit.failed a.err, { s with bitmap := a.bitmap }) := by
            simp only [alloc_slots, h0, if_true, ha, he, ne_eq, not_false_eq_true]
          rw [this]
          exact fail k n s a h0 ha he
    · have : alloc_slots alloc step (k + 1) n s =
          alloc_slots alloc step k (n + 1) { s with block_cnt := s.block_cnt + step } := by
        simp only [alloc_slots, h0, if_false]
      rw [this]
      exact skip k n s h0 (ih _ _)

/-- A loop never changes a slot that is non-zero or lies outside its range. -/
theorem alloc_slots_keeps (alloc : Bitmap → Option AllocResult) (step : Nat) :
    ∀ k n s, ∀ m, (s.i_data m ≠ 0 ∨ m < n ∨ n + k ≤ m) →
      (alloc_slots alloc step k n s).2.i_data m = s.i_data m := by
  apply alloc_slots_induct alloc step
    (fun k n s r => ∀ m, (s.i_data m ≠ 0 ∨ m < n ∨ n + k ≤ m) → r.2.i_data m = s.i_data m)
  · intro n s m _; rfl
  · intro k n s h0 ih m hm
    have := ih m (by
      rcases hm with h | h | h
      · exact Or.inl h
      · exact Or.inr (Or.inl (by omega))
      · exact Or.inr (Or.inr (by omega)))
    simpa using this
  · intro k n s _ _ m _; rfl
  · intro k n s a _ _ _ m _; rfl
  · intro k n s a h0 ha he ih m hm
    have hmn : m ≠ n := by
      rintro rfl
      rcases hm with h | h | h
      · exact h h0
      · omega
      · omega
    have := ih m (by
      simp only [if_neg hmn]
      rcases hm with h | h | h
      · exact Or.inl h
      · exact Or.inr (Or.inl (by omega))
      · exact Or.inr (Or.inr (by omega)))
    simpa [if_neg hmn] using this

/-- A loop never clears a bit, provided its allocator never does. -/
theorem alloc_slots_mono (alloc : Bitmap → Option AllocResult) (step : Nat)
    (hmono : ∀ b a, alloc b = some a → ∀ i, b i = true → a.bitmap i = true) :
    ∀ k n s, ∀ i, s.bitmap i = true → (alloc_slots alloc step k n s).2.bitmap i = true := by
  apply alloc_slots_induct alloc step
    (fun _ _ s r => ∀ i, s.bitmap i = true → r.2.bitmap i = true)
  · intro n s i h; exact h
  · intro k n s _ ih i h; exact ih i h
  · intro k n s _ _ i h; exact h
  · intro k n s a _ ha _ i h; exact hmono _ _ ha i h
  · intro k n s a _ ha _ ih i h; exact ih i (hmono _ _ ha i h)

/-- Every slot a loop fills holds the position returned by one successful call of
its allocator plus 135; that call ran on a bitmap between the loop's first and
last one. -/
theorem alloc_slots_filled (alloc : Bitmap → Option AllocResult) (step : Nat)
    (hmono : ∀ b a, alloc b = some a → ∀ i, b i = true → a.bitmap i = true)
    (hpos : ∀ b a, alloc b = some a → a.err = 0 → a.pos < 32768) :
    ∀ k n s, ∀ m, s.i_data m = 0 → (alloc_slots alloc step k n s).2.i_data m ≠ 0 →
      ∃ b a, alloc b = some a ∧ a.err = 0 ∧
        (alloc_slots alloc step k n s).2.i_data m = a.pos + 135 ∧
        (∀ i, s.bitmap i = true → b i = true) ∧
        (∀ i, a.bitmap i = true → (alloc_slots alloc step k n s).2.bitmap i = true) := by
  apply alloc_slots_induct alloc step
    (fun _ _ s r => ∀ m, s.i_data m = 0 → r.2.i_data m ≠ 0 →
      ∃ b a, alloc b = some a ∧ a.err = 0 ∧ r.2.i_data m = a.pos + 135 ∧
        (∀ i, s.bitmap i = true → b i = true) ∧
        (∀ i, a.bitmap i = true → r.2.bitmap i = true))
  · intro n s m h0 h1; exact absurd h0 h1
  · intro k n s _ ih m h0 h1; exact ih m h0 h1
  · intro k n s _ _ m h0 h1; exact absurd h0 h1
  · intro k n s a _ _ _ m h0 h1; exact absurd h0 h1
  · intro k n s a hn ha he ih m h0 h1
    by_cases hmn : m = n
    · subst hmn
      have hkeep := alloc_slots_keeps alloc step k (m + 1)
        { i_data := fun j => if j = m then (a.pos + BITSFS_DATA_BLOCK) % 2 ^ 32
            else s.i_data j,
          bitmap := a.bitmap, is_new := true, block_cnt := s.block_cnt + step } m
        (Or.inr (Or.inl (by omega)))
      have hp := hpos _ _ ha he
      refine ⟨s.bitmap, a, ha, he, ?_, fun i h => h, ?_⟩
      · rw [hkeep]
        simp only [if_true, BITSFS_DATA_BLOCK]
        omega
      · intro i hi
        exact alloc_slots_mono alloc step hmono k (m + 1) _ i hi
    · obtain ⟨b, a1, hb, he1, hv, hlo, hhi⟩ := ih m (by simpa [if_neg hmn] using h0) h1
      exact ⟨b, a1, hb, he1, hv, fun i h => hlo i (hmono _ _ ha i h), hhi⟩

/-- A loop that runs to its end leaves every slot of its range non-zero and has
added `step` to `block_cnt` once per iteration. -/
theorem alloc_slots_finished (alloc : Bitmap → Option AllocResult) (step : Nat)
    (hpos : ∀ b a, alloc b = some a → a.err = 0 → a.pos < 32768) :
    ∀ k n s, (alloc_slots alloc step k n s).1 = LoopExit.finished →
      (∀ m, n ≤ m → m < n + k → (alloc_slots alloc step k n s).2.i_data m ≠ 0) ∧
      (alloc_slots alloc step k n s).2.block_cnt = s.block_cnt + k * step := by
  apply alloc_slots_induct alloc step
    (fun k n s r => r.1 = LoopExit.finished →
      (∀ m, n ≤ m → m < n + k → r.2.i_data m ≠ 0) ∧ r.2.block_cnt = s.block_cnt + k * step)
  · intro n s _
    exact ⟨fun m h1 h2 => by omega, by simp⟩
  · intro k n s h0 ih hfin
    obtain ⟨h1, h2⟩ := ih hfin
    refine ⟨?_, ?_⟩
    · intro m hm1 hm2
      by_cases hmn : m = n
      · subst hmn
        rw [alloc_slots_keeps alloc step k (m + 1)
          { s with block_cnt := s.block_cnt + step } m (Or.inl h0)]
        exact h0
      · exact h1 m (by omega) (by omega)
    · rw [h2]
      simp only
      rw [Nat.add_mul]
      omega
  · intro k n s _ _ h; cases h
  · intro k n s a _ _ _ h; cases h
  · intro k n s a h0 ha he ih hfin
    obtain ⟨h1, h2⟩ := ih hfin
    refine ⟨?_, ?_⟩
    · intro m hm1 hm2
      by_cases hmn : m = n
      · subst hmn
        rw [alloc_slots_keeps alloc step k (m + 1) _ m (Or.inr (Or.inl (by omega)))]
        have hp := hpos _ _ ha he
        simp only [if_true, BITSFS_DATA_BLOCK]
        omega
      · exact h1 m (by omega) (by omega)
    · rw [h2]
      simp only
      rw [Nat.add_mul]
      omega

/-- A loop whose range holds no zero slot allocates nothing. -/
theorem alloc_slots_noop (alloc : Bitmap → Option AllocResult) (step : Nat) :
    ∀ k n s, (∀ m, n ≤ m → m < n + k → s.i_data m ≠ 0) →
      alloc_slots alloc step k n s =
        (LoopExit.finished, { s with block_cnt := s.block_cnt + k * step }) := by
  intro k
  induction k with
  | zero => intro n s _; simp [alloc_slots]
  | succ k ih =>
    intro n s h
    have h0 := h n (Nat.le_refl _) (by omega)
    simp only [alloc_slots, h0, if_false]
    rw [ih (n + 1) { s with block_cnt := s.block_cnt + step }
      (fun m h1 h2 => h m (by omega) (by omega))]
    simp only [Prod.mk.injEq, true_and]
    congr 1
    rw [Nat.add_mul]
    omega

/-- A loop that takes `goto fail` stopped at a zero slot `j` of its range: the slots
of the range before `j` are non-zero, slot `j` and all later ones are as they were,
and the error is the non-zero one its allocator returned. -/
theorem alloc_slots_failed (alloc : Bitmap → Option AllocResult) (step : Nat)
    (hpos : ∀ b a, alloc b = some a → a.err = 0 → a.pos < 32768) :
    ∀ k n s err, (alloc_slots alloc step k n s).1 = LoopExit.failed err →
      err ≠ 0 ∧ (∃ b a, alloc b = some a ∧ a.err = err) ∧
      ∃ j, n ≤ j ∧ j < n + k ∧ s.i_data j = 0 ∧
        (∀ m, n ≤ m → m < j → (alloc_slots alloc step k n s).2.i_data m ≠ 0) ∧
        (∀ m, j ≤ m → (alloc_slots alloc step k n s).2.i_data m = s.i_data m) := by
  apply alloc_slots_induct alloc step
    (fun k n s r => ∀ err, r.1 = LoopExit.failed err →
      err ≠ 0 ∧ (∃ b a, alloc b = some a ∧ a.err = err) ∧
      ∃ j, n ≤ j ∧ j < n + k ∧ s.i_data j = 0 ∧
        (∀ m, n ≤ m → m < j → r.2.i_data m ≠ 0) ∧
        (∀ m, j ≤ m → r.2.i_data m = s.i_data m))
  · intro n s err h; cases h
  · intro k n s h0 ih err h
    obtain ⟨h1, h2, j, hj1, hj2, hj3, hj4, hj5⟩ := ih err h
    refine ⟨h1, h2, j, by omega, by omega, hj3, ?_, hj5⟩
    intro m hm1 hm2
    by_cases hmn : m = n
    · subst hmn
      rw [alloc_slots_keeps alloc step k (m + 1)
        { s with block_cnt := s.block_cnt + step } m (Or.inl h0)]
      exact h0
    · exact hj4 m (by omega) hm2
  · intro k n s _ _ err h; cases h
  · intro k n s a h0 ha he err h
    simp only [LoopExit.failed.injEq] at h
    subst h
    exact ⟨he, ⟨_, _, ha, rfl⟩, n, Nat.le_refl _, by omega, h0,
      fun m h1 h2 => by omega, fun m _ => rfl⟩
  · intro k n s a h0 ha he ih err h
    obtain ⟨h1, h2, j, hj1, hj2, hj3, hj4, hj5⟩ := ih err h
    have hjn : j ≠ n := by omega
    refine ⟨h1, h2, j, by omega, by omega, by simpa [if_neg hjn] using hj3, ?_, ?_⟩
    · intro m hm1 hm2
      by_cases hmn : m = n
      · subst hmn
        rw [alloc_slots_keeps alloc step k (m + 1) _ m (Or.inr (Or.inl (by omega)))]
        have hp := hpos _ _ ha he
        simp only [if_true, BITSFS_DATA_BLOCK]
        omega
      · exact hj4 m (by omega) hm2
    · intro m hm
      have hmn : m ≠ n := by omega
      rw [hj5 m hm]
      simp only [if_neg hmn]

/-- A loop only stops for lack of fuel when its allocator does. -/
theorem alloc_slots_fuel (alloc : Bitmap → Option AllocResult) (step : Nat)
    (htotal : ∀ b, alloc b ≠ none) :
    ∀ k n s, (alloc_slots alloc step k n s).1 ≠ LoopExit.no_fuel := by
  apply alloc_slots_induct alloc step (fun _ _ _ r => r.1 ≠ LoopExit.no_fuel)
  · intro n s h; cases h
  · intro k n s _ ih; exact ih
  · intro k n s _ ha; exact absurd ha (htotal _)
  · intro k n s a _ _ _ h; cases h
  · intro k n s a _ _ _ ih; exact ih


/-! ## The two allocators as seen by the loops -/

theorem single_alloc_mono (b : Bitmap) (a : AllocResult) (h : single_alloc b = some a) :
    ∀ i, b i = true → a.bitmap i = true := by
  simp only [single_alloc, Option.some.injEq] at h
  subst h
  intro i hi
  unfold alloc_single_block
  simp only
  split
  · exact hi
  · simp only [bitsfs_set_bit]
    split
    · rfl
    · exact hi

theorem single_alloc_pos (b : Bitmap) (a : AllocResult) (h : single_alloc b = some a)
    (he : a.err = 0) : a.pos < 32768 := by
  simp only [single_alloc, Option.some.injEq] at h
  subst h
  by_cases hlt : bitsfs_find_next_zero_bit b 32768 0 < 32768
  · rw [alloc_single_block_ok b hlt]
    exact hlt
  · rw [alloc_single_block_fail b hlt] at he
    exact absurd he EIO_errno_ne

theorem single_alloc_total (b : Bitmap) : single_alloc b ≠ none := by
  simp [single_alloc]

theorem batch_alloc_mono (b : Bitmap) (a : AllocResult) (h : batch_alloc b = some a) :
    ∀ i, b i = true → a.bitmap i = true := by
  obtain ⟨a1, ha1, hcase⟩ := alloc_batch_blocks_spec b 1024 (by decide)
  have : a1 = a := by
    have h2 : alloc_batch_blocks b 1024 = some a := h
    rw [ha1] at h2
    exact Option.some.inj h2
  subst this
  intro i hi
  rcases hcase with ⟨_, _, _, stop, _, _, _, _, hbits⟩ | ⟨_, _, hsame⟩
  · rw [hbits, hi]
    simp
  · rw [hsame]; exact hi

theorem batch_alloc_pos (b : Bitmap) (a : AllocResult) (h : batch_alloc b = some a)
    (he : a.err = 0) : a.pos < 32768 := by
  obtain ⟨a1, ha1, hcase⟩ := alloc_batch_blocks_spec b 1024 (by decide)
  have : a1 = a := by
    have h2 : alloc_batch_blocks b 1024 = some a := h
    rw [ha1] at h2
    exact Option.some.inj h2
  subst this
  rcases hcase with ⟨_, hfree, _⟩ | ⟨herr, _⟩
  · have := hfree.1
    omega
  · rw [herr] at he
    exact absurd he EIO_errno_ne

theorem batch_alloc_total (b : Bitmap) : batch_alloc b ≠ none := by
  obtain ⟨a1, ha1, _⟩ := alloc_batch_blocks_spec b 1024 (by decide)
  have h2 : batch_alloc b = some a1 := ha1
  rw [h2]
  simp

/-! ## The slot index computed by `bitsfs_get_block` -/

theorem get_block_pos_direct (iblock : Nat) (h : iblock < 12) :
    (iblock + 1) % 2 ^ 64 ≤ BITSFS_DDIR_BLOCKS ∧ get_block_pos iblock = (iblock : Int) := by
  have h1 : (iblock + 1) % 2 ^ 64 = iblock + 1 := Nat.mod_eq_of_lt (by omega)
  have h2 : iblock % 2 ^ 32 = iblock := Nat.mod_eq_of_lt (by omega)
  refine ⟨by rw [h1]; simp only [BITSFS_DDIR_BLOCKS]; omega, ?_⟩
  unfold get_block_pos
  rw [if_pos (by rw [h1]; simp only [BITSFS_DDIR_BLOCKS]; omega)]
  unfold to_int
  rw [h2, if_pos (by omega)]

theorem to_int_small (x : Nat) (h : x < 2 ^ 31) : to_int x = (x : Int) := by
  have e : x % 2 ^ 32 = x := Nat.mod_eq_of_lt (by omega)
  unfold to_int
  rw [e, if_pos h]

theorem get_block_pos_indirect (iblock : Nat) (h1 : 12 ≤ iblock) (h2 : iblock < 2 ^ 31 + 11) :
    ¬ (iblock + 1) % 2 ^ 64 ≤ BITSFS_DDIR_BLOCKS ∧
    get_block_pos iblock = ((12 + (iblock - 12) / 1024 : Nat) : Int) := by
  have e1 : (iblock + 1) % 2 ^ 64 = iblock + 1 := Nat.mod_eq_of_lt (by omega)
  have hnd : ¬ (iblock + 1) % 2 ^ 64 ≤ BITSFS_DDIR_BLOCKS := by
    rw [e1]; simp only [BITSFS_DDIR_BLOCKS]; omega
  have hx : to_int ((iblock + 1) % 2 ^ 64 - BITSFS_DDIR_BLOCKS) = ((iblock - 11 : Nat) : Int) := by
    rw [e1, to_int_small _ (by simp only [BITSFS_DDIR_BLOCKS]; omega)]
    simp only [BITSFS_DDIR_BLOCKS]
    congr 1
  have hm : (((iblock - 11 : Nat) : Int)).tmod ((BITSFS_NDIR_BLOCK_COUNT : Nat) : Int) =
      (((iblock - 11) % 1024 : Nat) : Int) := rfl
  have hd : (((iblock - 11 : Nat) : Int)).tdiv ((BITSFS_NDIR_BLOCK_COUNT : Nat) : Int) =
      (((iblock - 11) / 1024 : Nat) : Int) := rfl
  refine ⟨hnd, ?_⟩
  unfold get_block_pos
  rw [if_neg hnd]
  simp only [hx, hm, hd]
  have hc : ((BITSFS_DDIR_BLOCKS - 1 : Nat) : Int) = 11 := rfl
  rw [hc]
  split
  · rename_i hz
    have hz1 : (iblock - 11) % 1024 = 0 := by exact_mod_cast hz
    push_cast
    omega
  · rename_i hz
    have hz1 : (iblock - 11) % 1024 ≠ 0 := by
      intro h0
      apply hz
      exact_mod_cast h0
    push_cast
    omega


/-! ## The shape of `bitsfs_get_block` -/

/-- `bitsfs_get_block` is its "too big" guard, followed by the allocation loops,
followed by the mapping of the buffer head or the `fail:` label. -/
theorem bitsfs_get_block_eq (inode : bitsfs_inode_info) (bm : Bitmap) (iblock : Nat)
    (bh : buffer_head) (create : Int) :
    bitsfs_get_block inode bm iblock bh create =
      if ¬ (iblock + 1) % 2 ^ 64 ≤ BITSFS_DDIR_BLOCKS ∧
          get_block_pos iblock ≥ BITSFS_TMAX_BLOCKS then
        { exit := GetBlockExit.too_big, ret := - EIO_errno, i_data := inode.i_data,
          bitmap := bm, bh_result := bh }
      else
        get_block_tail inode (alloc_phase inode bm iblock) (get_block_pos iblock)
          (get_block_offset iblock) bh := by
  unfold bitsfs_get_block alloc_phase
  by_cases hd : (iblock + 1) % 2 ^ 64 ≤ BITSFS_DDIR_BLOCKS
  · simp only [hd, if_true, not_true_eq_false, false_and, if_false]
    rfl
  · simp only [hd, if_false, not_false_eq_true, true_and]
    by_cases hb : get_block_pos iblock ≥ BITSFS_TMAX_BLOCKS
    · simp only [hb, if_true]
    · simp only [hb, if_false]
      rcases h1 : alloc_slots (fun b => some (alloc_single_block b)) 0 BITSFS_DDIR_BLOCKS 0
        { i_data := inode.i_data, bitmap := bm, is_new := false,
          block_cnt := BITSFS_DDIR_BLOCKS } with ⟨e, s2⟩
      have h1' : alloc_slots single_alloc 0 BITSFS_DDIR_BLOCKS 0
        { i_data := inode.i_data, bitmap := bm, is_new := false,
          block_cnt := BITSFS_DDIR_BLOCKS } = (e, s2) := h1
      rw [h1']
      cases e <;> rfl

theorem get_block_tail_state (inode : bitsfs_inode_info) (r : LoopExit × MapState)
    (pos offset : Int) (bh : buffer_head) :
    (get_block_tail inode r pos offset bh).i_data = r.2.i_data ∧
    (get_block_tail inode r pos offset bh).bitmap = r.2.bitmap := by
  rcases r with ⟨e, s⟩
  cases e
  · simp only [get_block_tail, get_block_finish]
    split <;> exact ⟨rfl, rfl⟩
  · exact ⟨rfl, rfl⟩
  · exact ⟨rfl, rfl⟩

theorem get_block_tail_mapped (inode : bitsfs_inode_info) (r : LoopExit × MapState)
    (pos offset : Int) (bh : buffer_head)
    (h : (get_block_tail inode r pos offset bh).exit = GetBlockExit.mapped) :
    r.1 = LoopExit.finished ∧ 0 ≤ pos ∧ pos < 16 ∧
    get_block_tail inode r pos offset bh = get_block_finish inode r.2 pos offset bh := by
  rcases r with ⟨e, s⟩
  cases e
  · by_cases hp : 0 ≤ pos ∧ pos < 16
    · exact ⟨rfl, hp.1, hp.2, rfl⟩
    · simp only [get_block_tail, get_block_finish] at h
      rw [if_neg hp] at h
      cases h
  · cases h
  · cases h

theorem get_block_tail_failed (inode : bitsfs_inode_info) (r : LoopExit × MapState)
    (pos offset : Int) (bh : buffer_head)
    (h : (get_block_tail inode r pos offset bh).exit = GetBlockExit.alloc_failed) :
    r.1 = LoopExit.failed (get_block_tail inode r pos offset bh).ret ∧
    (get_block_tail inode r pos offset bh).bh_result = bh := by
  rcases r with ⟨e, s⟩
  cases e
  · simp only [get_block_tail, get_block_finish] at h
    split at h <;> cases h
  · exact ⟨rfl, rfl⟩
  · cases h


/-! ## The allocation phase of `bitsfs_get_block` -/

theorem to_int_direct (iblock : Nat) (h : (iblock + 1) % 2 ^ 64 ≤ 12) :
    to_int iblock + 1 = (((iblock + 1) % 2 ^ 64 : Nat) : Int) := by
  unfold to_int
  split <;> omega

theorem window_end_direct_le (iblock : Nat) (h : (iblock + 1) % 2 ^ 64 ≤ BITSFS_DDIR_BLOCKS) :
    (get_block_pos iblock + 1).toNat ≤ 12 := by
  unfold get_block_pos
  rw [if_pos h]
  simp only [BITSFS_DDIR_BLOCKS] at h
  rw [to_int_direct iblock h]
  simp only [Int.toNat_ofNat]
  exact h

theorem alloc_phase_keeps (inode : bitsfs_inode_info) (bm : Bitmap) (iblock : Nat) :
    ∀ m, (inode.i_data m ≠ 0 ∨ window_end iblock ≤ m) →
      (alloc_phase inode bm iblock).2.i_data m = inode.i_data m := by
  intro m hm
  unfold alloc_phase
  unfold window_end at hm
  by_cases hd : (iblock + 1) % 2 ^ 64 ≤ BITSFS_DDIR_BLOCKS
  · simp only [hd, if_true] at hm ⊢
    rw [alloc_slots_keeps]
    rcases hm with h | h
    · exact Or.inl h
    · exact Or.inr (Or.inr (by simpa using h))
  · simp only [hd, if_false] at hm ⊢
    have k1 := alloc_slots_keeps single_alloc 0 BITSFS_DDIR_BLOCKS 0
      { i_data := inode.i_data, bitmap := bm, is_new := false,
        block_cnt := BITSFS_DDIR_BLOCKS } m
      (by
        rcases hm with h | h
        · exact Or.inl h
        · exact Or.inr (Or.inr (by simp only [BITSFS_DDIR_BLOCKS] at h ⊢; omega)))
    rcases h1 : alloc_slots single_alloc 0 BITSFS_DDIR_BLOCKS 0
      { i_data := inode.i_data, bitmap := bm, is_new := false,
        block_cnt := BITSFS_DDIR_BLOCKS } with ⟨e, s2⟩
    rw [h1] at k1
    simp only at k1
    have k2 := alloc_slots_keeps batch_alloc BITSFS_NDIR_BLOCK_COUNT
      (get_block_pos iblock + 1 - BITSFS_DDIR_BLOCKS).toNat BITSFS_DDIR_BLOCKS s2 m
      (by
        rw [k1]
        rcases hm with h | h
        · exact Or.inl h
        · exact Or.inr (Or.inr h))
    cases e
    · simp only
      rw [k2, k1]
    · exact k1
    · exact k1

theorem alloc_phase_mono (inode : bitsfs_inode_info) (bm : Bitmap) (iblock : Nat) :
    ∀ i, bm i = true → (alloc_phase inode bm iblock).2.bitmap i = true := by
  intro i hi
  unfold alloc_phase
  by_cases hd : (iblock + 1) % 2 ^ 64 ≤ BITSFS_DDIR_BLOCKS
  · simp only [hd, if_true]
    exact alloc_slots_mono single_alloc 0 single_alloc_mono _ _ _ i hi
  · simp only [hd, if_false]
    have k1 := alloc_slots_mono single_alloc 0 single_alloc_mono BITSFS_DDIR_BLOCKS 0
      { i_data := inode.i_data, bitmap := bm, is_new := false,
        block_cnt := BITSFS_DDIR_BLOCKS } i hi
    rcases h1 : alloc_slots single_alloc 0 BITSFS_DDIR_BLOCKS 0
      { i_data := inode.i_data, bitmap := bm, is_new := false,
        block_cnt := BITSFS_DDIR_BLOCKS } with ⟨e, s2⟩
    rw [h1] at k1
    simp only at k1
    cases e
    · exact alloc_slots_mono batch_alloc _ batch_alloc_mono _ _ s2 i k1
    · exact k1
    · exact k1

theorem alloc_phase_fuel (inode : bitsfs_inode_info) (bm : Bitmap) (iblock : Nat) :
    (alloc_phase inode bm iblock).1 ≠ LoopExit.no_fuel := by
  unfold alloc_phase
  by_cases hd : (iblock + 1) % 2 ^ 64 ≤ BITSFS_DDIR_BLOCKS
  · simp only [hd, if_true]
    exact alloc_slots_fuel single_alloc 0 single_alloc_total _ _ _
  · simp only [hd, if_false]
    have k1 := alloc_slots_fuel single_alloc 0 single_alloc_total BITSFS_DDIR_BLOCKS 0
      { i_data := inode.i_data, bitmap := bm, is_new := false,
        block_cnt := BITSFS_DDIR_BLOCKS }
    rcases h1 : alloc_slots single_alloc 0 BITSFS_DDIR_BLOCKS 0
      { i_data := inode.i_data, bitmap := bm, is_new := false,
        block_cnt := BITSFS_DDIR_BLOCKS } with ⟨e, s2⟩
    rw [h1] at k1
    cases e
    · exact alloc_slots_fuel batch_alloc _ batch_alloc_total _ _ s2
    · intro h; cases h
    · exact absurd rfl k1

/-- When the allocation loops run to their end, every slot they visited is
non-zero. -/
theorem alloc_phase_finished (inode : bitsfs_inode_info) (bm : Bitmap) (iblock : Nat)
    (h : (alloc_phase inode bm iblock).1 = LoopExit.finished) :
    ∀ m, m < window_end iblock → (alloc_phase inode bm iblock).2.i_data m ≠ 0 := by
  intro m hm
  unfold alloc_phase at h ⊢
  unfold window_end at hm
  by_cases hd : (iblock + 1) % 2 ^ 64 ≤ BITSFS_DDIR_BLOCKS
  · simp only [hd, if_true] at h hm ⊢
    exact (alloc_slots_finished single_alloc 0 single_alloc_pos _ _ _ h).1 m
      (Nat.zero_le _) (by omega)
  · simp only [hd, if_false] at h hm ⊢
    rcases h1 : alloc_slots single_alloc 0 BITSFS_DDIR_BLOCKS 0
      { i_data := inode.i_data, bitmap := bm, is_new := false,
        block_cnt := BITSFS_DDIR_BLOCKS } with ⟨e, s2⟩
    rw [h1] at h
    cases e
    · simp only at h ⊢
      have f1 := (alloc_slots_finished single_alloc 0 single_alloc_pos BITSFS_DDIR_BLOCKS 0
        { i_data := inode.i_data, bitmap := bm, is_new := false,
          block_cnt := BITSFS_DDIR_BLOCKS } (by rw [h1])).1
      rw [h1] at f1
      simp only at f1
      by_cases hm12 : m < BITSFS_DDIR_BLOCKS
      · have hnz := f1 m (Nat.zero_le _) (by omega)
        rw [alloc_slots_keeps batch_alloc _ _ _ s2 m (Or.inl hnz)]
        exact hnz
      · exact (alloc_slots_finished batch_alloc _ batch_alloc_pos _ _ s2 h).1 m
          (by omega) hm
    · cases h
    · cases h


/-- Every slot the allocation loops fill holds the position returned by one
successful allocator call plus 135: `alloc_single_block` for a direct slot,
`alloc_batch_blocks` with count 1024 for an indirect one. -/
theorem alloc_phase_filled (inode : bitsfs_inode_info) (bm : Bitmap) (iblock : Nat) :
    ∀ m, inode.i_data m = 0 → (alloc_phase inode bm iblock).2.i_data m ≠ 0 →
      ∃ b a, (if m < 12 then single_alloc b else batch_alloc b) = some a ∧ a.err = 0 ∧
        (alloc_phase inode bm iblock).2.i_data m = a.pos + 135 ∧
        (∀ i, bm i = true → b i = true) ∧
        (∀ i, a.bitmap i = true → (alloc_phase inode bm iblock).2.bitmap i = true) := by
  intro m h0 hnz
  unfold alloc_phase at hnz ⊢
  by_cases hd : (iblock + 1) % 2 ^ 64 ≤ BITSFS_DDIR_BLOCKS
  · simp only [hd, if_true] at hnz ⊢
    have hm12 : m < 12 := by
      by_contra hge
      have hw := window_end_direct_le iblock hd
      apply hnz
      rw [alloc_slots_keeps single_alloc 0 _ 0 _ m (Or.inr (Or.inr (by omega)))]
      exact h0
    simp only [if_pos hm12]
    exact alloc_slots_filled single_alloc 0 single_alloc_mono single_alloc_pos _ _ _ m h0 hnz
  · simp only [hd, if_false] at hnz ⊢
    have g1 := alloc_slots_filled single_alloc 0 single_alloc_mono single_alloc_pos
      BITSFS_DDIR_BLOCKS 0
      { i_data := inode.i_data, bitmap := bm, is_new := false,
        block_cnt := BITSFS_DDIR_BLOCKS } m h0
    have k1 := alloc_slots_keeps single_alloc 0 BITSFS_DDIR_BLOCKS 0
      { i_data := inode.i_data, bitmap := bm, is_new := false,
        block_cnt := BITSFS_DDIR_BLOCKS } m
    have m1 := alloc_slots_mono single_alloc 0 single_alloc_mono BITSFS_DDIR_BLOCKS 0
      { i_data := inode.i_data, bitmap := bm, is_new := false,
        block_cnt := BITSFS_DDIR_BLOCKS }
    rcases h1 : alloc_slots single_alloc 0 BITSFS_DDIR_BLOCKS 0
      { i_data := inode.i_data, bitmap := bm, is_new := false,
        block_cnt := BITSFS_DDIR_BLOCKS } with ⟨e, s2⟩
    rw [h1] at g1 k1 m1 hnz
    simp only at g1 k1 m1
    have hdirect : m < 12 → s2.i_data m ≠ 0 →
        ∃ b a, (if m < 12 then single_alloc b else batch_alloc b) = some a ∧ a.err = 0 ∧
          s2.i_data m = a.pos + 135 ∧ (∀ i, bm i = true → b i = true) ∧
          (∀ i, a.bitmap i = true → s2.bitmap i = true) := by
      intro hm12 hs
      simp only [if_pos hm12]
      exact g1 hs
    have hkeep12 : ¬ m < 12 → s2.i_data m = 0 := by
      intro hm12
      rw [k1 (Or.inr (Or.inr (by simp only [BITSFS_DDIR_BLOCKS]; omega)))]
      exact h0
    cases e
    · simp only at hnz ⊢
      by_cases hm12 : m < 12
      · have hk2 := alloc_slots_keeps batch_alloc BITSFS_NDIR_BLOCK_COUNT
          (get_block_pos iblock + 1 - BITSFS_DDIR_BLOCKS).toNat BITSFS_DDIR_BLOCKS s2 m
          (Or.inr (Or.inl (by simp only [BITSFS_DDIR_BLOCKS]; omega)))
        rw [hk2] at hnz ⊢
        obtain ⟨b, a, hb, he, hv, hlo, hhi⟩ := hdirect hm12 hnz
        exact ⟨b, a, hb, he, hv, hlo, fun i hi =>
          alloc_slots_mono batch_alloc _ batch_alloc_mono _ _ s2 i (hhi i hi)⟩
      · simp only [if_neg hm12]
        obtain ⟨b, a, hb, he, hv, hlo, hhi⟩ :=
          alloc_slots_filled batch_alloc BITSFS_NDIR_BLOCK_COUNT batch_alloc_mono
            batch_alloc_pos _ _ s2 m (hkeep12 hm12) hnz
        exact ⟨b, a, hb, he, hv, fun i hi => hlo i (m1 i hi), hhi⟩
    · simp only at hnz ⊢
      by_cases hm12 : m < 12
      · exact hdirect hm12 hnz
      · exact absurd (hkeep12 hm12) hnz
    · simp only at hnz ⊢
      by_cases hm12 : m < 12
      · exact hdirect hm12 hnz
      · exact absurd (hkeep12 hm12) hnz

theorem single_alloc_err (b : Bitmap) (a : AllocResult) (h : single_alloc b = some a)
    (he : a.err ≠ 0) : a.err = - EIO_errno := by
  simp only [single_alloc, Option.some.injEq] at h
  subst h
  by_cases hlt : bitsfs_find_next_zero_bit b 32768 0 < 32768
  · rw [alloc_single_block_ok b hlt] at he
    exact absurd rfl he
  · rw [alloc_single_block_fail b hlt]

theorem batch_alloc_err (b : Bitmap) (a : AllocResult) (h : batch_alloc b = some a)
    (he : a.err ≠ 0) : a.err = - EIO_errno := by
  obtain ⟨a1, ha1, hcase⟩ := alloc_batch_blocks_spec b 1024 (by decide)
  have : a1 = a := by
    have h2 : alloc_batch_blocks b 1024 = some a := h
    rw [ha1] at h2
    exact Option.some.inj h2
  subst this
  rcases hcase with ⟨h0, _⟩ | ⟨herr, _⟩
  · exact absurd h0 he
  · exact herr

/-- When the allocation loops take `goto fail`, they stopped at a zero slot `j`
they were about to fill: the slots before `j` are non-zero, slot `j` and all later
ones are as before the call, and the error is the allocator's `-EIO`. -/
theorem alloc_phase_failed (inode : bitsfs_inode_info) (bm : Bitmap) (iblock : Nat)
    (err : Int) (h : (alloc_phase inode bm iblock).1 = LoopExit.failed err) :
    err = - EIO_errno ∧
    ∃ j, j < window_end iblock ∧ inode.i_data j = 0 ∧
      (∀ m, m < j → (alloc_phase inode bm iblock).2.i_data m ≠ 0) ∧
      (∀ m, j ≤ m → (alloc_phase inode bm iblock).2.i_data m = inode.i_data m) := by
  unfold alloc_phase at h ⊢
  unfold window_end
  by_cases hd : (iblock + 1) % 2 ^ 64 ≤ BITSFS_DDIR_BLOCKS
  · simp only [hd, if_true] at h ⊢
    obtain ⟨hne, ⟨b, a, hb, ha⟩, j, _, hj2, hj3, hj4, hj5⟩ :=
      alloc_slots_failed single_alloc 0 single_alloc_pos _ _ _ err h
    refine ⟨?_, j, by omega, hj3, fun m hm => hj4 m (Nat.zero_le _) hm, hj5⟩
    rw [← ha]
    exact single_alloc_err b a hb (by rw [ha]; exact hne)
  · simp only [hd, if_false] at h ⊢
    have f1 := alloc_slots_failed single_alloc 0 single_alloc_pos BITSFS_DDIR_BLOCKS 0
      { i_data := inode.i_data, bitmap := bm, is_new := false,
        block_cnt := BITSFS_DDIR_BLOCKS } err
    have n1 := alloc_slots_finished single_alloc 0 single_alloc_pos BITSFS_DDIR_BLOCKS 0
      { i_data := inode.i_data, bitmap := bm, is_new := false,
        block_cnt := BITSFS_DDIR_BLOCKS }
    have k1 := alloc_slots_keeps single_alloc 0 BITSFS_DDIR_BLOCKS 0
      { i_data := inode.i_data, bitmap := bm, is_new := false,
        block_cnt := BITSFS_DDIR_BLOCKS }
    rcases h1 : alloc_slots single_alloc 0 BITSFS_DDIR_BLOCKS 0
      { i_data := inode.i_data, bitmap := bm, is_new := false,
        block_cnt := BITSFS_DDIR_BLOCKS } with ⟨e, s2⟩
    rw [h1] at h f1 n1 k1
    simp only at f1 n1 k1
    cases e
    · simp only at h ⊢
      obtain ⟨hne, ⟨b, a, hb, ha⟩, j, hj1, hj2, hj3, hj4, hj5⟩ :=
        alloc_slots_failed batch_alloc _ batch_alloc_pos _ _ s2 err h
      have hj12 : 12 ≤ j := hj1
      refine ⟨?_, j, hj2, ?_, ?_, ?_⟩
      · rw [← ha]
        exact batch_alloc_err b a hb (by rw [ha]; exact hne)
      · rw [← k1 j (Or.inr (Or.inr (by simp only [BITSFS_DDIR_BLOCKS]; omega)))]
        exact hj3
      · intro m hm
        by_cases hm12 : m < 12
        · have hnz := (n1 rfl).1 m (Nat.zero_le _) (by simp only [BITSFS_DDIR_BLOCKS]; omega)
          rw [alloc_slots_keeps batch_alloc _ _ _ s2 m (Or.inl hnz)]
          exact hnz
        · exact hj4 m (by simp only [BITSFS_DDIR_BLOCKS]; omega) hm
      · intro m hm
        rw [hj5 m hm]
        exact k1 m (Or.inr (Or.inr (by simp only [BITSFS_DDIR_BLOCKS]; omega)))
    · simp only at h ⊢
      obtain ⟨hne, ⟨b, a, hb, ha⟩, j, _, hj2, hj3, hj4, hj5⟩ := f1 h
      refine ⟨?_, j, by omega, hj3, fun m hm => hj4 m (Nat.zero_le _) hm, hj5⟩
      rw [← ha]
      exact single_alloc_err b a hb (by rw [ha]; exact hne)
    · cases h

/-- When no slot that the loops visit is zero, they allocate nothing. -/
theorem alloc_phase_noop (inode : bitsfs_inode_info) (bm : Bitmap) (iblock : Nat)
    (h : ∀ m, m < window_end iblock → inode.i_data m ≠ 0) :
    (alloc_phase inode bm iblock).1 = LoopExit.finished ∧
    (alloc_phase inode bm iblock).2.i_data = inode.i_data ∧
    (alloc_phase inode bm iblock).2.bitmap = bm ∧
    (alloc_phase inode bm iblock).2.is_new = false := by
  unfold alloc_phase
  unfold window_end at h
  by_cases hd : (iblock + 1) % 2 ^ 64 ≤ BITSFS_DDIR_BLOCKS
  · simp only [hd, if_true] at h ⊢
    rw [alloc_slots_noop single_alloc 0 _ 0 _ (fun m _ hm => h m (by omega))]
    exact ⟨rfl, rfl, rfl, rfl⟩
  · simp only [hd, if_false] at h ⊢
    rw [alloc_slots_noop single_alloc 0 BITSFS_DDIR_BLOCKS 0 _
      (fun m _ hm => h m (by omega))]
    simp only
    rw [alloc_slots_noop batch_alloc BITSFS_NDIR_BLOCK_COUNT _ BITSFS_DDIR_BLOCKS _
      (fun m _ hm => h m hm)]
    exact ⟨rfl, rfl, rfl, rfl⟩

/-- The value of `block_cnt` when the allocation loops have run to their end. -/
theorem alloc_phase_block_cnt (inode : bitsfs_inode_info) (bm : Bitmap) (iblock : Nat)
    (h : (alloc_phase inode bm iblock).1 = LoopExit.finished) :
    (alloc_phase inode bm iblock).2.block_cnt =
      if (iblock + 1) % 2 ^ 64 ≤ BITSFS_DDIR_BLOCKS then (iblock + 1) % 2 ^ 64
      else 12 + (get_block_pos iblock + 1 - BITSFS_DDIR_BLOCKS).toNat * 1024 := by
  unfold alloc_phase at h ⊢
  by_cases hd : (iblock + 1) % 2 ^ 64 ≤ BITSFS_DDIR_BLOCKS
  · simp only [hd, if_true] at h ⊢
    rw [(alloc_slots_finished single_alloc 0 single_alloc_pos _ _ _ h).2]
    simp
  · simp only [hd, if_false] at h ⊢
    have n1 := alloc_slots_finished single_alloc 0 single_alloc_pos BITSFS_DDIR_BLOCKS 0
      { i_data := inode.i_data, bitmap := bm, is_new := false,
        block_cnt := BITSFS_DDIR_BLOCKS }
    rcases h1 : alloc_slots single_alloc 0 BITSFS_DDIR_BLOCKS 0
      { i_data := inode.i_data, bitmap := bm, is_new := false,
        block_cnt := BITSFS_DDIR_BLOCKS } with ⟨e, s2⟩
    rw [h1] at h n1
    simp only at n1
    cases e
    · simp only at h ⊢
      rw [(alloc_slots_finished batch_alloc _ batch_alloc_pos _ _ s2 h).2, (n1 rfl).2]
      simp [BITSFS_DDIR_BLOCKS, BITSFS_NDIR_BLOCK_COUNT]
    · cases h
    · cases h


/-! ## `bitsfs_get_block` as a whole -/

theorem window_end_direct (iblock : Nat) (h : iblock < 12) : window_end iblock = iblock + 1 := by
  obtain ⟨hd, hp⟩ := get_block_pos_direct iblock h
  unfold window_end
  rw [if_pos hd, hp]
  omega

theorem window_end_indirect (iblock : Nat) (h1 : 12 ≤ iblock) (h2 : iblock < 2 ^ 31 + 11) :
    window_end iblock = 13 + (iblock - 12) / 1024 := by
  obtain ⟨hd, hp⟩ := get_block_pos_indirect iblock h1 h2
  unfold window_end
  rw [if_neg hd, hp]
  simp only [BITSFS_DDIR_BLOCKS]
  omega

theorem pos_lt_window_end (iblock : Nat) (h : 0 ≤ get_block_pos iblock) :
    (get_block_pos iblock).toNat < window_end iblock := by
  unfold window_end
  split
  · omega
  · simp only [BITSFS_DDIR_BLOCKS]
    omega

/-- The `i_data` and bitmap that a call leaves behind are those of its allocation
loops, or the ones it was given when it stops at the "too big" guard. -/
theorem get_block_state (inode : bitsfs_inode_info) (bm : Bitmap) (iblock : Nat)
    (bh : buffer_head) (create : Int) :
    ((bitsfs_get_block inode bm iblock bh create).exit = GetBlockExit.too_big ∧
      (bitsfs_get_block inode bm iblock bh create).ret = - EIO_errno ∧
      (bitsfs_get_block inode bm iblock bh create).i_data = inode.i_data ∧
      (bitsfs_get_block inode bm iblock bh create).bitmap = bm ∧
      ¬ (iblock + 1) % 2 ^ 64 ≤ BITSFS_DDIR_BLOCKS ∧
      get_block_pos iblock ≥ BITSFS_TMAX_BLOCKS) ∨
    ((bitsfs_get_block inode bm iblock bh create).exit ≠ GetBlockExit.too_big ∧
      (bitsfs_get_block inode bm iblock bh create).i_data =
        (alloc_phase inode bm iblock).2.i_data ∧
      (bitsfs_get_block inode bm iblock bh create).bitmap =
        (alloc_phase inode bm iblock).2.bitmap ∧
      bitsfs_get_block inode bm iblock bh create =
        get_block_tail inode (alloc_phase inode bm iblock) (get_block_pos iblock)
          (get_block_offset iblock) bh ∧
      ¬ (¬ (iblock + 1) % 2 ^ 64 ≤ BITSFS_DDIR_BLOCKS ∧
        get_block_pos iblock ≥ BITSFS_TMAX_BLOCKS)) := by
  rw [bitsfs_get_block_eq]
  by_cases hb : ¬ (iblock + 1) % 2 ^ 64 ≤ BITSFS_DDIR_BLOCKS ∧
      get_block_pos iblock ≥ BITSFS_TMAX_BLOCKS
  · rw [if_pos hb]
    exact Or.inl ⟨rfl, rfl, rfl, rfl, hb.1, hb.2⟩
  · rw [if_neg hb]
    refine Or.inr ⟨?_, (get_block_tail_state _ _ _ _ _).1, (get_block_tail_state _ _ _ _ _).2,
      rfl, hb⟩
    rcases alloc_phase inode bm iblock with ⟨e, s⟩
    cases e
    · simp only [get_block_tail, get_block_finish]
      split <;> simp
    · simp [get_block_tail, get_block_abort]
    · simp [get_block_tail, get_block_abort]

/-- No call changes a non-zero slot. -/
theorem get_block_keeps (inode : bitsfs_inode_info) (bm : Bitmap) (iblock : Nat)
    (bh : buffer_head) (create : Int) (m : Nat) (h : inode.i_data m ≠ 0) :
    (bitsfs_get_block inode bm iblock bh create).i_data m = inode.i_data m := by
  rcases get_block_state inode bm iblock bh create with ⟨_, _, h1, _⟩ | ⟨_, h1, _⟩
  · rw [h1]
  · rw [h1]
    exact alloc_phase_keeps inode bm iblock m (Or.inl h)

/-- No call clears a bit of the block bitmap. -/
theorem get_block_mono (inode : bitsfs_inode_info) (bm : Bitmap) (iblock : Nat)
    (bh : buffer_head) (create : Int) (i : Nat) (h : bm i = true) :
    (bitsfs_get_block inode bm iblock bh create).bitmap i = true := by
  rcases get_block_state inode bm iblock bh create with ⟨_, _, _, h1, _⟩ | ⟨_, _, h1, _⟩
  · rw [h1]; exact h
  · rw [h1]
    exact alloc_phase_mono inode bm iblock i h

/-- A call that maps a block ran its allocation loops to their end and read a slot
inside `i_data`. -/
theorem get_block_mapped (inode : bitsfs_inode_info) (bm : Bitmap) (iblock : Nat)
    (bh : buffer_head) (create : Int)
    (h : (bitsfs_get_block inode bm iblock bh create).exit = GetBlockExit.mapped) :
    (alloc_phase inode bm iblock).1 = LoopExit.finished ∧
    0 ≤ get_block_pos iblock ∧ get_block_pos iblock < 16 ∧
    (bitsfs_get_block inode bm iblock bh create).i_data =
      (alloc_phase inode bm iblock).2.i_data ∧
    (bitsfs_get_block inode bm iblock bh create).bitmap =
      (alloc_phase inode bm iblock).2.bitmap ∧
    bitsfs_get_block inode bm iblock bh create =
      get_block_finish inode (alloc_phase inode bm iblock).2 (get_block_pos iblock)
        (get_block_offset iblock) bh := by
  rcases get_block_state inode bm iblock bh create with ⟨h1, _⟩ | ⟨_, h1, h2, h3, _⟩
  · rw [h1] at h; cases h
  · rw [h3] at h
    obtain ⟨g1, g2, g3, g4⟩ := get_block_tail_mapped _ _ _ _ _ h
    exact ⟨g1, g2, g3, h1, h2, by rw [h3, g4]⟩

/-- Every slot a call fills holds the position returned by one successful allocator
call plus 135, whatever way the call ends. -/
theorem get_block_filled (inode : bitsfs_inode_info) (bm : Bitmap) (iblock : Nat)
    (bh : buffer_head) (create : Int) (m : Nat) (h0 : inode.i_data m = 0)
    (hnz : (bitsfs_get_block inode bm iblock bh create).i_data m ≠ 0) :
    ∃ b a, (if m < 12 then some (alloc_single_block b) else alloc_batch_blocks b 1024) = some a ∧
      a.err = 0 ∧
      (bitsfs_get_block inode bm iblock bh create).i_data m = a.pos + 135 ∧
      (∀ i, bm i = true → b i = true) ∧
      (∀ i, a.bitmap i = true → (bitsfs_get_block inode bm iblock bh create).bitmap i = true) := by
  rcases get_block_state inode bm iblock bh create with ⟨_, _, h1, _⟩ | ⟨_, h1, h2, _⟩
  · rw [h1] at hnz
    exact absurd h0 hnz
  · rw [h1] at hnz ⊢
    rw [h2]
    exact alloc_phase_filled inode bm iblock m h0 hnz

/-- C1: after a successful call with `iblock < 4108`, the direct slots
`0..min(iblock,11)` are non-zero and, when `iblock >= 12`, so are the indirect slots
`12..12 + (iblock-12)/1024`; a slot that was non-zero keeps its value; the slots
above the addressed one are unchanged; and each slot the call filled holds the
position returned by a successful allocator call (`alloc_single_block` for a direct
slot, `alloc_batch_blocks` with count 1024 for an indirect one, run on a bitmap
between the one given and the one left) plus 135. -/
theorem get_block_fills_slots (inode : bitsfs_inode_info) (bm : Bitmap) (iblock : Nat)
    (bh : buffer_head) (create : Int) (hlt : iblock < 4108)
    (hok : (bitsfs_get_block inode bm iblock bh create).exit = GetBlockExit.mapped) :
    (∀ n, n ≤ min iblock 11 → (bitsfs_get_block inode bm iblock bh create).i_data n ≠ 0) ∧
    (12 ≤ iblock → ∀ n, 12 ≤ n → n ≤ 12 + (iblock - 12) / 1024 →
      (bitsfs_get_block inode bm iblock bh create).i_data n ≠ 0) ∧
    (∀ n, inode.i_data n ≠ 0 →
      (bitsfs_get_block inode bm iblock bh create).i_data n = inode.i_data n) ∧
    (∀ n, (if iblock < 12 then iblock else 12 + (iblock - 12) / 1024) < n →
      (bitsfs_get_block inode bm iblock bh create).i_data n = inode.i_data n) ∧
    (∀ n, inode.i_data n = 0 → (bitsfs_get_block inode bm iblock bh create).i_data n ≠ 0 →
      ∃ b a,
        (if n < 12 then some (alloc_single_block b) else alloc_batch_blocks b 1024) = some a ∧
        a.err = 0 ∧
        (bitsfs_get_block inode bm iblock bh create).i_data n = a.pos + 135 ∧
        (∀ i, bm i = true → b i = true) ∧
        (∀ i, a.bitmap i = true →
          (bitsfs_get_block inode bm iblock bh create).bitmap i = true)) := by
  obtain ⟨hfin, _, _, hid, _, _⟩ := get_block_mapped inode bm iblock bh create hok
  have hwin := alloc_phase_finished inode bm iblock hfin
  have hw : window_end iblock =
      (if iblock < 12 then iblock else 12 + (iblock - 12) / 1024) + 1 := by
    by_cases h12 : iblock < 12
    · rw [window_end_direct iblock h12, if_pos h12]
    · rw [window_end_indirect iblock (by omega) (by omega), if_neg h12]
      omega
  refine ⟨?_, ?_, ?_, ?_, ?_⟩
  · intro n hn
    rw [hid]
    apply hwin
    rw [hw]
    split <;> omega
  · intro h12 n _ hn
    rw [hid]
    apply hwin
    rw [hw, if_neg (by omega)]
    omega
  · intro n hn
    exact get_block_keeps inode bm iblock bh create n hn
  · intro n hn
    rw [hid]
    exact alloc_phase_keeps inode bm iblock n (Or.inr (by rw [hw]; omega))
  · intro n h0 hnz
    exact get_block_filled inode bm iblock bh create n h0 hnz


/-- C1 (example): on an empty file and the bitmap `busy_bitmap`, the call for
`iblock = 12` succeeds and leaves the slots `0..11` and `12` non-zero. -/
theorem get_block_fills_slots_witness :
    (bitsfs_get_block empty_file busy_bitmap 12 unmapped_bh 1).exit = GetBlockExit.mapped ∧
    (∀ n, n ≤ min 12 11 →
      (bitsfs_get_block empty_file busy_bitmap 12 unmapped_bh 1).i_data n ≠ 0) ∧
    (12 ≤ 12 → ∀ n, 12 ≤ n → n ≤ 12 + (12 - 12) / 1024 →
      (bitsfs_get_block empty_file busy_bitmap 12 unmapped_bh 1).i_data n ≠ 0) :=
  ⟨by decide!,
    (get_block_fills_slots empty_file busy_bitmap 12 unmapped_bh 1 (by decide) (by decide!)).1,
    (get_block_fills_slots empty_file busy_bitmap 12 unmapped_bh 1 (by decide) (by decide!)).2.1⟩

/-! ## C2: the block mapped on the indirect path -/

/-- C2 (the code at `mapped_file`, `iblock = 12`): the call succeeds and maps block
`i_data[12] + 12 = 160`, whereas `off = 12 + 1 - 12 = 1`, `slot = 11 + ceil(1/1024) = 12`
and `offset_within = 1 mod 1024 = 1` give `i_data[12] + 1 = 149`. -/
theorem get_block_indirect_offset_is_slot :
    (bitsfs_get_block mapped_file mapped_bitmap 12 unmapped_bh 1).exit = GetBlockExit.mapped ∧
    (bitsfs_get_block mapped_file mapped_bitmap 12 unmapped_bh 1).bh_result.b_blocknr = 160 ∧
    mapped_file.i_data 12 + (12 + 1 - 12) % 1024 = 149 := by
  decide

/-! ## C3: the "too big" guard -/

/-- For `4108 <= iblock < 2^31 + 11` (so that `iblock + 1 - 12` fits an `int`) the call
stops at the guard, returns `-EIO` and changes nothing; for `iblock < 4108` it never
stops there. -/
theorem get_block_too_big_in_range (inode : bitsfs_inode_info) (bm : Bitmap) (iblock : Nat)
    (bh : buffer_head) (create : Int) :
    (4108 ≤ iblock → iblock < 2 ^ 31 + 11 →
      (bitsfs_get_block inode bm iblock bh create).exit = GetBlockExit.too_big ∧
      (bitsfs_get_block inode bm iblock bh create).ret = - EIO_errno ∧
      (bitsfs_get_block inode bm iblock bh create).i_data = inode.i_data ∧
      (bitsfs_get_block inode bm iblock bh create).bitmap = bm) ∧
    (iblock < 4108 →
      (bitsfs_get_block inode bm iblock bh create).exit ≠ GetBlockExit.too_big) := by
  constructor
  · intro h1 h2
    obtain ⟨hd, hp⟩ := get_block_pos_indirect iblock (by omega) h2
    rcases get_block_state inode bm iblock bh create with ⟨g1, g2, g3, g4, _⟩ | ⟨_, _, _, _, g5⟩
    · exact ⟨g1, g2, g3, g4⟩
    · exfalso
      apply g5
      refine ⟨hd, ?_⟩
      rw [hp]
      simp only [BITSFS_TMAX_BLOCKS, BITSFS_DDIR_BLOCKS, BITSFS_NDIR_BLOCKS]
      omega
  · intro h1
    rcases get_block_state inode bm iblock bh create with ⟨_, _, _, _, g5, g6⟩ | ⟨g1, _⟩
    · exfalso
      by_cases h12 : iblock < 12
      · exact g5 (get_block_pos_direct iblock h12).1
      · obtain ⟨_, hp⟩ := get_block_pos_indirect iblock (by omega) (by omega)
        rw [hp] at g6
        simp only [BITSFS_TMAX_BLOCKS, BITSFS_DDIR_BLOCKS, BITSFS_NDIR_BLOCKS] at g6
        omega
    · exact g1

/-- C3 (the code at `iblock = 2^32 + 11 = 4294967307`, an empty file, the bitmap of a
fresh mount): `iblock + 1 - 12 = 2^32` becomes `pos = 0` as an `int`, the slot is
`11 < 16`, and the call does not fail: it returns 0, fills the direct slots
(`i_data[0] = 136`) and sets bitmap bits. -/
theorem get_block_wraps_past_guard :
    4108 ≤ 4294967307 ∧
    (bitsfs_get_block empty_file fresh_bitmap 4294967307 unmapped_bh 1).exit =
      GetBlockExit.mapped ∧
    (bitsfs_get_block empty_file fresh_bitmap 4294967307 unmapped_bh 1).ret = 0 ∧
    (bitsfs_get_block empty_file fresh_bitmap 4294967307 unmapped_bh 1).i_data 0 = 136 ∧
    empty_file.i_data 0 = 0 ∧
    (bitsfs_get_block empty_file fresh_bitmap 4294967307 unmapped_bh 1).bitmap 1 = true ∧
    fresh_bitmap 1 = false := by
  decide


/-! ## C4: a mapped block stays mapped -/

/-- Further calls on the inode keep every non-zero slot. -/
theorem get_block_calls_keeps (inode : bitsfs_inode_info) :
    ∀ (calls : List (Nat × buffer_head × Int)) (st : (Nat → Nat) × Bitmap) (m : Nat),
      st.1 m ≠ 0 → (get_block_calls inode calls st).1 m = st.1 m := by
  intro calls
  induction calls with
  | nil => intro st m _; rfl
  | cons c rest ih =>
    intro st m h
    obtain ⟨iblock, bh, create⟩ := c
    simp only [get_block_calls]
    have hk := get_block_keeps { inode with i_data := st.1 } st.2 iblock bh create m h
    rw [ih _ m (by simp only; rw [hk]; exact h)]
    exact hk

/-- A call on an inode whose visited slots are all non-zero maps the block and
changes neither `i_data` nor the bitmap nor the `BH_New` bit. -/
theorem get_block_of_mapped (inode : bitsfs_inode_info) (bm : Bitmap) (iblock : Nat)
    (bh : buffer_head) (create : Int)
    (hwin : ∀ m, m < window_end iblock → inode.i_data m ≠ 0)
    (hpos : 0 ≤ get_block_pos iblock ∧ get_block_pos iblock < 16)
    (hguard : ¬ (¬ (iblock + 1) % 2 ^ 64 ≤ BITSFS_DDIR_BLOCKS ∧
      get_block_pos iblock ≥ BITSFS_TMAX_BLOCKS)) :
    (bitsfs_get_block inode bm iblock bh create).exit = GetBlockExit.mapped ∧
    (bitsfs_get_block inode bm iblock bh create).ret = 0 ∧
    (bitsfs_get_block inode bm iblock bh create).bh_result.b_blocknr =
      Int.toNat ((((inode.i_data (get_block_pos iblock).toNat : Nat) : Int) +
        get_block_offset iblock).emod (2 ^ 32)) ∧
    (bitsfs_get_block inode bm iblock bh create).i_data = inode.i_data ∧
    (bitsfs_get_block inode bm iblock bh create).bitmap = bm ∧
    (bitsfs_get_block inode bm iblock bh create).bh_result.is_new = bh.is_new := by
  obtain ⟨n1, n2, n3, n4⟩ := alloc_phase_noop inode bm iblock hwin
  rw [bitsfs_get_block_eq, if_neg hguard]
  rcases hph : alloc_phase inode bm iblock with ⟨e, s⟩
  rw [hph] at n1 n2 n3 n4
  simp only at n1 n2 n3 n4
  subst n1
  simp only [get_block_tail, get_block_finish, if_pos hpos, n2, n3, n4]
  simp

/-- C4: if `r = bitsfs_get_block(inode, i, create = 1)` maps a block, then after any
further sequence `calls` of `bitsfs_get_block` calls on the inode (nothing else
touching `i_data`), leading to the state `st`, the call
`r2 = bitsfs_get_block(inode, i, create = 0)` returns 0, maps the same block, leaves
`i_data` and the bitmap as they are and does not touch the `BH_New` bit. -/
theorem get_block_monotone (inode : bitsfs_inode_info) (bm : Bitmap) (i : Nat)
    (bh : buffer_head) (calls : List (Nat × buffer_head × Int)) (bh2 : buffer_head)
    (r r2 : GetBlockResult) (st : (Nat → Nat) × Bitmap)
    (hr : r = bitsfs_get_block inode bm i bh 1)
    (hok : r.exit = GetBlockExit.mapped)
    (hst : st = get_block_calls inode calls (r.i_data, r.bitmap))
    (hr2 : r2 = bitsfs_get_block { inode with i_data := st.1 } st.2 i bh2 0) :
    r2.exit = GetBlockExit.mapped ∧ r2.ret = 0 ∧
    r2.bh_result.b_blocknr = r.bh_result.b_blocknr ∧
    r2.i_data = st.1 ∧ r2.bitmap = st.2 ∧
    r2.bh_result.is_new = bh2.is_new := by
  subst hr hst hr2
  obtain ⟨hfin, hp0, hp16, hid, _, heq⟩ := get_block_mapped inode bm i bh 1 hok
  have hwin := alloc_phase_finished inode bm i hfin
  have hguard : ¬ (¬ (i + 1) % 2 ^ 64 ≤ BITSFS_DDIR_BLOCKS ∧
      get_block_pos i ≥ BITSFS_TMAX_BLOCKS) := by
    rintro ⟨_, h⟩
    simp only [BITSFS_TMAX_BLOCKS, BITSFS_DDIR_BLOCKS, BITSFS_NDIR_BLOCKS] at h
    omega
  have hkeep : ∀ m, m < window_end i →
      (get_block_calls inode calls
        ((bitsfs_get_block inode bm i bh 1).i_data,
         (bitsfs_get_block inode bm i bh 1).bitmap)).1 m =
      (bitsfs_get_block inode bm i bh 1).i_data m := by
    intro m hm
    apply get_block_calls_keeps inode calls _ m
    rw [hid]
    exact hwin m hm
  have hwin2 : ∀ m, m < window_end i →
      (get_block_calls inode calls
        ((bitsfs_get_block inode bm i bh 1).i_data,
         (bitsfs_get_block inode bm i bh 1).bitmap)).1 m ≠ 0 := by
    intro m hm
    rw [hkeep m hm, hid]
    exact hwin m hm
  obtain ⟨g1, g2, g3, g4, g5, g6⟩ := get_block_of_mapped
    { inode with i_data := (get_block_calls inode calls
        ((bitsfs_get_block inode bm i bh 1).i_data,
         (bitsfs_get_block inode bm i bh 1).bitmap)).1 }
    (get_block_calls inode calls
        ((bitsfs_get_block inode bm i bh 1).i_data,
         (bitsfs_get_block inode bm i bh 1).bitmap)).2 i bh2 0 hwin2 ⟨hp0, hp16⟩ hguard
  refine ⟨g1, g2, ?_, g4, g5, g6⟩
  rw [g3]
  simp only
  rw [hkeep _ (pos_lt_window_end i hp0), hid]
  conv => rhs; rw [heq]
  simp only [get_block_finish, if_pos (And.intro hp0 hp16)]

/-- C4 (example): block 12 of an empty file, mapped with `create = 1` on
`busy_bitmap`, is mapped again by a `create = 0` call issued after calls for blocks
0 and 5000, with `i_data` and the bitmap left alone. -/
theorem get_block_monotone_witness :
    (bitsfs_get_block empty_file busy_bitmap 12 unmapped_bh 1).exit = GetBlockExit.mapped ∧
    (bitsfs_get_block
      { empty_file with i_data := (get_block_calls empty_file
          [(0, unmapped_bh, 1), (5000, unmapped_bh, 0)]
          ((bitsfs_get_block empty_file busy_bitmap 12 unmapped_bh 1).i_data,
           (bitsfs_get_block empty_file busy_bitmap 12 unmapped_bh 1).bitmap)).1 }
      (get_block_calls empty_file [(0, unmapped_bh, 1), (5000, unmapped_bh, 0)]
          ((bitsfs_get_block empty_file busy_bitmap 12 unmapped_bh 1).i_data,
           (bitsfs_get_block empty_file busy_bitmap 12 unmapped_bh 1).bitmap)).2
      12 unmapped_bh 0).exit = GetBlockExit.mapped :=
  ⟨by decide!,
    (get_block_monotone empty_file busy_bitmap 12 unmapped_bh
      [(0, unmapped_bh, 1), (5000, unmapped_bh, 0)] unmapped_bh _ _ _ rfl (by decide!)
      rfl rfl).1⟩


/-! ## C5: truncation -/

/-- C5 (the code at `one_block_file`, a regular file whose direct slot 0 holds block
2135, with bits 0 and 2000 of the bitmap set): after `bitsfs_truncate_blocks` bit
`2135 - 135 = 2000` is still set, while bit 0, the root directory's block, has been
cleared. -/
theorem truncate_blocks_keeps_owned_bit :
    S_ISREG one_block_file.i_mode = true ∧
    one_block_file.i_data 0 = 2135 ∧
    one_block_bitmap (2135 - 135) = true ∧
    bitsfs_truncate_blocks one_block_file one_block_bitmap 0 (2135 - 135) = true ∧
    one_block_bitmap 0 = true ∧
    bitsfs_truncate_blocks one_block_file one_block_bitmap 0 0 = false := by
  decide!

/-! ## C6, C7, C8: the allocators -/

/-- C6 (example): on the bitmap of a fresh mount the allocator succeeds at bit 1; on
a full bitmap it returns `-EIO` and changes nothing. -/
theorem alloc_single_block_first_fit_witness :
    ((alloc_single_block fresh_bitmap).err = 0 ∧
      (alloc_single_block fresh_bitmap).pos < 32768 ∧
      fresh_bitmap (alloc_single_block fresh_bitmap).pos = false) ∧
    ((alloc_single_block (fun _ => true)).err = - EIO_errno ∧
      (alloc_single_block (fun _ => true)).bitmap = (fun _ => true)) :=
  ⟨⟨((alloc_single_block_first_fit fresh_bitmap).1 ⟨1, by decide, by decide⟩).1,
    ((alloc_single_block_first_fit fresh_bitmap).1 ⟨1, by decide, by decide⟩).2.1,
    ((alloc_single_block_first_fit fresh_bitmap).1 ⟨1, by decide, by decide⟩).2.2.1⟩,
   (alloc_single_block_first_fit (fun _ => true)).2 (fun _ _ => rfl)⟩

/-- C7: for `n >= 1`, `alloc_batch_blocks` (through `find_avai_block_range` from bit 0)
always returns; it succeeds exactly when the 32768 bits of the bitmap buffer hold
`n` consecutive clear bits; on success the start it returns is the smallest `s` with
bits `s .. s+n-1` all clear; otherwise it returns `-EIO` and leaves the bitmap
unchanged. -/
theorem alloc_batch_blocks_first_fit (bm : Bitmap) (n : Nat) (hn : 1 ≤ n) :
    ∃ a, alloc_batch_blocks bm n = some a ∧
      (a.err = 0 ↔ ∃ s, free_run bm s n) ∧
      (a.err = 0 → free_run bm a.pos n ∧ ∀ s, free_run bm s n → a.pos ≤ s) ∧
      (a.err ≠ 0 → a.err = - EIO_errno ∧ a.bitmap = bm) := by
  obtain ⟨a, ha, hcase⟩ := alloc_batch_blocks_spec bm n hn
  refine ⟨a, ha, ?_⟩
  rcases hcase with ⟨herr, hfree, hmin, _⟩ | ⟨herr, hnone, hsame⟩
  · refine ⟨⟨fun _ => ⟨a.pos, hfree⟩, fun _ => herr⟩, fun _ => ⟨hfree, ?_⟩,
      fun h => absurd herr h⟩
    intro s hs
    by_contra hlt
    exact hmin s (by omega) hs
  · have hne : a.err ≠ 0 := by rw [herr]; exact EIO_errno_ne
    refine ⟨⟨fun h => absurd h hne, ?_⟩, fun h => absurd h hne, fun _ => ⟨herr, hsame⟩⟩
    rintro ⟨s, hs⟩
    exact absurd hs (hnone s)

/-- C7 (example): the search for 1024 blocks on the bitmap of a fresh mount. -/
theorem alloc_batch_blocks_first_fit_witness :
    (1 : Nat) ≤ 1024 ∧
    ∃ a, alloc_batch_blocks fresh_bitmap 1024 = some a ∧
      (a.err = 0 ↔ ∃ s, free_run fresh_bitmap s 1024) ∧
      (a.err = 0 → free_run fresh_bitmap a.pos 1024 ∧
        ∀ s, free_run fresh_bitmap s 1024 → a.pos ≤ s) ∧
      (a.err ≠ 0 → a.err = - EIO_errno ∧ a.bitmap = fresh_bitmap) :=
  ⟨by decide, alloc_batch_blocks_first_fit fresh_bitmap 1024 (by decide)⟩

/-- C8 (the code at the bitmap of a fresh mount, `count = 1024`): the call succeeds
with start 1 and sets every bit up to the end of the clear run, 32767 bits in all;
bit `1 + 1024 = 1025`, outside `1 .. 1024`, goes from clear to set. -/
theorem alloc_batch_blocks_sets_whole_run :
    ∃ a, alloc_batch_blocks fresh_bitmap 1024 = some a ∧ a.err = 0 ∧ a.pos = 1 ∧
      fresh_bitmap (1 + 1024) = false ∧ a.bitmap (1 + 1024) = true ∧
      (∀ i, 1 ≤ i → i < 32768 → a.bitmap i = true) := by
  obtain ⟨a, ha, hcase⟩ := alloc_batch_blocks_spec fresh_bitmap 1024 (by decide)
  have hclr : ∀ i, 1 ≤ i → fresh_bitmap i = false := by
    intro i hi
    simp only [fresh_bitmap, decide_eq_false_iff_not]
    omega
  have hrun : free_run fresh_bitmap 1 1024 :=
    ⟨by decide, fun k _ => hclr _ (by omega)⟩
  rcases hcase with ⟨herr, hfree, hmin, stop, h1, h2, _, h4, h5⟩ | ⟨_, hnone, _⟩
  · have hpos : a.pos = 1 := by
      have hle : a.pos ≤ 1 := by
        by_contra hgt
        exact hmin 1 (by omega) hrun
      have hne : a.pos ≠ 0 := by
        intro h0
        have := hfree.2 0 (by decide)
        rw [h0] at this
        simp [fresh_bitmap] at this
      omega
    have hstop : stop = 32768 := by
      by_contra hne
      have := h4 (by omega)
      rw [hclr stop (by omega)] at this
      cases this
    refine ⟨a, ha, herr, hpos, hclr _ (by decide), ?_, ?_⟩
    · rw [h5, hpos, hstop]
      decide
    · intro i hi1 hi2
      rw [h5, hpos, hstop]
      simp [hi1, hi2]
  · exact absurd hrun (hnone 1)


/-! ## C9: no rollback after a failed allocation -/

theorem single_alloc_sets (b : Bitmap) (a : AllocResult)
    (h : some (alloc_single_block b) = some a) (he : a.err = 0) :
    a.bitmap a.pos = true := by
  simp only [Option.some.injEq] at h
  subst h
  by_cases hlt : bitsfs_find_next_zero_bit b 32768 0 < 32768
  · rw [alloc_single_block_ok b hlt]
    simp [bitsfs_set_bit]
  · rw [alloc_single_block_fail b hlt] at he
    exact absurd he EIO_errno_ne

theorem batch_alloc_sets (b : Bitmap) (a : AllocResult)
    (h : alloc_batch_blocks b 1024 = some a) (he : a.err = 0) :
    ∀ k, k < 1024 → a.bitmap (a.pos + k) = true := by
  obtain ⟨a1, ha1, hcase⟩ := alloc_batch_blocks_spec b 1024 (by decide)
  have : a1 = a := by
    rw [ha1] at h
    exact Option.some.inj h
  subst this
  rcases hcase with ⟨_, _, _, stop, h1, _, _, _, h5⟩ | ⟨herr, _⟩
  · intro k hk
    rw [h5]
    have : a1.pos ≤ a1.pos + k ∧ a1.pos + k < stop := by omega
    simp [this]
  · rw [herr] at he
    exact absurd he EIO_errno_ne

/-- C9: when `bitsfs_get_block` leaves through `fail:`, it returns `-EIO` and stopped
at a zero slot `j` it was about to fill.  Every slot before `j` is non-zero; a slot
the call filled holds `p + 135` for an allocated position `p` whose bit (for an
indirect slot: whose 1024 bits) is set in the bitmap left behind; slot `j` and all
later slots, and every slot that was non-zero, are as before the call; no bit of
the bitmap has been cleared and the caller's buffer head is untouched. -/
theorem get_block_no_rollback (inode : bitsfs_inode_info) (bm : Bitmap) (iblock : Nat)
    (bh : buffer_head) (create : Int)
    (hfail : (bitsfs_get_block inode bm iblock bh create).exit = GetBlockExit.alloc_failed) :
    (bitsfs_get_block inode bm iblock bh create).ret = - EIO_errno ∧
    (∃ j, j < window_end iblock ∧ inode.i_data j = 0 ∧
      (∀ m, m < j → (bitsfs_get_block inode bm iblock bh create).i_data m ≠ 0) ∧
      (∀ m, j ≤ m → (bitsfs_get_block inode bm iblock bh create).i_data m = inode.i_data m)) ∧
    (∀ m, inode.i_data m ≠ 0 →
      (bitsfs_get_block inode bm iblock bh create).i_data m = inode.i_data m) ∧
    (∀ m, inode.i_data m = 0 → (bitsfs_get_block inode bm iblock bh create).i_data m ≠ 0 →
      ∃ p, (bitsfs_get_block inode bm iblock bh create).i_data m = p + 135 ∧
        (m < 12 → (bitsfs_get_block inode bm iblock bh create).bitmap p = true) ∧
        (12 ≤ m → ∀ k, k < 1024 →
          (bitsfs_get_block inode bm iblock bh create).bitmap (p + k) = true)) ∧
    (∀ i, bm i = true → (bitsfs_get_block inode bm iblock bh create).bitmap i = true) ∧
    (bitsfs_get_block inode bm iblock bh create).bh_result = bh := by
  rcases get_block_state inode bm iblock bh create with ⟨h1, _⟩ | ⟨_, hid, _, heq, _⟩
  · rw [h1] at hfail; cases hfail
  · have hfail2 := hfail
    rw [heq] at hfail2
    obtain ⟨t1, t2⟩ := get_block_tail_failed _ _ _ _ _ hfail2
    obtain ⟨e1, j, hj1, hj2, hj3, hj4⟩ := alloc_phase_failed inode bm iblock _ t1
    refine ⟨?_, ⟨j, hj1, hj2, ?_, ?_⟩, ?_, ?_, ?_, ?_⟩
    · rw [heq]; exact e1
    · intro m hm; rw [hid]; exact hj3 m hm
    · intro m hm; rw [hid]; exact hj4 m hm
    · intro m hm; exact get_block_keeps inode bm iblock bh create m hm
    · intro m h0 hnz
      obtain ⟨b, a, hb, he, hv, _, hhi⟩ := get_block_filled inode bm iblock bh create m h0 hnz
      refine ⟨a.pos, hv, ?_, ?_⟩
      · intro hm
        rw [if_pos hm] at hb
        exact hhi _ (single_alloc_sets b a hb he)
      · intro hm k hk
        rw [if_neg (by omega)] at hb
        exact hhi _ (batch_alloc_sets b a hb he k hk)
    · intro i hi; exact get_block_mono inode bm iblock bh create i hi
    · rw [heq]; exact t2

/-- C9 (example): on an empty file and a bitmap with bit 0 as its only clear bit, the
call for `iblock = 1` fills slot 0 and then fails at slot 1; it returns `-EIO`, no
bit has been cleared and the buffer head is untouched. -/
theorem get_block_no_rollback_witness :
    (bitsfs_get_block empty_file nearly_full_bitmap 1 unmapped_bh 1).exit =
      GetBlockExit.alloc_failed ∧
    (bitsfs_get_block empty_file nearly_full_bitmap 1 unmapped_bh 1).ret = - EIO_errno ∧
    (∀ i, nearly_full_bitmap i = true →
      (bitsfs_get_block empty_file nearly_full_bitmap 1 unmapped_bh 1).bitmap i = true) ∧
    (bitsfs_get_block empty_file nearly_full_bitmap 1 unmapped_bh 1).bh_result = unmapped_bh :=
  have h : (bitsfs_get_block empty_file nearly_full_bitmap 1 unmapped_bh 1).exit =
      GetBlockExit.alloc_failed := by decide!
  ⟨h, (get_block_no_rollback empty_file nearly_full_bitmap 1 unmapped_bh 1 h).1,
    (get_block_no_rollback empty_file nearly_full_bitmap 1 unmapped_bh 1 h).2.2.2.2.1,
    (get_block_no_rollback empty_file nearly_full_bitmap 1 unmapped_bh 1 h).2.2.2.2.2⟩

/-! ## C10: the extent size reported to the caller -/

/-- C10 (as stated, refuted): the successful call for `iblock = 12` on `mapped_file`
reports `b_size = 1036 * 4096`, not `1024 * 4096`. -/
theorem get_block_extent_not_one_cluster :
    ¬ ((bitsfs_get_block mapped_file mapped_bitmap 12 unmapped_bh 1).exit =
        GetBlockExit.mapped → 12 ≤ 12 →
      (bitsfs_get_block mapped_file mapped_bitmap 12 unmapped_bh 1).bh_result.b_size =
        1024 * 4096) := by
  decide

/-- C10 (amended): a successful call with `12 <= iblock < 4108` on an inode with
4096-byte blocks reports `b_size = (12 + 1024 * ((iblock - 12) / 1024 + 1)) * 4096`:
the twelve direct blocks plus one 1024-block cluster for every indirect slot up to
the mapped one. -/
theorem get_block_extent (inode : bitsfs_inode_info) (bm : Bitmap) (iblock : Nat)
    (bh : buffer_head) (create : Int) (h12 : 12 ≤ iblock) (hlt : iblock < 4108)
    (hbits : inode.i_blkbits = 12)
    (hok : (bitsfs_get_block inode bm iblock bh create).exit = GetBlockExit.mapped) :
    (bitsfs_get_block inode bm iblock bh create).bh_result.b_size =
      (12 + 1024 * ((iblock - 12) / 1024 + 1)) * 4096 := by
  obtain ⟨hfin, hp0, hp16, _, _, heq⟩ := get_block_mapped inode bm iblock bh create hok
  obtain ⟨hd, hp⟩ := get_block_pos_indirect iblock h12 (by omega)
  have hcnt := alloc_phase_block_cnt inode bm iblock hfin
  rw [if_neg hd, hp] at hcnt
  rw [heq]
  simp only [get_block_finish, if_pos (And.intro hp0 hp16), hcnt, hbits, BITSFS_DDIR_BLOCKS]
  rw [Nat.shiftLeft_eq]
  have e : (((12 + (iblock - 12) / 1024 : Nat) : Int) + 1 - ((12 : Nat) : Int)).toNat =
      (iblock - 12) / 1024 + 1 := by omega
  rw [e]
  have hq : (iblock - 12) / 1024 < 4 := by omega
  omega

/-- C10 (amended, example): `iblock = 12` on `mapped_file`. -/
theorem get_block_extent_witness :
    (bitsfs_get_block mapped_file mapped_bitmap 12 unmapped_bh 1).exit = GetBlockExit.mapped ∧
    (bitsfs_get_block mapped_file mapped_bitmap 12 unmapped_bh 1).bh_result.b_size =
      (12 + 1024 * ((12 - 12) / 1024 + 1)) * 4096 :=
  ⟨by decide,
    get_block_extent mapped_file mapped_bitmap 12 unmapped_bh 1 (by decide) (by decide) rfl
      (by decide)⟩

/-! ## C11, C12, C13: inode numbers and the inode bitmap -/

/-- The search of `bitsfs_new_inode` on a bitmap with a clear bit in
`[1, s_inodes_count)`: it stops on the first such bit. -/
theorem new_inode_search (imap : Bitmap) (count : Nat)
    (h : ∃ q, 1 ≤ q ∧ q < count ∧ imap q = false) :
    1 ≤ bitsfs_find_next_zero_bit imap count 1 ∧
    bitsfs_find_next_zero_bit imap count 1 < count ∧
    imap (bitsfs_find_next_zero_bit imap count 1) = false ∧
    (∀ q, 1 ≤ q → q < bitsfs_find_next_zero_bit imap count 1 → imap q = true) := by
  obtain ⟨q, hq1, hq2, hq3⟩ := h
  have hlt : bitsfs_find_next_zero_bit imap count 1 < count := by
    by_contra hge
    have := find_next_zero_bit_skipped imap count 1 q hq1 (by omega)
    rw [hq3] at this
    cases this
  exact ⟨find_next_zero_bit_ge imap count 1 (by omega), hlt,
    find_next_zero_bit_found imap count 1 hlt,
    fun q h1 h2 => find_next_zero_bit_skipped imap count 1 q h1 h2⟩

/-- C11: on an inode bitmap with a clear bit in `[1, inode_count)`, `bitsfs_new_inode`
(once the kernel has given it an in-memory inode) takes the smallest clear position
`p >= 1`, sets bit `p` and no other, and gives the inode the number `p + 1`, which
is at least 2; bit 0 keeps its value; the call returns the inode unless
`insert_inode_locked` finds the number in use. -/
theorem new_inode_first_fit (imap : Bitmap) (count mode : Nat) (now : Int)
    (fresh : vfs_inode) (collides : Bool)
    (h : ∃ q, 1 ≤ q ∧ q < count ∧ imap q = false) :
    ∃ p, 1 ≤ p ∧ p < count ∧ imap p = false ∧ (∀ q, 1 ≤ q → q < p → imap q = true) ∧
      (bitsfs_new_inode imap count mode now fresh true collides).imap p = true ∧
      (∀ i, i ≠ p → (bitsfs_new_inode imap count mode now fresh true collides).imap i = imap i) ∧
      (bitsfs_new_inode imap count mode now fresh true collides).inode.i_ino = p + 1 ∧
      2 ≤ (bitsfs_new_inode imap count mode now fresh true collides).inode.i_ino ∧
      (bitsfs_new_inode imap count mode now fresh true collides).imap 0 = imap 0 ∧
      (collides = false →
        (bitsfs_new_inode imap count mode now fresh true collides).ret = 0) := by
  obtain ⟨h1, h2, h3, h4⟩ := new_inode_search imap count h
  refine ⟨bitsfs_find_next_zero_bit imap count 1, h1, h2, h3, h4, ?_⟩
  have hbits : (bitsfs_new_inode imap count mode now fresh true collides).imap =
      bitsfs_set_bit (bitsfs_find_next_zero_bit imap count 1) imap := by
    unfold bitsfs_new_inode
    cases collides <;> rfl
  have hino : (bitsfs_new_inode imap count mode now fresh true collides).inode.i_ino =
      bitsfs_find_next_zero_bit imap count 1 + 1 := by
    unfold bitsfs_new_inode
    cases collides <;> rfl
  refine ⟨?_, ?_, hino, by rw [hino]; omega, ?_, ?_⟩
  · rw [hbits]; simp [bitsfs_set_bit]
  · intro i hi
    rw [hbits]; simp [bitsfs_set_bit, hi]
  · rw [hbits]
    have : (0 : Nat) ≠ bitsfs_find_next_zero_bit imap count 1 := by omega
    simp [bitsfs_set_bit, this]
  · intro hc
    subst hc
    rfl

/-- C11 (example): with inodes 1, 2 and 3 in use out of 4096, the new inode gets
position 3 and number 4. -/
theorem new_inode_first_fit_witness :
    ∃ p, 1 ≤ p ∧ p < 4096 ∧ three_inode_bitmap p = false ∧
      (∀ q, 1 ≤ q → q < p → three_inode_bitmap q = true) ∧
      (bitsfs_new_inode three_inode_bitmap 4096 0o100644 0 blank_inode true false).imap p = true ∧
      (∀ i, i ≠ p →
        (bitsfs_new_inode three_inode_bitmap 4096 0o100644 0 blank_inode true false).imap i =
          three_inode_bitmap i) ∧
      (bitsfs_new_inode three_inode_bitmap 4096 0o100644 0 blank_inode true false).inode.i_ino =
        p + 1 ∧
      2 ≤ (bitsfs_new_inode three_inode_bitmap 4096 0o100644 0 blank_inode true
        false).inode.i_ino ∧
      (bitsfs_new_inode three_inode_bitmap 4096 0o100644 0 blank_inode true false).imap 0 =
        three_inode_bitmap 0 ∧
      (false = false →
        (bitsfs_new_inode three_inode_bitmap 4096 0o100644 0 blank_inode true false).ret = 0) :=
  new_inode_first_fit three_inode_bitmap 4096 0o100644 0 blank_inode false
    ⟨3, by decide, by decide, by decide⟩

/-- C12 (the code at an inode bitmap with bits 0..4095 set and `s_inodes_count =
4096`): no position in `[1, 4096)` is clear, yet the call returns an inode (return
value 0) with number 4097 and has set bit 4096, which was clear. -/
theorem new_inode_ignores_full_bitmap :
    (bitsfs_new_inode full_inode_bitmap 4096 0o100644 0 blank_inode true false).ret = 0 ∧
    (bitsfs_new_inode full_inode_bitmap 4096 0o100644 0 blank_inode true false).inode.i_ino =
      4097 ∧
    full_inode_bitmap 4096 = false ∧
    (bitsfs_new_inode full_inode_bitmap 4096 0o100644 0 blank_inode true false).imap 4096 =
      true := by
  decide!

/-- Clearing a bit that was clear before it was set gives the bitmap back. -/
theorem clear_set_bit (p : Nat) (bm : Bitmap) (h : bm p = false) :
    bitsfs_clear_bit p (bitsfs_set_bit p bm) = bm := by
  funext i
  simp only [bitsfs_clear_bit, bitsfs_set_bit]
  split
  · rename_i hi
    rw [hi, h]
  · rfl

/-- C13: on an inode bitmap with a clear bit in `[1, inode_count)`, allocating an
inode with `bitsfs_new_inode` and then running `bitsfs_evict_inode` on that inode
(any in-memory state of it with the allocated number, link count 0 and not bad;
inode-table block and inode bitmap readable) ends with the inode bitmap equal to
the one before the allocation. -/
theorem new_inode_evict_round_trip (imap : Bitmap) (count mode : Nat) (now : Int)
    (fresh : vfs_inode) (collides : Bool)
    (h : ∃ q, 1 ≤ q ∧ q < count ∧ imap q = false)
    (inode : vfs_inode) (d : inode_disk) (s_inode_size : Nat) (bmap : Bitmap) (now2 : Int)
    (hino : inode.i_ino =
      (bitsfs_new_inode imap count mode now fresh true collides).inode.i_ino)
    (hlink : inode.i_nlink = 0) (hbad : inode.is_bad = false)
    (hread : d.bread_ok
      (BITSFS_INDTBL_BLOCK + s_inode_size * (inode.i_ino - 1) / BITSFS_BLOCK_SIZE) = true) :
    ∃ e, bitsfs_evict_inode inode d s_inode_size
        (bitsfs_new_inode imap count mode now fresh true collides).imap bmap true now2 =
          some e ∧
      e.imap = imap := by
  obtain ⟨p, hp1, _, hp3, _, _, _, hpi, hp2, _, _⟩ :=
    new_inode_first_fit imap count mode now fresh collides h
  have hbits : (bitsfs_new_inode imap count mode now fresh true collides).imap =
      bitsfs_set_bit (bitsfs_find_next_zero_bit imap count 1) imap := by
    unfold bitsfs_new_inode
    cases collides <;> rfl
  have hino2 : (bitsfs_new_inode imap count mode now fresh true collides).inode.i_ino =
      bitsfs_find_next_zero_bit imap count 1 + 1 := by
    unfold bitsfs_new_inode
    cases collides <;> rfl
  obtain ⟨_, _, hclr, _⟩ := new_inode_search imap count h
  have hge : 2 ≤ inode.i_ino := by rw [hino]; exact hp2
  have hrd : (bitsfs_read_inode d s_inode_size inode.i_ino).ret = 0 := by
    unfold bitsfs_read_inode
    rw [if_neg (by simp only [BITSFS_ROOT_INO]; omega)]
    simp only [hread, Bool.not_true, Bool.false_eq_true, if_false]
  unfold bitsfs_evict_inode
  simp only [hlink, hbad, Bool.not_false, and_self, decide_True, if_true]
  unfold bitsfs_write_inode
  simp only [hrd, ne_eq, not_true_eq_false, if_false]
  refine ⟨_, rfl, ?_⟩
  simp only [bitsfs_free_inode, Bool.not_true, Bool.false_eq_true, if_false]
  rw [hbits, hino, hino2, Nat.add_sub_cancel]
  exact clear_set_bit _ imap hclr

/-- C13 (example): inode 4 allocated on `three_inode_bitmap` and evicted again. -/
theorem new_inode_evict_round_trip_witness :
    ∃ e, bitsfs_evict_inode
        { (bitsfs_new_inode three_inode_bitmap 4096 0o100644 0 blank_inode true
            false).inode with i_nlink := 0 }
        blank_disk 128
        (bitsfs_new_inode three_inode_bitmap 4096 0o100644 0 blank_inode true false).imap
        fresh_bitmap true 7 = some e ∧
      e.imap = three_inode_bitmap :=
  new_inode_evict_round_trip three_inode_bitmap 4096 0o100644 0 blank_inode false
    ⟨3, by decide, by decide, by decide⟩
    { (bitsfs_new_inode three_inode_bitmap 4096 0o100644 0 blank_inode true false).inode with
      i_nlink := 0 }
    blank_disk 128 fresh_bitmap 7 rfl rfl rfl rfl

/-! ## C14, C15: reading and writing inode records -/

/-- For an inode number of at least 2 whose inode-table block can be read,
`bitsfs_read_inode` returns the place of the record. -/
theorem read_inode_ok (d : inode_disk) (s_inode_size ino : Nat) (h2 : 2 ≤ ino)
    (hread : d.bread_ok
      (BITSFS_INDTBL_BLOCK + s_inode_size * (ino - 1) / BITSFS_BLOCK_SIZE) = true) :
    bitsfs_read_inode d s_inode_size ino =
      { ret := 0,
        addr := (BITSFS_INDTBL_BLOCK + s_inode_size * (ino - 1) / BITSFS_BLOCK_SIZE) *
          BITSFS_BLOCK_SIZE + s_inode_size * (ino - 1) % BITSFS_BLOCK_SIZE } := by
  unfold bitsfs_read_inode
  rw [if_neg (by simp only [BITSFS_ROOT_INO]; omega)]
  simp only [hread, Bool.not_true, Bool.false_eq_true, if_false]

/-- C14 (as stated, refuted): the record of inode 3 on `dtime_disk` has link count 1
and `dtime = 5`, and `bitsfs_iget` returns the inode instead of `-ESTALE`. -/
theorem iget_accepts_nonzero_dtime :
    ¬ ((bitsfs_iget dtime_disk 128 blank_inode 3).ret = - ESTALE_errno ↔
      ((dtime_disk.inode_at (7 * 4096 + (3 - 1) * 128)).i_links_count = 0 ∨
        (dtime_disk.inode_at (7 * 4096 + (3 - 1) * 128)).i_dtime ≠ 0)) := by
  decide

/-- C14 (amended): for an inode number of at least 2 whose inode-table block can be
read, `bitsfs_iget` of an uncached inode returns `-ESTALE` only if the record's
link count is 0; it does return `-ESTALE` whenever the link count is 0 and the
mode is 0; and a record with a non-zero link count is accepted (return value 0)
whatever its `dtime`. -/
theorem iget_stale (d : inode_disk) (s_inode_size : Nat) (fresh : vfs_inode) (ino : Nat)
    (raw : bitsfs_inode) (h2 : 2 ≤ ino)
    (hread : d.bread_ok
      (BITSFS_INDTBL_BLOCK + s_inode_size * (ino - 1) / BITSFS_BLOCK_SIZE) = true)
    (hraw : raw = d.inode_at
      ((BITSFS_INDTBL_BLOCK + s_inode_size * (ino - 1) / BITSFS_BLOCK_SIZE) *
        BITSFS_BLOCK_SIZE + s_inode_size * (ino - 1) % BITSFS_BLOCK_SIZE)) :
    ((bitsfs_iget d s_inode_size fresh ino).ret = - ESTALE_errno → raw.i_links_count = 0) ∧
    (raw.i_links_count = 0 → raw.i_mode = 0 →
      (bitsfs_iget d s_inode_size fresh ino).ret = - ESTALE_errno) ∧
    (raw.i_links_count ≠ 0 → (bitsfs_iget d s_inode_size fresh ino).ret = 0) := by
  subst hraw
  unfold bitsfs_iget
  rw [read_inode_ok d s_inode_size ino h2 hread]
  simp only [ne_eq, not_true_eq_false, if_false]
  refine ⟨?_, ?_, ?_⟩
  · intro h
    by_contra hne
    rw [if_neg (fun hc => hne hc.1)] at h
    have h0 : (0 : Int) = - ESTALE_errno := h
    exact absurd h0 (by decide)
  · intro h0 hm
    rw [if_pos ⟨h0, Or.inl hm⟩]
  · intro hne
    rw [if_neg (fun hc => hne hc.1)]

/-- C14 (amended, example): inode 3 of `dtime_disk`, link count 1. -/
theorem iget_stale_witness :
    ((bitsfs_iget dtime_disk 128 blank_inode 3).ret = - ESTALE_errno →
      (dtime_disk.inode_at (7 * 4096 + 2 * 128)).i_links_count = 0) ∧
    ((dtime_disk.inode_at (7 * 4096 + 2 * 128)).i_links_count = 0 →
      (dtime_disk.inode_at (7 * 4096 + 2 * 128)).i_mode = 0 →
      (bitsfs_iget dtime_disk 128 blank_inode 3).ret = - ESTALE_errno) ∧
    ((dtime_disk.inode_at (7 * 4096 + 2 * 128)).i_links_count ≠ 0 →
      (bitsfs_iget dtime_disk 128 blank_inode 3).ret = 0) :=
  iget_stale dtime_disk 128 blank_inode 3 (dtime_disk.inode_at (7 * 4096 + 2 * 128))
    (by decide) rfl rfl

/-- C15 (the code at `five_block_inode`, inode 3 with `i_data[0..4] = 136..140`,
written to a readable device and read back into a blank in-memory inode): the read
succeeds and restores `i_data[3] = 139`, but `i_data[4]` is 0, not 140, because
`bitsfs_iget` copies `BITSFS_NDIR_BLOCKS = 4` entries. -/
theorem write_inode_iget_loses_block_map :
    2 ≤ five_block_inode.i_ino ∧ 0 < five_block_inode.i_nlink ∧
    five_block_inode.i_size < 2 ^ 32 ∧ five_block_inode.i_data 4 = 140 ∧
    (bitsfs_write_inode five_block_inode blank_disk 128).map
      (fun p => ((bitsfs_iget p.1 128 blank_inode 3).ret,
        (bitsfs_iget p.1 128 blank_inode 3).inode.i_data 3,
        (bitsfs_iget p.1 128 blank_inode 3).inode.i_data 4)) = some (0, 139, 0) := by
  decide

/-! ## C16, C17, C18: the formatter -/

theorem put_inode_table_ok (put_ret : Nat → Int) :
    ∀ k i acc, (∀ j, i ≤ j → j < i + k → put_ret (6 + j) = 4096) →
      ∃ l, put_inode_table put_ret k i acc = (true, l) := by
  intro k
  induction k with
  | zero => intro i acc _; exact ⟨acc, rfl⟩
  | succ k ih =>
    intro i acc h
    unfold put_inode_table
    have h0 := h i (Nat.le_refl _) (by omega)
    simp only [h0, BITSFS_BLOCK_SIZE, Nat.cast_ofNat, ne_eq, not_true_eq_false, if_false]
    exact ih (i + 1) _ (fun j h1 h2 => h j (by omega) (by omega))

/-- When every write returns its full length, the last two calls of `PUT` carry the
root inode record and the root directory block. -/
theorem mkfs_main_puts (inp : MkfsInput) (hacc : mkfs_accepts inp = true)
    (hw : ∀ k, k < 136 → inp.put_ret k = if k = 134 then 128 else 4096) :
    ∃ l, (mkfs_main inp).puts =
      l ++ [{ off := BITSFS_INDTBL_BLOCK * BITSFS_BLOCK_SIZE + (BITSFS_ROOT_INO - 1) * INODE_SIZE,
              len := INODE_SIZE,
              payload := Payload.inode (fill_inode zero_inode_record inp.tsp) },
            { off := BITSFS_DATA_BLOCK * BITSFS_BLOCK_SIZE, len := BITSFS_BLOCK_SIZE,
              payload := Payload.root_dir (fill_root_dir zero_dir_special) }] := by
  have w0 := hw 0 (by decide)
  have w1 := hw 1 (by decide)
  have w2 := hw 2 (by decide)
  have w3 := hw 3 (by decide)
  have w4 := hw 4 (by decide)
  have w5 := hw 5 (by decide)
  have w134 := hw 134 (by decide)
  simp only [show ¬ (0 = 134) by decide, show ¬ (1 = 134) by decide,
    show ¬ (2 = 134) by decide, show ¬ (3 = 134) by decide, show ¬ (4 = 134) by decide,
    show ¬ (5 = 134) by decide, if_false, if_true] at w0 w1 w2 w3 w4 w5 w134
  obtain ⟨l, hl⟩ := put_inode_table_ok inp.put_ret BITSFS_INDTBL_BLOCKS 0
    ({ off := BITSFS_SUPER_BLOCK * BITSFS_BLOCK_SIZE, len := BITSFS_BLOCK_SIZE,
       payload := Payload.super (mkfs_super_block (inp.dsize.tdiv 1024)) } ::
      [{ off := BITSFS_BLKBMP_BLOCK * BITSFS_BLOCK_SIZE, len := BITSFS_BLOCK_SIZE,
         payload := Payload.zeros },
       { off := (BITSFS_BLKBMP_BLOCK + 1) * BITSFS_BLOCK_SIZE, len := BITSFS_BLOCK_SIZE,
         payload := Payload.zeros },
       { off := (BITSFS_BLKBMP_BLOCK + 2) * BITSFS_BLOCK_SIZE, len := BITSFS_BLOCK_SIZE,
         payload := Payload.zeros },
       { off := (BITSFS_BLKBMP_BLOCK + 3) * BITSFS_BLOCK_SIZE, len := BITSFS_BLOCK_SIZE,
         payload := Payload.zeros }] ++
      [{ off := BITSFS_INDBMP_BLOCK * BITSFS_BLOCK_SIZE, len := BITSFS_BLOCK_SIZE,
         payload := Payload.zeros }])
    (by
      intro j _ hj
      have := hw (6 + j) (by simp only [BITSFS_INDTBL_BLOCKS] at hj; omega)
      rw [if_neg (by simp only [BITSFS_INDTBL_BLOCKS] at hj; omega)] at this
      exact this)
  refine ⟨l, ?_⟩
  unfold mkfs_main
  simp only [hacc, Bool.not_true, Bool.false_eq_true, if_false, w0, w1, w2, w3, w4, w5, w134,
    BITSFS_BLOCK_SIZE, BITSFS_BLKBMP_BLOCKS, INODE_SIZE, Nat.cast_ofNat, ne_eq,
    not_true_eq_false]
  simp only [BITSFS_BLOCK_SIZE] at hl
  norm_num
  simp only [List.cons_append, List.nil_append] at hl
  rw [hl]

/-- C16: when the formatter accepts the device and every one of its writes returns
its full length, the record it leaves at byte offset `7*4096 + (2-1)*128` is the one
built by `fill_inode`, and `bitsfs_iget(2)` on the formatted device (inode size as
written in the superblock, block 7 readable, inode not cached) returns an inode
that passes the root check of `bitsfs_fill_super` and has mode 040755 (directory,
rwxr-xr-x), size 4096, 1 block, `i_data[0] = 135` and link count 2. -/
theorem format_root_round_trip (inp : MkfsInput) (v0 : Nat → bitsfs_inode)
    (bread_ok : Nat → Bool) (fresh : vfs_inode) (d : inode_disk) (r : IgetResult)
    (hacc : mkfs_accepts inp = true)
    (hw : ∀ k, k < 136 → inp.put_ret k = if k = 134 then 128 else 4096)
    (hd : d = { bread_ok := bread_ok, inode_at := apply_puts (mkfs_main inp).puts v0 })
    (hread : bread_ok 7 = true)
    (hr : r = bitsfs_iget d (mkfs_super_block (inp.dsize.tdiv 1024)).s_inode_size fresh 2) :
    d.inode_at (7 * 4096 + (2 - 1) * 128) = fill_inode zero_inode_record inp.tsp ∧
    r.ret = 0 ∧ root_inode_ok r.inode = true ∧
    r.inode.i_mode = 0o40755 ∧ S_ISDIR r.inode.i_mode = true ∧
    r.inode.i_size = 4096 ∧ r.inode.i_blocks = 1 ∧ r.inode.i_data 0 = 135 ∧
    r.inode.i_nlink = 2 := by
  obtain ⟨l, hl⟩ := mkfs_main_puts inp hacc hw
  have hrec : d.inode_at (7 * 4096 + (2 - 1) * 128) = fill_inode zero_inode_record inp.tsp := by
    rw [hd]
    simp only [apply_puts, hl, List.foldl_append, List.foldl_cons, List.foldl_nil, apply_put]
    rw [if_pos (by decide)]
  have hsz : (mkfs_super_block (inp.dsize.tdiv 1024)).s_inode_size = 128 := rfl
  have hrd : bitsfs_read_inode d 128 2 = { ret := 0, addr := 7 * 4096 + (2 - 1) * 128 } := by
    rw [read_inode_ok d 128 2 (by decide) (by rw [hd]; exact hread)]
    rfl
  have hres : r =
      { ret := 0,
        inode :=
          { fresh with
            i_ino := 2, i_mode := 0o40755, i_nlink := 2, i_size := 4096,
            i_atime_sec := to_int (inp.tsp.emod (2 ^ 32)).toNat,
            i_ctime_sec := to_int (inp.tsp.emod (2 ^ 32)).toNat,
            i_mtime_sec := to_int (inp.tsp.emod (2 ^ 32)).toNat,
            i_blocks := 1, i_dtime := 0, i_flags := 0, i_file_acl := 0, i_dir_acl := 0,
            i_state := 0,
            i_data := fun n => if n < BITSFS_NDIR_BLOCKS then
              (if n = 0 then BITSFS_DATA_BLOCK else 0) else fresh.i_data n } } := by
    rw [hr, hsz]
    unfold bitsfs_iget
    rw [hrd]
    simp only [hrec, fill_inode, zero_inode_record]
    rfl
  refine ⟨hrec, ?_⟩
  rw [hres]
  have hroot : ∀ x : vfs_inode, x.i_mode = 0o40755 → x.i_blocks = 1 → x.i_size = 4096 →
      root_inode_ok x = true := by
    intro x h1 h2 h3
    unfold root_inode_ok
    rw [h1, h2, h3]
    decide
  have hdir : S_ISDIR 0o40755 = true := by decide
  exact ⟨rfl, hroot _ rfl rfl rfl, rfl, hdir, rfl, rfl, rfl, rfl⟩


/-- C16 (example): a 1 MiB block device on which every write returns its full
length, formatted at time 1700000000 and read into a blank in-memory inode. -/
theorem format_root_round_trip_witness :
    (bitsfs_iget
      { bread_ok := fun _ => true,
        inode_at := apply_puts (mkfs_main good_device).puts (fun _ => zero_inode_record) }
      (mkfs_super_block (good_device.dsize.tdiv 1024)).s_inode_size blank_inode 2).ret = 0 ∧
    (bitsfs_iget
      { bread_ok := fun _ => true,
        inode_at := apply_puts (mkfs_main good_device).puts (fun _ => zero_inode_record) }
      (mkfs_super_block (good_device.dsize.tdiv 1024)).s_inode_size blank_inode 2).inode.i_data 0 =
      135 :=
  ⟨(format_root_round_trip good_device (fun _ => zero_inode_record) (fun _ => true)
      blank_inode _ _ (by decide) (fun _ _ => rfl) rfl rfl rfl).2.1,
   (format_root_round_trip good_device (fun _ => zero_inode_record) (fun _ => true)
      blank_inode _ _ (by decide) (fun _ _ => rfl) rfl rfl rfl).2.2.2.2.2.2.2.1⟩

/-- C17 (the code at `small_device`, an accepted block device of 256 KiB): the
superblock handed to the first `PUT` has 4096 inodes, 4095 free inodes, 64 blocks
and `s_free_blocks_count = 4294967224`, which is `64 - 135 - 1` modulo `2^32`. -/
theorem mkfs_free_blocks_wraps :
    mkfs_accepts small_device = true ∧
    small_device.dsize = 256 * 1024 ∧
    ((mkfs_main small_device).puts.head?.bind put_super).map
      (fun s => (s.s_inodes_count, s.s_free_inodes_count, s.s_blocks_count,
        s.s_free_blocks_count)) = some (4096, 4095, 64, 4294967224) ∧
    (4294967224 : Int) = (64 - 135 - 1) + 2 ^ 32 := by
  decide

/-- Once the formatter has accepted the device, its exit status is 0 whatever its
writes return. -/
theorem mkfs_main_exit_code (inp : MkfsInput) (hacc : mkfs_accepts inp = true) :
    (mkfs_main inp).exit_code = 0 := by
  unfold mkfs_main
  simp only [hacc, Bool.not_true, Bool.false_eq_true, if_false]
  split
  · rfl
  · split
    · rfl
    · split
      · rfl
      · split
        · rfl
        · split <;> rfl

/-- C18 (the code at `small_device`): the 64th call of `PUT`, for inode-table block
64 beyond the end of the device, returns -1, it is the last call made, and the
exit status is 0. -/
theorem mkfs_short_write_exits_zero :
    mkfs_accepts small_device = true ∧
    small_device.put_ret 63 = -1 ∧
    (mkfs_main small_device).puts.length = 64 ∧
    (mkfs_main small_device).exit_code = 0 := by
  decide

/-! ## C19: the magic number at mount -/

/-- Whenever `bitsfs_fill_super` reads a superblock whose magic number is not
0xEF99, it leaves through `cantfind_bitsfs` and returns 0. -/
theorem fill_super_bad_magic (min_blocksize : Nat)
    (read_super : Nat → Nat → Option bitsfs_super_block) (d : inode_disk) (fresh : vfs_inode)
    (imap bmap : Bitmap) (make_root_ok : Bool) (bs : bitsfs_super_block)
    (hread : ∀ b o, read_super b o = some bs) (hmagic : bs.s_magic ≠ BITSFS_SUPER_MAGIC) :
    (bitsfs_fill_super true min_blocksize read_super d fresh imap bmap make_root_ok).exit =
      FillSuperExit.cantfind_bitsfs ∧
    (bitsfs_fill_super true min_blocksize read_super d fresh imap bmap make_root_ok).ret = 0 := by
  unfold bitsfs_fill_super
  simp only [Bool.not_true, Bool.false_eq_true, if_false, hread, hmagic, ne_eq,
    not_false_eq_true, if_true, and_self]

/-- C19 (the code at `bad_magic_super`, whose magic number is 0): the mount leaves
through `cantfind_bitsfs` and returns 0, the value it returns on success. -/
theorem fill_super_returns_zero_on_bad_magic :
    bad_magic_super.s_magic ≠ 0xEF99 ∧
    (bitsfs_fill_super true 4096 (fun _ _ => some bad_magic_super) blank_disk blank_inode
      fresh_bitmap fresh_bitmap true).exit = FillSuperExit.cantfind_bitsfs ∧
    (bitsfs_fill_super true 4096 (fun _ _ => some bad_magic_super) blank_disk blank_inode
      fresh_bitmap fresh_bitmap true).ret = 0 := by
  decide

/-! ## C20: name matching -/

/-- C20 (the code at `ab_dir`, a directory holding ".", ".." and "ab", and the query
"a" of length 1): `bitsfs_find_entry` returns slot 2 of page 0, the entry of "ab",
whose `name_len` is 2. -/
theorem find_entry_prefix_match :
    bitsfs_find_entry ab_dir 1 name_a =
      some { ret := 0, page := 0, slot := 2, start_lookup := 0 } ∧
    (ab_dir.entry 0 2).inode ≠ 0 ∧
    (ab_dir.entry 0 2).name_len = 2 ∧
    (ab_dir.entry 0 2).name 1 = 98 := by
  decide

/-! ## The search of `bitsfs_add_link` -/

theorem last_byte_eq (d : dir_inode) (n : Nat) (h1 : d.i_size < 2 ^ 32)
    (h2 : n * 4096 ≤ d.i_size) :
    bitsfs_last_byte d n = if d.i_size - n * 4096 > 4096 then 4096 else d.i_size - n * 4096 := by
  unfold bitsfs_last_byte
  simp only [PAGE_SIZE]
  have e : (((d.i_size : Int) - ((n * 4096 : Nat) : Int)).emod (2 ^ 32)) =
      (d.i_size : Int) - ((n * 4096 : Nat) : Int) :=
    Int.emod_eq_of_lt (by omega) (by omega)
  rw [e]
  have e2 : ((d.i_size : Int) - ((n * 4096 : Nat) : Int)).toNat = d.i_size - n * 4096 := by
    omega
  rw [e2]

theorem add_link_in_page_spec (page : Nat → bitsfs_dir_entry) (dir_end len : Nat)
    (name : Nat → Nat) : ∀ left k,
    match add_link_in_page page dir_end len name left k with
    | AddScan.got_it j =>
      k ≤ j ∧ j < k + left ∧ (j * DENT_LEN = dir_end ∨ (page j).rec_len = 0) ∧
      ∀ i, k ≤ i → i < j →
        ¬ (i * DENT_LEN = dir_end ∨ (page i).rec_len = 0) ∧
        bitsfs_name_match len name (page i) = false
    | AddScan.name_exists =>
      ∃ j, k ≤ j ∧ j < k + left ∧ bitsfs_name_match len name (page j) = true
    | AddScan.page_end =>
      ∀ i, k ≤ i → i < k + left →
        ¬ (i * DENT_LEN = dir_end ∨ (page i).rec_len = 0) ∧
        bitsfs_name_match len name (page i) = false := by
  intro left
  induction left with
  | zero =>
    intro k
    simp only [add_link_in_page]
    intro i h1 h2
    omega
  | succ left ih =>
    intro k
    simp only [add_link_in_page]
    by_cases hc : k * DENT_LEN = dir_end ∨ (page k).rec_len = 0
    · rw [if_pos hc]
      exact ⟨Nat.le_refl _, by omega, hc, fun i h1 h2 => by omega⟩
    · rw [if_neg hc]
      by_cases hm : bitsfs_name_match len name (page k) = true
      · rw [if_pos hm]
        exact ⟨k, Nat.le_refl _, by omega, hm⟩
      · rw [if_neg hm]
        have hm2 : bitsfs_name_match len name (page k) = false := by
          cases h : bitsfs_name_match len name (page k)
          · rfl
          · exact absurd h hm
        have := ih (k + 1)
        revert this
        cases add_link_in_page page dir_end len name left (k + 1) with
        | got_it j =>
          simp only
          intro ⟨a, b, c, e⟩
          refine ⟨by omega, by omega, c, ?_⟩
          intro i h1 h2
          by_cases hik : i = k
          · subst hik
            exact ⟨hc, hm2⟩
          · exact e i (by omega) h2
        | name_exists =>
          simp only
          intro ⟨j, a, b, c⟩
          exact ⟨j, by omega, by omega, c⟩
        | page_end =>
          simp only
          intro e i h1 h2
          by_cases hik : i = k
          · subst hik
            exact ⟨hc, hm2⟩
          · exact e i (by omega) (by omega)

theorem add_link_in_pages_spec (d : dir_inode) (len : Nat) (name : Nat → Nat) : ∀ left n,
    match add_link_in_pages d len name left n with
    | AddPlace.here p s =>
      n ≤ p ∧ p < n + left ∧ s < 64 ∧ add_candidate d p s ∧
      ∀ n1 k1, k1 < 64 → n ≤ n1 → (n1 < p ∨ (n1 = p ∧ k1 < s)) →
        ¬ add_candidate d n1 k1 ∧ bitsfs_name_match len name (d.entry n1 k1) = false
    | AddPlace.name_exists =>
      ∃ n1 k1, k1 < 64 ∧ n ≤ n1 ∧ n1 < n + left ∧
        bitsfs_name_match len name (d.entry n1 k1) = true
    | AddPlace.no_room =>
      ∀ n1 k1, k1 < 64 → n ≤ n1 → n1 < n + left → ¬ add_candidate d n1 k1 := by
  intro left
  induction left with
  | zero =>
    intro n
    simp only [add_link_in_pages]
    intro n1 k1 _ h1 h2
    omega
  | succ left ih =>
    intro n
    simp only [add_link_in_pages]
    have hp := add_link_in_page_spec (d.entry n) (bitsfs_last_byte d n) len name
      (PAGE_SIZE / DENT_LEN) 0
    have h64 : PAGE_SIZE / DENT_LEN = 64 := by decide
    rw [h64] at hp ⊢
    revert hp
    cases add_link_in_page (d.entry n) (bitsfs_last_byte d n) len name 64 0 with
    | got_it j =>
      simp only
      intro ⟨a, b, c, e⟩
      refine ⟨Nat.le_refl _, by omega, by omega, c, ?_⟩
      intro n1 k1 hk h1 h2
      rcases h2 with h2 | ⟨h2, h3⟩
      · omega
      · subst h2
        exact e k1 (Nat.zero_le _) h3
    | name_exists =>
      simp only
      intro ⟨j, a, b, c⟩
      exact ⟨n, j, by omega, Nat.le_refl _, by omega, c⟩
    | page_end =>
      simp only
      intro e
      have := ih (n + 1)
      revert this
      cases add_link_in_pages d len name left (n + 1) with
      | here p s =>
        simp only
        intro ⟨a, b, c, f, g⟩
        refine ⟨by omega, by omega, c, f, ?_⟩
        intro n1 k1 hk h1 h2
        by_cases hn : n1 = n
        · subst hn
          exact e k1 (Nat.zero_le _) (by omega)
        · exact g n1 k1 hk (by omega) h2
      | name_exists =>
        simp only
        intro ⟨n1, k1, a, b, c, f⟩
        exact ⟨n1, k1, a, by omega, by omega, f⟩
      | no_room =>
        simp only
        intro g n1 k1 hk h1 h2
        by_cases hn : n1 = n
        · subst hn
          exact (e k1 (Nat.zero_le _) (by omega)).1
        · exact g n1 k1 hk (by omega) (by omega)

/-! ## Well-formed directories -/

theorem max_bytes_eq : BITSFS_MAX_BLOCKS * PAGE_SIZE = 16826368 := by decide

theorem dir_pages_eq (d : dir_inode) : dir_pages d = (d.i_size + 4095) / 4096 := rfl

theorem wf_size_lt (d : dir_inode) (u : Nat) (h : dir_wf d u) : d.i_size < 2 ^ 32 := by
  obtain ⟨_, _, _, _, hb⟩ := h
  rw [max_bytes_eq] at hb
  omega

theorem wf_last_byte_gt (d : dir_inode) (u : Nat) (h : dir_wf d u) (n k : Nat) (hk : k < 64)
    (hu : 64 * n + k < u) : k * 64 < bitsfs_last_byte d n := by
  have hlt := wf_size_lt d u h
  obtain ⟨_, _, _, hs, _⟩ := h
  have h2 : n * 4096 ≤ d.i_size := by
    rw [hs]; split <;> omega
  rw [last_byte_eq d n hlt h2, hs]
  split <;> split <;> omega

theorem wf_not_candidate (d : dir_inode) (u : Nat) (h : dir_wf d u) (n k : Nat) (hk : k < 64)
    (hu : 64 * n + k < u) : ¬ add_candidate d n k := by
  have h1 := wf_last_byte_gt d u h n k hk hu
  have h2 := h.2.1 n k hk hu
  unfold add_candidate
  simp only [DENT_LEN]
  omega

theorem wf_candidate (d : dir_inode) (u : Nat) (h : dir_wf d u) (n k : Nat) (hk : k < 64)
    (hu : u ≤ 64 * n + k) : add_candidate d n k :=
  Or.inr (h.2.2.1 n k hk hu)

theorem wf_pages (d : dir_inode) (u : Nat) (h : dir_wf d u) : u / 64 ≤ dir_pages d := by
  obtain ⟨_, _, _, hs, _⟩ := h
  rw [dir_pages_eq, hs]
  split <;> omega

/-- In a well-formed directory the slot that `bitsfs_add_link` picks is the first
unused one, and no slot in use matches the name. -/
theorem add_link_here_wf (d : dir_inode) (u : Nat) (h : dir_wf d u) (len : Nat)
    (name : Nat → Nat) (p s : Nat)
    (hp : add_link_in_pages d len name (dir_pages d + 1) 0 = AddPlace.here p s) :
    p = u / 64 ∧ s = u % 64 ∧
    ∀ n k, k < 64 → 64 * n + k < u → bitsfs_name_match len name (d.entry n k) = false := by
  have hspec := add_link_in_pages_spec d len name (dir_pages d + 1) 0
  rw [hp] at hspec
  simp only at hspec
  obtain ⟨_, h2, h3, h4, h5⟩ := hspec
  have hge : u ≤ 64 * p + s := by
    by_contra hlt
    exact wf_not_candidate d u h p s h3 (by omega) h4
  have hle : 64 * p + s ≤ u := by
    by_contra hgt
    have hc := wf_candidate d u h (u / 64) (u % 64) (Nat.mod_lt _ (by decide)) (by omega)
    exact (h5 (u / 64) (u % 64) (Nat.mod_lt _ (by decide)) (Nat.zero_le _) (by omega)).1 hc
  refine ⟨by omega, by omega, ?_⟩
  intro n k hk hlt
  exact (h5 n k hk (Nat.zero_le _) (by omega)).2

/-- In a well-formed directory none of whose slots matches the name,
`bitsfs_add_link` reaches `got_it` at the first unused slot. -/
theorem add_link_total_wf (d : dir_inode) (u : Nat) (h : dir_wf d u) (len : Nat)
    (name : Nat → Nat)
    (hno : ∀ n k, k < 64 → bitsfs_name_match len name (d.entry n k) = false) :
    add_link_in_pages d len name (dir_pages d + 1) 0 = AddPlace.here (u / 64) (u % 64) := by
  have hspec := add_link_in_pages_spec d len name (dir_pages d + 1) 0
  rcases hp : add_link_in_pages d len name (dir_pages d + 1) 0 with ⟨p, s⟩ | _ | _
  · obtain ⟨h1, h2, _⟩ := add_link_here_wf d u h len name p s hp
    rw [h1, h2]
  · rw [hp] at hspec
    simp only at hspec
    obtain ⟨n1, k1, a, _, _, b⟩ := hspec
    rw [hno n1 k1 a] at b
    cases b
  · rw [hp] at hspec
    simp only at hspec
    have hc := wf_candidate d u h (u / 64) (u % 64) (Nat.mod_lt _ (by decide)) (by omega)
    have := wf_pages d u h
    exact absurd hc (hspec (u / 64) (u % 64) (Nat.mod_lt _ (by decide)) (Nat.zero_le _)
      (by omega))

/-- Writing an entry with `rec_len = 64` into the first unused slot and committing
its 64 bytes gives a well-formed directory with one more slot in use. -/
theorem commit_put_wf (d : dir_inode) (u : Nat) (h : dir_wf d u) (de : bitsfs_dir_entry)
    (hde : de.rec_len = 64)
    (hb : (bitsfs_commit_chunk (put_entry d (u / 64) (u % 64) de)
      (u / 64 * PAGE_SIZE + u % 64 * DENT_LEN) DENT_LEN).i_size ≤ BITSFS_MAX_BLOCKS * PAGE_SIZE) :
    dir_wf (bitsfs_commit_chunk (put_entry d (u / 64) (u % 64) de)
      (u / 64 * PAGE_SIZE + u % 64 * DENT_LEN) DENT_LEN) (u + 1) := by
  obtain ⟨h1, h2, h3, h4, h5⟩ := h
  have hent : ∀ n k, (bitsfs_commit_chunk (put_entry d (u / 64) (u % 64) de)
      (u / 64 * PAGE_SIZE + u % 64 * DENT_LEN) DENT_LEN).entry n k =
      if n = u / 64 ∧ k = u % 64 then de else d.entry n k := by
    intro n k
    unfold bitsfs_commit_chunk put_entry
    split <;> rfl
  have hsz : (bitsfs_commit_chunk (put_entry d (u / 64) (u % 64) de)
      (u / 64 * PAGE_SIZE + u % 64 * DENT_LEN) DENT_LEN).i_size =
      if u + 1 ≤ 64 then 4096 else 64 * (u + 1) := by
    unfold bitsfs_commit_chunk put_entry
    simp only [PAGE_SIZE, DENT_LEN, h4]
    split <;> split <;> simp only <;> split <;> omega
  refine ⟨by omega, ?_, ?_, hsz, hb⟩
  · intro n k hk hlt
    rw [hent]
    split
    · exact hde
    · rename_i hne
      exact h2 n k hk (by omega)
  · intro n k hk hge
    rw [hent]
    rw [if_neg (by omega)]
    exact h3 n k hk (by omega)

/-- Replacing a slot in use by an entry with the same `rec_len` and committing bytes
that end with the slot leaves the directory well-formed. -/
theorem commit_same_wf (d : dir_inode) (u : Nat) (h : dir_wf d u) (n k : Nat) (hk : k < 64)
    (hu : 64 * n + k < u) (de : bitsfs_dir_entry) (hde : de.rec_len = (d.entry n k).rec_len)
    (pos len : Nat) (hpos : pos + len ≤ 64 * (64 * n + k + 1)) :
    dir_wf (bitsfs_commit_chunk (put_entry d n k de) pos len) u := by
  obtain ⟨h1, h2, h3, h4, h5⟩ := h
  have hle : ¬ pos + len > d.i_size := by
    rw [h4]; split <;> omega
  have heq : bitsfs_commit_chunk (put_entry d n k de) pos len = put_entry d n k de := by
    unfold bitsfs_commit_chunk
    rw [if_neg]
    exact hle
  rw [heq]
  refine ⟨h1, ?_, ?_, h4, h5⟩
  · intro n1 k1 hk1 hlt
    simp only [put_entry]
    split
    · rename_i hc
      rw [hde, hc.1, hc.2] at *
      exact h2 n k hk hu
    · exact h2 n1 k1 hk1 hlt
  · intro n1 k1 hk1 hge
    simp only [put_entry]
    rw [if_neg (by omega)]
    exact h3 n1 k1 hk1 hge

/-! ## Reachable directories are well-formed -/

theorem last_byte_le (d : dir_inode) (n : Nat) : bitsfs_last_byte d n ≤ 4096 := by
  unfold bitsfs_last_byte
  simp only [PAGE_SIZE]
  split <;> omega

theorem find_in_page_spec (page : Nat → bitsfs_dir_entry) (len : Nat) (name : Nat → Nat) :
    ∀ left k,
    match find_in_page page len name left k with
    | PageScan.found j =>
      k ≤ j ∧ j < k + left ∧ (page j).rec_len ≠ 0 ∧ bitsfs_name_match len name (page j) = true ∧
      ∀ i, k ≤ i → i < j → (page i).rec_len ≠ 0 ∧ bitsfs_name_match len name (page i) = false
    | PageScan.empty_entry => ∃ j, k ≤ j ∧ j < k + left ∧ (page j).rec_len = 0
    | PageScan.page_end =>
      ∀ i, k ≤ i → i < k + left →
        (page i).rec_len ≠ 0 ∧ bitsfs_name_match len name (page i) = false := by
  intro left
  induction left with
  | zero =>
    intro k
    simp only [find_in_page]
    intro i h1 h2
    omega
  | succ left ih =>
    intro k
    simp only [find_in_page]
    by_cases hc : (page k).rec_len = 0
    · rw [if_pos hc]
      exact ⟨k, Nat.le_refl _, by omega, hc⟩
    · rw [if_neg hc]
      by_cases hm : bitsfs_name_match len name (page k) = true
      · rw [if_pos hm]
        exact ⟨Nat.le_refl _, by omega, hc, hm, fun i h1 h2 => by omega⟩
      · rw [if_neg hm]
        have hm2 : bitsfs_name_match len name (page k) = false := by
          cases h : bitsfs_name_match len name (page k)
          · rfl
          · exact absurd h hm
        have := ih (k + 1)
        revert this
        cases find_in_page page len name left (k + 1) with
        | found j =>
          simp only
          intro ⟨a, b, c, e, f⟩
          refine ⟨by omega, by omega, c, e, ?_⟩
          intro i h1 h2
          by_cases hik : i = k
          · subst hik
            exact ⟨hc, hm2⟩
          · exact f i (by omega) h2
        | empty_entry =>
          simp only
          intro ⟨j, a, b, c⟩
          exact ⟨j, by omega, by omega, c⟩
        | page_end =>
          simp only
          intro e i h1 h2
          by_cases hik : i = k
          · subst hik
            exact ⟨hc, hm2⟩
          · exact e i (by omega) (by omega)

theorem ENOENT_errno_ne : (- ENOENT_errno : Int) ≠ 0 := by decide

/-- An entry that the page loop of `bitsfs_find_entry` returns lies inside its page,
has `rec_len != 0` and matches the name; the hint is left on its page. -/
theorem find_in_pages_found (d : dir_inode) (len : Nat) (name : Nat → Nat)
    (npages start : Nat) : ∀ fuel n r,
    find_in_pages d len name npages start fuel n = some r → r.ret = 0 →
    r.slot < 64 ∧ (d.entry r.page r.slot).rec_len ≠ 0 ∧
    bitsfs_name_match len name (d.entry r.page r.slot) = true ∧ r.start_lookup = r.page := by
  intro fuel
  induction fuel with
  | zero =>
    intro n r h
    simp [find_in_pages] at h
  | succ fuel ih =>
    intro n r h hret
    simp only [find_in_pages] at h
    have hp := find_in_page_spec (d.entry n) len name (bitsfs_last_byte d n / DENT_LEN) 0
    have hl := last_byte_le d n
    revert h hp
    cases find_in_page (d.entry n) len name (bitsfs_last_byte d n / DENT_LEN) 0 with
    | found j =>
      simp only
      intro h ⟨a, b, c, e, _⟩
      have hr := Option.some.inj h
      subst hr
      simp only [DENT_LEN] at b
      exact ⟨by simp only; omega, c, e, rfl⟩
    | empty_entry =>
      simp only
      intro h _
      have hr := Option.some.inj h
      subst hr
      exact absurd hret ENOENT_errno_ne
    | page_end =>
      simp only
      intro h _
      split at h <;> split at h
      all_goals
        first
        | exact ih _ r h hret
        | (have hr := Option.some.inj h
           subst hr
           exact absurd hret ENOENT_errno_ne)

theorem find_entry_found (d : dir_inode) (len : Nat) (name : Nat → Nat) (r : FindResult)
    (h : bitsfs_find_entry d len name = some r) (hret : r.ret = 0) :
    r.slot < 64 ∧ (d.entry r.page r.slot).rec_len ≠ 0 ∧
    bitsfs_name_match len name (d.entry r.page r.slot) = true ∧ r.start_lookup = r.page := by
  unfold bitsfs_find_entry at h
  simp only at h
  split at h
  · have hr := Option.some.inj h
    subst hr
    exact absurd hret ENOENT_errno_ne
  · exact find_in_pages_found d len name _ _ _ _ r h hret

/-- In a well-formed directory an entry that `bitsfs_find_entry` returns is a slot
in use. -/
theorem find_entry_found_wf (d : dir_inode) (u : Nat) (hwf : dir_wf d u) (len : Nat)
    (name : Nat → Nat) (r : FindResult)
    (h : bitsfs_find_entry d len name = some r) (hret : r.ret = 0) :
    r.slot < 64 ∧ 64 * r.page + r.slot < u := by
  obtain ⟨h1, h2, _, _⟩ := find_entry_found d len name r h hret
  refine ⟨h1, ?_⟩
  by_contra hge
  exact h2 (hwf.2.2.1 r.page r.slot h1 (by omega))

theorem chunk_mask_zero :
    ∀ k, k < 64 →
      (k * DENT_LEN) &&& ((2 ^ 32 - 1) ^^^ ((BITSFS_BLOCK_SIZE + 2 ^ 32 - 1) % 2 ^ 32)) = 0 := by
  decide

theorem delete_entry_eq (d : dir_inode) (n k : Nat) (hk : k < 64) (ce : Int) :
    bitsfs_delete_entry d n k BITSFS_BLOCK_SIZE ce =
      { ret := ce,
        dir := bitsfs_commit_chunk (put_entry d n k { d.entry n k with inode := 0 })
          (n * PAGE_SIZE) (k * DENT_LEN + DENT_LEN) } := by
  unfold bitsfs_delete_entry
  simp only [chunk_mask_zero k hk, Nat.add_zero, Nat.sub_zero]

theorem delete_entry_wf (d : dir_inode) (u : Nat) (hwf : dir_wf d u) (n k : Nat) (hk : k < 64)
    (hu : 64 * n + k < u) (ce : Int) :
    dir_wf (bitsfs_delete_entry d n k BITSFS_BLOCK_SIZE ce).dir u := by
  rw [delete_entry_eq d n k hk]
  exact commit_same_wf d u hwf n k hk hu { d.entry n k with inode := 0 } rfl (n * PAGE_SIZE)
    (k * DENT_LEN + DENT_LEN) (by simp only [PAGE_SIZE, DENT_LEN]; omega)

theorem set_link_wf (d : dir_inode) (u : Nat) (hwf : dir_wf d u) (n k : Nat) (hk : k < 64)
    (hu : 64 * n + k < u) (ino : Nat) :
    dir_wf (bitsfs_set_link d n k ino) u :=
  commit_same_wf d u hwf n k hk hu { d.entry n k with inode := ino % 2 ^ 32 } rfl
    (n * PAGE_SIZE + k * DENT_LEN) DENT_LEN (by simp only [PAGE_SIZE, DENT_LEN]; omega)

theorem add_link_wf (d : dir_inode) (u : Nat) (hwf : dir_wf d u) (len : Nat) (name : Nat → Nat)
    (ino : Nat) (pe ce : Int)
    (hb : (bitsfs_add_link d len name ino pe ce).dir.i_size ≤ BITSFS_MAX_BLOCKS * PAGE_SIZE) :
    dir_wf (bitsfs_add_link d len name ino pe ce).dir u ∨
    dir_wf (bitsfs_add_link d len name ino pe ce).dir (u + 1) := by
  unfold bitsfs_add_link at hb ⊢
  rcases hp : add_link_in_pages d len name (dir_pages d + 1) 0 with ⟨p, s⟩ | _ | _
  · obtain ⟨h1, h2, _⟩ := add_link_here_wf d u hwf len name p s hp
    subst h1 h2
    rw [hp] at hb
    simp only at hb ⊢
    by_cases hpe : pe ≠ 0
    · rw [if_pos hpe]
      exact Or.inl hwf
    · rw [if_neg hpe] at hb ⊢
      exact Or.inr (commit_put_wf d u hwf _ rfl hb)
  · exact Or.inl hwf
  · exact Or.inl hwf

theorem formatted_root_wf (hint : Nat) : dir_wf (formatted_root hint) 2 := by
  have hsz : (formatted_root hint).i_size = 4096 := rfl
  refine ⟨Nat.le_refl _, ?_, ?_, rfl, by rw [hsz, max_bytes_eq]; omega⟩
  · intro n k hk hlt
    have hn : n = 0 := by omega
    subst hn
    have : k = 0 ∨ k = 1 := by omega
    rcases this with h | h <;> subst h <;> rfl
  · intro n k hk hge
    simp only [formatted_root]
    rw [if_neg (by omega), if_neg (by omega)]
    rfl

theorem make_empty_rec_len (hint ino parent_ino : Nat) (ce : Int) (n k : Nat) :
    ((bitsfs_make_empty (new_dir hint) ino parent_ino BITSFS_BLOCK_SIZE true 0 ce).dir.entry
      n k).rec_len = if n = 0 ∧ k < 2 then 64 else 0 := by
  have e : (bitsfs_make_empty (new_dir hint) ino parent_ino BITSFS_BLOCK_SIZE true 0 ce).dir.entry
      n k =
      if n = 0 then
        (if k = 0 then
          { inode := ino % 2 ^ 32, rec_len := 64, name_len := 1, file_type := 0,
            name := fun i => if i = 0 then 46 else if i < 4 then 0 else 0 }
        else if k = 1 then
          { inode := parent_ino % 2 ^ 32, rec_len := 64, name_len := 2, file_type := 0,
            name := fun i => if i < 2 then 46 else if i < 4 then 0 else 0 }
        else if (k + 1) * 64 ≤ 4096 then zero_entry else zero_entry)
      else zero_entry := rfl
  rw [e]
  by_cases hn : n = 0
  · by_cases h0 : k = 0
    · simp [hn, h0]
    · by_cases h1 : k = 1
      · simp [hn, h1]
      · have : ¬ k < 2 := by omega
        simp [hn, h0, h1, this, zero_entry]
  · simp [hn, zero_entry]

theorem make_empty_wf (hint ino parent_ino : Nat) (ce : Int) :
    dir_wf (bitsfs_make_empty (new_dir hint) ino parent_ino BITSFS_BLOCK_SIZE true 0 ce).dir 2 := by
  have hsz : (bitsfs_make_empty (new_dir hint) ino parent_ino BITSFS_BLOCK_SIZE true 0
      ce).dir.i_size = 4096 := rfl
  refine ⟨Nat.le_refl _, ?_, ?_, hsz, by rw [hsz, max_bytes_eq]; omega⟩
  · intro n k hk hlt
    rw [make_empty_rec_len, if_pos (by omega)]
  · intro n k hk hge
    rw [make_empty_rec_len, if_neg (by omega)]

/-- Every directory state that the filesystem's own operations reach is
well-formed. -/
theorem reachable_wf (d : dir_inode) (h : dir_reachable d) : ∃ u, dir_wf d u := by
  induction h with
  | formatted hint => exact ⟨2, formatted_root_wf hint⟩
  | make_empty hint ino parent_ino ce => exact ⟨2, make_empty_wf hint ino parent_ino ce⟩
  | add_link d _ len name ino pe ce _ hmap ih =>
    obtain ⟨u, hu⟩ := ih
    rcases add_link_wf d u hu len name ino pe ce hmap with h | h
    · exact ⟨u, h⟩
    · exact ⟨u + 1, h⟩
  | find_entry d _ len name r _ ih =>
    obtain ⟨u, hu⟩ := ih
    exact ⟨u, hu⟩
  | delete_entry d _ len name r hr hret ce ih =>
    obtain ⟨u, hu⟩ := ih
    obtain ⟨h1, h2⟩ := find_entry_found_wf d u hu len name r hr hret
    exact ⟨u, delete_entry_wf d u hu _ _ h1 h2 ce⟩
  | set_link d _ len name r hr hret ino ih =>
    obtain ⟨u, hu⟩ := ih
    obtain ⟨h1, h2⟩ := find_entry_found_wf d u hu len name r hr hret
    exact ⟨u, set_link_wf d u hu _ _ h1 h2 ino⟩
  | set_dotdot d _ ino ih =>
    obtain ⟨u, hu⟩ := ih
    exact ⟨u, set_link_wf d u hu 0 1 (by decide) (by have := hu.1; omega) ino⟩

/-! ## The name search after an append -/

theorem find_in_page_found_at (page : Nat → bitsfs_dir_entry) (len : Nat) (name : Nat → Nat)
    (j : Nat) (hj : (page j).rec_len ≠ 0) (hm : bitsfs_name_match len name (page j) = true) :
    ∀ left k, k ≤ j → j < k + left →
      (∀ i, k ≤ i → i < j →
        (page i).rec_len ≠ 0 ∧ bitsfs_name_match len name (page i) = false) →
      find_in_page page len name left k = PageScan.found j := by
  intro left
  induction left with
  | zero => intro k h1 h2; omega
  | succ left ih =>
    intro k h1 h2 hbefore
    simp only [find_in_page]
    by_cases hk : k = j
    · subst hk
      rw [if_neg hj, if_pos hm]
    · obtain ⟨a, b⟩ := hbefore k (Nat.le_refl _) (by omega)
      rw [if_neg a, b]
      simp only [Bool.false_eq_true, if_false]
      exact ih (k + 1) (by omega) (by omega) (fun i h3 h4 => hbefore i (by omega) h4)

theorem find_in_page_none (page : Nat → bitsfs_dir_entry) (len : Nat) (name : Nat → Nat) :
    ∀ left k,
      (∀ i, k ≤ i → i < k + left →
        (page i).rec_len ≠ 0 ∧ bitsfs_name_match len name (page i) = false) →
      find_in_page page len name left k = PageScan.page_end := by
  intro left
  induction left with
  | zero => intro k _; rfl
  | succ left ih =>
    intro k hall
    simp only [find_in_page]
    obtain ⟨a, b⟩ := hall k (Nat.le_refl _) (by omega)
    rw [if_neg a, b]
    simp only [Bool.false_eq_true, if_false]
    exact ih (k + 1) (fun i h3 h4 => hall i (by omega) (by omega))

theorem find_in_pages_found_at (d : dir_inode) (len : Nat) (name : Nat → Nat)
    (npages start p s : Nat) (hp : p < npages)
    (hfound : find_in_page (d.entry p) len name (bitsfs_last_byte d p / DENT_LEN) 0 =
      PageScan.found s) :
    ∀ fuel n, start ≤ n → n ≤ p → p - n < fuel →
      (∀ n1, n ≤ n1 → n1 < p →
        find_in_page (d.entry n1) len name (bitsfs_last_byte d n1 / DENT_LEN) 0 =
          PageScan.page_end) →
      find_in_pages d len name npages start fuel n =
        some { ret := 0, page := p, slot := s, start_lookup := p } := by
  intro fuel
  induction fuel with
  | zero => intro n _ _ h; omega
  | succ fuel ih =>
    intro n h1 h2 h3 hbefore
    simp only [find_in_pages]
    by_cases hn : n = p
    · subst hn
      rw [hfound]
    · rw [hbefore n (Nat.le_refl _) (by omega)]
      simp only
      have e : (if n + 1 ≥ npages then 0 else n + 1) = n + 1 := if_neg (by omega)
      rw [e, if_neg (by omega)]
      exact ih (n + 1) (by omega) (by omega) (by omega)
        (fun n1 h4 h5 => hbefore n1 (by omega) h5)

theorem name_match_self (len : Nat) (name : Nat → Nat) (de : bitsfs_dir_entry)
    (h0 : de.inode ≠ 0) (hn : ∀ i, i < len → de.name i = name i) :
    bitsfs_name_match len name de = true := by
  unfold bitsfs_name_match
  rw [if_neg h0]
  rw [List.all_eq_true]
  intro i hi
  rw [List.mem_range] at hi
  rw [hn i hi]
  simp

theorem commit_put_entry (d : dir_inode) (p s : Nat) (de : bitsfs_dir_entry) (pos len : Nat)
    (n k : Nat) :
    (bitsfs_commit_chunk (put_entry d p s de) pos len).entry n k =
      if n = p ∧ k = s then de else d.entry n k := by
  unfold bitsfs_commit_chunk put_entry
  split <;> rfl

theorem commit_put_hint (d : dir_inode) (p s : Nat) (de : bitsfs_dir_entry) (pos len : Nat) :
    (bitsfs_commit_chunk (put_entry d p s de) pos len).i_dir_start_lookup =
      d.i_dir_start_lookup := by
  unfold bitsfs_commit_chunk put_entry
  split <;> rfl

theorem commit_put_size (d : dir_inode) (u : Nat) (h : dir_wf d u) (de : bitsfs_dir_entry) :
    (bitsfs_commit_chunk (put_entry d (u / 64) (u % 64) de)
      (u / 64 * PAGE_SIZE + u % 64 * DENT_LEN) DENT_LEN).i_size =
      if u + 1 ≤ 64 then 4096 else 64 * (u + 1) := by
  obtain ⟨h1, h2, h3, h4, h5⟩ := h
  unfold bitsfs_commit_chunk put_entry
  simp only [PAGE_SIZE, DENT_LEN, h4]
  split <;> split <;> simp only <;> split <;> omega

/-- In a well-formed directory, after an entry with `rec_len = 64` that matches the
name has been written into the first unused slot, and no slot in use matched the
name before, `bitsfs_find_entry` returns that slot. -/
theorem find_after_put (d : dir_inode) (u : Nat) (hwf : dir_wf d u) (len : Nat)
    (name : Nat → Nat) (de : bitsfs_dir_entry) (hde : de.rec_len = 64)
    (hm : bitsfs_name_match len name de = true)
    (hno : ∀ n k, k < 64 → 64 * n + k < u →
      bitsfs_name_match len name (d.entry n k) = false) :
    bitsfs_find_entry (bitsfs_commit_chunk (put_entry d (u / 64) (u % 64) de)
      (u / 64 * PAGE_SIZE + u % 64 * DENT_LEN) DENT_LEN) len name =
      some { ret := 0, page := u / 64, slot := u % 64, start_lookup := u / 64 } := by
  have hsz := commit_put_size d u hwf de
  have hent := commit_put_entry d (u / 64) (u % 64) de
    (u / 64 * PAGE_SIZE + u % 64 * DENT_LEN) DENT_LEN
  have hbound := hwf.2.2.2.2
  rw [max_bytes_eq] at hbound
  have hu : 64 * u ≤ 16826368 := by
    have := hwf.2.2.2.1
    rw [this] at hbound
    split at hbound <;> omega
  generalize hd1 : bitsfs_commit_chunk (put_entry d (u / 64) (u % 64) de)
    (u / 64 * PAGE_SIZE + u % 64 * DENT_LEN) DENT_LEN = d1 at hsz hent ⊢
  have hlt : d1.i_size < 2 ^ 32 := by
    rw [hsz]; split <;> omega
  have hnp : dir_pages d1 = u / 64 + 1 := by
    rw [dir_pages_eq, hsz]
    split <;> omega
  have hfull : ∀ n1, n1 < u / 64 → bitsfs_last_byte d1 n1 / DENT_LEN = 64 := by
    intro n1 h1
    have h2 : n1 * 4096 ≤ d1.i_size := by rw [hsz]; split <;> omega
    rw [last_byte_eq d1 n1 hlt h2, hsz]
    simp only [DENT_LEN]
    split <;> split <;> omega
  have hlast : u % 64 < bitsfs_last_byte d1 (u / 64) / DENT_LEN ∧
      bitsfs_last_byte d1 (u / 64) / DENT_LEN ≤ 64 := by
    have h2 : u / 64 * 4096 ≤ d1.i_size := by rw [hsz]; split <;> omega
    rw [last_byte_eq d1 (u / 64) hlt h2, hsz]
    simp only [DENT_LEN]
    split <;> split <;> omega
  have hold : ∀ n k, k < 64 → 64 * n + k < u →
      (d1.entry n k).rec_len ≠ 0 ∧ bitsfs_name_match len name (d1.entry n k) = false := by
    intro n k hk hlt
    rw [hent, if_neg (by omega)]
    refine ⟨?_, hno n k hk hlt⟩
    rw [hwf.2.1 n k hk hlt]
    decide
  have hnew : d1.entry (u / 64) (u % 64) = de := by
    rw [hent, if_pos ⟨rfl, rfl⟩]
  unfold bitsfs_find_entry
  simp only
  rw [if_neg (by omega)]
  refine find_in_pages_found_at d1 len name _ _ (u / 64) (u % 64) (by omega) ?_ _ _
    (Nat.le_refl _) ?_ ?_ ?_
  · refine find_in_page_found_at _ len name (u % 64) ?_ ?_ _ 0 (Nat.zero_le _) (by omega) ?_
    · rw [hnew, hde]; decide
    · rw [hnew]; exact hm
    · intro i _ hi
      exact hold (u / 64) i (by omega) (by omega)
  · split <;> omega
  · split <;> omega
  · intro n1 _ h2
    rw [hfull n1 (by omega)]
    refine find_in_page_none _ len name 64 0 ?_
    intro i _ hi
    exact hold n1 i (by omega) (by omega)

/-! ## C21 and C25: create then look up; the size of a directory -/

theorem EEXIST_errno_ne : (- EEXIST_errno : Int) ≠ 0 := by decide

/-- A call of `bitsfs_add_link` that returns 0 reached `got_it`, had its chunk
prepared, and wrote the entry there. -/
theorem add_link_ret_zero (d : dir_inode) (len : Nat) (name : Nat → Nat) (ino : Nat)
    (pe ce : Int) (h : (bitsfs_add_link d len name ino pe ce).ret = 0) :
    ∃ p s, add_link_in_pages d len name (dir_pages d + 1) 0 = AddPlace.here p s ∧
      (bitsfs_add_link d len name ino pe ce).dir =
        bitsfs_commit_chunk
          (put_entry d p s
            { d.entry p s with
              inode := ino % 2 ^ 32, rec_len := DENT_LEN, name_len := len % 256,
              name := fun i => if i < len then name i else (d.entry p s).name i })
          (p * PAGE_SIZE + s * DENT_LEN) DENT_LEN := by
  unfold bitsfs_add_link at h ⊢
  rcases hp : add_link_in_pages d len name (dir_pages d + 1) 0 with ⟨p, s⟩ | _ | _
  · rw [hp] at h
    simp only at h ⊢
    by_cases hpe : pe ≠ 0
    · rw [if_pos hpe] at h
      exact absurd h hpe
    · rw [if_neg hpe]
      exact ⟨p, s, rfl, rfl⟩
  · rw [hp] at h
    exact absurd h EEXIST_errno_ne
  · rw [hp] at h
    exact absurd h EEXIST_errno_ne

/-- With its chunk prepared, a call of `bitsfs_add_link` that reaches `got_it` writes
the entry there and returns what `bitsfs_commit_chunk` returned. -/
theorem add_link_at (d : dir_inode) (len : Nat) (name : Nat → Nat) (ino : Nat) (ce : Int)
    (p s : Nat) (hp : add_link_in_pages d len name (dir_pages d + 1) 0 = AddPlace.here p s) :
    bitsfs_add_link d len name ino 0 ce =
      { ret := ce,
        dir := bitsfs_commit_chunk
          (put_entry d p s
            { d.entry p s with
              inode := ino % 2 ^ 32, rec_len := DENT_LEN, name_len := len % 256,
              name := fun i => if i < len then name i else (d.entry p s).name i })
          (p * PAGE_SIZE + s * DENT_LEN) DENT_LEN } := by
  unfold bitsfs_add_link
  rw [hp]
  simp only [ne_eq, not_true_eq_false, if_false]

theorem new_inode_ok (imap : Bitmap) (count mode : Nat) (now : Int) (fresh : vfs_inode)
    (have_inode collides : Bool)
    (h : (bitsfs_new_inode imap count mode now fresh have_inode collides).ret = 0) :
    (bitsfs_new_inode imap count mode now fresh have_inode collides).inode.i_ino =
      bitsfs_find_next_zero_bit imap count 1 + 1 := by
  unfold bitsfs_new_inode at h ⊢
  cases have_inode
  · have h0 : (- ENOMEM_errno : Int) = 0 := h
    exact absurd h0 (by decide)
  · cases collides
    · rfl
    · have h0 : (- EIO_errno : Int) = 0 := h
      exact absurd h0 EIO_errno_ne

/-- C21: for a directory in a state that the filesystem's own operations reach and
a name of at most 56 bytes, when `bitsfs_create` returns 0 the new inode has the
number `p + 1` for the bit `p` found in the inode bitmap, and the name search of
`bitsfs_lookup` (`bitsfs_get_ino_by_name`) on the directory as `bitsfs_create` left
it returns 0 and that number.  (The inode count is below `2^32 - 1`, so that the
number fits the 32-bit field of the entry.) -/
theorem create_then_lookup (dir : mem_inode) (hreach : dir_reachable dir.dir) (imap : Bitmap)
    (count len : Nat) (name : Nat → Nat) (mode : Nat) (now : Int) (fresh : vfs_inode)
    (hint : Nat) (have_inode collides : Bool) (pe ce : Int)
    (hlen : len ≤ DENT_NAME_LEN) (hcount : count + 1 < 2 ^ 32)
    (hok : (bitsfs_create dir imap count len name mode now fresh hint have_inode collides
      pe ce).ret = 0) :
    (bitsfs_create dir imap count len name mode now fresh hint have_inode collides
      pe ce).inode.i_ino = bitsfs_find_next_zero_bit imap count 1 + 1 ∧
    ∃ g, bitsfs_get_ino_by_name
        (bitsfs_create dir imap count len name mode now fresh hint have_inode collides
          pe ce).dir.dir len name = some g ∧
      g.ret = 0 ∧
      g.ino = (bitsfs_create dir imap count len name mode now fresh hint have_inode collides
        pe ce).inode.i_ino := by
  obtain ⟨u, hwf⟩ := reachable_wf dir.dir hreach
  unfold bitsfs_create at hok ⊢
  simp only at hok ⊢
  by_cases hr : (bitsfs_new_inode imap count mode now fresh have_inode collides).ret ≠ 0
  · rw [if_pos hr] at hok
    exact absurd hok hr
  · rw [if_neg hr] at hok ⊢
    have hr0 : (bitsfs_new_inode imap count mode now fresh have_inode collides).ret = 0 := by
      omega
    have hino := new_inode_ok imap count mode now fresh have_inode collides hr0
    have hino2 : (mem_inode_of (bitsfs_new_inode imap count mode now fresh have_inode
        collides).inode hint).i_ino = bitsfs_find_next_zero_bit imap count 1 + 1 := hino
    generalize (mem_inode_of (bitsfs_new_inode imap count mode now fresh have_inode
        collides).inode hint) = inode at hok hino2 ⊢
    by_cases ha : (bitsfs_add_link dir.dir len name inode.i_ino pe ce).ret = 0
    · rw [if_pos ha]
      simp only
      refine ⟨hino2, ?_⟩
      obtain ⟨p, s, hp, hd⟩ := add_link_ret_zero dir.dir len name inode.i_ino pe ce ha
      obtain ⟨h1, h2, hno⟩ := add_link_here_wf dir.dir u hwf len name p s hp
      subst h1 h2
      have hle := find_next_zero_bit_le imap count 1
      have hmod : inode.i_ino % 2 ^ 32 = inode.i_ino := Nat.mod_eq_of_lt (by omega)
      have hfind := find_after_put dir.dir u hwf len name
        { dir.dir.entry (u / 64) (u % 64) with
          inode := inode.i_ino % 2 ^ 32, rec_len := DENT_LEN, name_len := len % 256,
          name := fun i => if i < len then name i else (dir.dir.entry (u / 64) (u % 64)).name i }
        rfl
        (name_match_self len name _ (by simp only; omega)
          (fun i hi => by simp only [hi, if_true]))
        hno
      rw [← hd] at hfind
      unfold bitsfs_get_ino_by_name
      rw [hfind]
      simp only [ne_eq, not_true_eq_false, if_false]
      refine ⟨_, rfl, rfl, ?_⟩
      simp only
      rw [hd, commit_put_entry, if_pos ⟨rfl, rfl⟩]
      exact hmod
    · rw [if_neg ha] at hok
      exact absurd hok ha

theorem add_link_size_le (d : dir_inode) (len : Nat) (name : Nat → Nat) (ino : Nat)
    (pe ce : Int) :
    (bitsfs_add_link d len name ino pe ce).dir.i_size ≤ d.i_size + 8192 := by
  unfold bitsfs_add_link
  have hspec := add_link_in_pages_spec d len name (dir_pages d + 1) 0
  rcases hp : add_link_in_pages d len name (dir_pages d + 1) 0 with ⟨p, s⟩ | _ | _
  · rw [hp] at hspec
    simp only at hspec ⊢
    obtain ⟨_, h2, h3, _⟩ := hspec
    rw [dir_pages_eq] at h2
    split
    · simp only; omega
    · simp only [bitsfs_commit_chunk, put_entry, PAGE_SIZE, DENT_LEN]
      split
      · simp only; omega
      · simp only; omega
  · simp only; omega
  · simp only; omega

theorem fill_dir_size_le : ∀ i, (fill_dir i).i_size ≤ 4096 + 8192 * i := by
  intro i
  induction i with
  | zero => exact Nat.le_refl _
  | succ i ih =>
    have := add_link_size_le (fill_dir i) 2 (fill_name i) (3 + i) 0 0
    simp only [fill_dir]
    omega

theorem fill_dir_reachable : ∀ i, i ≤ 64 → dir_reachable (fill_dir i) := by
  intro i
  induction i with
  | zero => intro _; exact dir_reachable.formatted 0
  | succ i ih =>
    intro hi
    refine dir_reachable.add_link (fill_dir i) (ih (by omega)) 2 (fill_name i) (3 + i) 0 0
      (by decide) ?_
    have h1 := add_link_size_le (fill_dir i) 2 (fill_name i) (3 + i) 0 0
    have h2 := fill_dir_size_le i
    rw [max_bytes_eq]
    omega

/-- C25 (as stated, refuted): the root directory of a freshly formatted image after
63 calls of `bitsfs_add_link` with 63 different names is a reachable state, holds 65
entries and has size 4160, which is not a multiple of 4096. -/
theorem dir_size_not_page_multiple :
    dir_reachable (fill_dir 63) ∧ (fill_dir 63).i_size = 4160 ∧ 4160 % 4096 ≠ 0 :=
  ⟨fill_dir_reachable 63 (by decide), by decide!, by decide⟩

/-- C25 (amended): in every state reachable from a freshly formatted image or from
`bitsfs_make_empty` through `bitsfs_add_link`, `bitsfs_delete_entry` and
`bitsfs_set_link`, the directory has some number `u >= 2` of slots in use, its size
is 4096 while `u <= 64` and `64 * u` after that; so the size is at least 4096 and a
multiple of 64. -/
theorem dir_size_of_reachable (d : dir_inode) (h : dir_reachable d) :
    ∃ u, dir_wf d u ∧ 2 ≤ u ∧ d.i_size = (if u ≤ 64 then 4096 else 64 * u) ∧
      4096 ≤ d.i_size ∧ d.i_size % 64 = 0 := by
  obtain ⟨u, hwf⟩ := reachable_wf d h
  refine ⟨u, hwf, hwf.1, hwf.2.2.2.1, ?_, ?_⟩
  · rw [hwf.2.2.2.1]; split <;> omega
  · rw [hwf.2.2.2.1]; split <;> omega

theorem dir_size_of_reachable_witness :
    dir_reachable (fill_dir 64) ∧
    ∃ u, dir_wf (fill_dir 64) u ∧ 2 ≤ u ∧
      (fill_dir 64).i_size = (if u ≤ 64 then 4096 else 64 * u) ∧
      4096 ≤ (fill_dir 64).i_size ∧ (fill_dir 64).i_size % 64 = 0 :=
  ⟨fill_dir_reachable 64 (by decide),
    dir_size_of_reachable (fill_dir 64) (fill_dir_reachable 64 (by decide))⟩

/-! ## C26: the place of an appended entry -/

theorem create_then_lookup_witness :
    (bitsfs_create root_mem_inode three_inode_bitmap 4096 1 name_x 0o100644 7 kernel_new_inode 0
      true false 0 0).ret = 0 ∧
    (bitsfs_create root_mem_inode three_inode_bitmap 4096 1 name_x 0o100644 7 kernel_new_inode 0
      true false 0 0).inode.i_ino = bitsfs_find_next_zero_bit three_inode_bitmap 4096 1 + 1 ∧
    ∃ g, bitsfs_get_ino_by_name
        (bitsfs_create root_mem_inode three_inode_bitmap 4096 1 name_x 0o100644 7
          kernel_new_inode 0 true false 0 0).dir.dir 1 name_x = some g ∧
      g.ret = 0 ∧
      g.ino = (bitsfs_create root_mem_inode three_inode_bitmap 4096 1 name_x 0o100644 7
        kernel_new_inode 0 true false 0 0).inode.i_ino :=
  ⟨by decide,
    create_then_lookup root_mem_inode (dir_reachable.formatted 0) three_inode_bitmap 4096 1
      name_x 0o100644 7 kernel_new_inode 0 true false 0 0 (by decide) (by decide) (by decide)⟩

/-- C26: in a directory that the filesystem's own operations reach, that still has
room below the 4108 blocks of the block map and none of whose slots matches the new
name, `bitsfs_add_link` (its chunk prepared) returns what `bitsfs_commit_chunk`
returns and writes the entry (inode number, `rec_len = 64`, `name_len = len`, the
name bytes) into slot number `u` in (page, offset) order, where `u` is the number of
slots in use: that slot is at the directory's end or has `rec_len == 0`, no slot
before it is, its `rec_len` was 0 (so it is no deleted slot), every other slot is
unchanged, and `u + 1` slots are in use afterwards; `bitsfs_delete_entry` and
`bitsfs_set_link` on an entry returned by `bitsfs_find_entry` leave `u` slots in
use. -/
theorem add_link_appends (d : dir_inode) (hr : dir_reachable d) (len : Nat)
    (name : Nat → Nat) (ino : Nat) (ce : Int) (hlen : len ≤ DENT_NAME_LEN)
    (hno : ∀ n k, k < 64 → bitsfs_name_match len name (d.entry n k) = false)
    (hroom : d.i_size < BITSFS_MAX_BLOCKS * PAGE_SIZE) :
    ∃ u, dir_wf d u ∧
      (bitsfs_add_link d len name ino 0 ce).ret = ce ∧
      add_candidate d (u / 64) (u % 64) ∧
      (∀ n k, k < 64 → 64 * n + k < u → ¬ add_candidate d n k) ∧
      (d.entry (u / 64) (u % 64)).rec_len = 0 ∧
      ((bitsfs_add_link d len name ino 0 ce).dir.entry (u / 64) (u % 64)).inode = ino % 2 ^ 32 ∧
      ((bitsfs_add_link d len name ino 0 ce).dir.entry (u / 64) (u % 64)).rec_len = 64 ∧
      ((bitsfs_add_link d len name ino 0 ce).dir.entry (u / 64) (u % 64)).name_len = len ∧
      (∀ i, i < len →
        ((bitsfs_add_link d len name ino 0 ce).dir.entry (u / 64) (u % 64)).name i = name i) ∧
      (∀ n k, ¬ (n = u / 64 ∧ k = u % 64) →
        (bitsfs_add_link d len name ino 0 ce).dir.entry n k = d.entry n k) ∧
      dir_wf (bitsfs_add_link d len name ino 0 ce).dir (u + 1) ∧
      (∀ len1 name1 r ce1, bitsfs_find_entry d len1 name1 = some r → r.ret = 0 →
        dir_wf (bitsfs_delete_entry d r.page r.slot BITSFS_BLOCK_SIZE ce1).dir u) ∧
      (∀ len1 name1 r ino1, bitsfs_find_entry d len1 name1 = some r → r.ret = 0 →
        dir_wf (bitsfs_set_link d r.page r.slot ino1) u) := by
  obtain ⟨u, hwf⟩ := reachable_wf d hr
  have hp := add_link_total_wf d u hwf len name hno
  have heq := add_link_at d len name ino ce (u / 64) (u % 64) hp
  have hmod : u % 64 < 64 := Nat.mod_lt _ (by decide)
  have hlen256 : len % 256 = len := by
    simp only [DENT_NAME_LEN] at hlen
    omega
  refine ⟨u, hwf, ?_, wf_candidate d u hwf _ _ hmod (by omega),
    fun n k hk hlt => wf_not_candidate d u hwf n k hk hlt,
    hwf.2.2.1 _ _ hmod (by omega), ?_, ?_, ?_, ?_, ?_, ?_, ?_, ?_⟩
  · rw [heq]
  · rw [heq]
    simp only
    rw [commit_put_entry, if_pos ⟨rfl, rfl⟩]
  · rw [heq]
    simp only
    rw [commit_put_entry, if_pos ⟨rfl, rfl⟩]
    rfl
  · rw [heq]
    simp only
    rw [commit_put_entry, if_pos ⟨rfl, rfl⟩]
    exact hlen256
  · intro i hi
    rw [heq]
    simp only
    rw [commit_put_entry, if_pos ⟨rfl, rfl⟩]
    simp only [hi, if_true]
  · intro n k hne
    rw [heq]
    simp only
    rw [commit_put_entry, if_neg hne]
  · rw [heq]
    simp only
    refine commit_put_wf d u hwf _ rfl ?_
    rw [commit_put_size d u hwf, max_bytes_eq]
    rw [max_bytes_eq, hwf.2.2.2.1] at hroom
    split at hroom <;> split <;> omega
  · intro len1 name1 r ce1 hf hret
    obtain ⟨h1, h2⟩ := find_entry_found_wf d u hwf len1 name1 r hf hret
    exact delete_entry_wf d u hwf _ _ h1 h2 ce1
  · intro len1 name1 r ino1 hf hret
    obtain ⟨h1, h2⟩ := find_entry_found_wf d u hwf len1 name1 r hf hret
    exact set_link_wf d u hwf _ _ h1 h2 ino1

theorem formatted_root_no_x (hint : Nat) :
    ∀ n k, k < 64 → bitsfs_name_match 1 name_x ((formatted_root hint).entry n k) = false := by
  intro n k _
  simp only [formatted_root]
  split
  · rfl
  · split
    · rfl
    · rfl

theorem add_link_appends_witness :
    ∃ u, dir_wf (formatted_root 0) u ∧
      (bitsfs_add_link (formatted_root 0) 1 name_x 3 0 0).ret = 0 ∧
      add_candidate (formatted_root 0) (u / 64) (u % 64) ∧
      (∀ n k, k < 64 → 64 * n + k < u → ¬ add_candidate (formatted_root 0) n k) ∧
      ((formatted_root 0).entry (u / 64) (u % 64)).rec_len = 0 ∧
      ((bitsfs_add_link (formatted_root 0) 1 name_x 3 0 0).dir.entry (u / 64) (u % 64)).inode =
        3 % 2 ^ 32 ∧
      ((bitsfs_add_link (formatted_root 0) 1 name_x 3 0 0).dir.entry (u / 64) (u % 64)).rec_len =
        64 ∧
      ((bitsfs_add_link (formatted_root 0) 1 name_x 3 0 0).dir.entry (u / 64) (u % 64)).name_len =
        1 ∧
      (∀ i, i < 1 →
        ((bitsfs_add_link (formatted_root 0) 1 name_x 3 0 0).dir.entry (u / 64) (u % 64)).name i =
          name_x i) ∧
      (∀ n k, ¬ (n = u / 64 ∧ k = u % 64) →
        (bitsfs_add_link (formatted_root 0) 1 name_x 3 0 0).dir.entry n k =
          (formatted_root 0).entry n k) ∧
      dir_wf (bitsfs_add_link (formatted_root 0) 1 name_x 3 0 0).dir (u + 1) ∧
      (∀ len1 name1 r ce1, bitsfs_find_entry (formatted_root 0) len1 name1 = some r → r.ret = 0 →
        dir_wf (bitsfs_delete_entry (formatted_root 0) r.page r.slot BITSFS_BLOCK_SIZE ce1).dir
          u) ∧
      (∀ len1 name1 r ino1, bitsfs_find_entry (formatted_root 0) len1 name1 = some r →
        r.ret = 0 → dir_wf (bitsfs_set_link (formatted_root 0) r.page r.slot ino1) u) :=
  add_link_appends (formatted_root 0) (dir_reachable.formatted 0) 1 name_x 3 0 (by decide)
    (formatted_root_no_x 0) (by decide)

/-! ## C22: the empty test of `bitsfs_rmdir` -/

theorem empty_dir_rejects_iff (de : bitsfs_dir_entry) (ino : Nat) :
    empty_dir_rejects de ino = true ↔ ¬ dots_entry de ino := by
  unfold empty_dir_rejects dots_entry
  by_cases h0 : de.name 0 = 46
  · by_cases h1 : de.name_len > 2
    · simp only [h0, ne_eq, not_true_eq_false, if_false, h1, if_true, true_and, true_iff]
      omega
    · by_cases h2 : de.name_len < 2
      · by_cases h3 : de.inode = ino % 2 ^ 32
        · simp [h0, h1, h2, h3]
        · have h4 : de.name_len ≠ 2 := by omega
          simp [h0, h1, h2, h3, h4]
      · have h4 : de.name_len = 2 := by omega
        by_cases h5 : de.name 1 = 46
        · simp [h0, h4, h5]
        · simp [h0, h4, h5]
  · simp [h0]

theorem empty_dir_in_page_spec (page : Nat → bitsfs_dir_entry) (ino : Nat) : ∀ left k,
    (∀ i, k ≤ i → i < k + left → (page i).rec_len ≠ 0) →
    (empty_dir_in_page page ino left k = EmptyScan.not_empty ∧
      ∃ j, k ≤ j ∧ j < k + left ∧ (page j).inode ≠ 0 ∧ empty_dir_rejects (page j) ino = true) ∨
    (empty_dir_in_page page ino left k = EmptyScan.page_end ∧
      ∀ j, k ≤ j → j < k + left →
        ¬ ((page j).inode ≠ 0 ∧ empty_dir_rejects (page j) ino = true)) := by
  intro left
  induction left with
  | zero =>
    intro k _
    exact Or.inr ⟨rfl, fun j h1 h2 => by omega⟩
  | succ left ih =>
    intro k hrec
    simp only [empty_dir_in_page]
    rw [if_neg (hrec k (Nat.le_refl _) (by omega))]
    by_cases hb : (page k).inode ≠ 0 ∧ empty_dir_rejects (page k) ino = true
    · rw [if_pos hb]
      exact Or.inl ⟨rfl, k, Nat.le_refl _, by omega, hb.1, hb.2⟩
    · rw [if_neg hb]
      rcases ih (k + 1) (fun i h1 h2 => hrec i (by omega) (by omega)) with
        ⟨h1, j, a, b, c⟩ | ⟨h1, h2⟩
      · exact Or.inl ⟨h1, j, by omega, by omega, c⟩
      · refine Or.inr ⟨h1, ?_⟩
        intro j a b
        by_cases hj : j = k
        · subst hj
          exact hb
        · exact h2 j (by omega) (by omega)

theorem empty_dir_in_pages_spec (d : dir_inode) (ino : Nat) : ∀ left i,
    (∀ n k, i ≤ n → n < i + left → k < bitsfs_last_byte d n / DENT_LEN →
      (d.entry n k).rec_len ≠ 0) →
    (empty_dir_in_pages d ino left i = 0 ∧
      ∃ n k, i ≤ n ∧ n < i + left ∧ k < bitsfs_last_byte d n / DENT_LEN ∧
        (d.entry n k).inode ≠ 0 ∧ empty_dir_rejects (d.entry n k) ino = true) ∨
    (empty_dir_in_pages d ino left i = 1 ∧
      ∀ n k, i ≤ n → n < i + left → k < bitsfs_last_byte d n / DENT_LEN →
        ¬ ((d.entry n k).inode ≠ 0 ∧ empty_dir_rejects (d.entry n k) ino = true)) := by
  intro left
  induction left with
  | zero =>
    intro i _
    exact Or.inr ⟨rfl, fun n k h1 h2 => by omega⟩
  | succ left ih =>
    intro i hrec
    simp only [empty_dir_in_pages]
    rcases empty_dir_in_page_spec (d.entry i) ino (bitsfs_last_byte d i / DENT_LEN) 0
        (fun k _ h2 => hrec i k (Nat.le_refl _) (by omega) (by omega)) with
      ⟨h1, j, _, b, c⟩ | ⟨h1, h2⟩
    · rw [h1]
      exact Or.inl ⟨rfl, i, j, Nat.le_refl _, by omega, by omega, c⟩
    · rw [h1]
      simp only
      rcases ih (i + 1) (fun n k a b c => hrec n k (by omega) (by omega) c) with
        ⟨h3, n, k, a, b, c, e⟩ | ⟨h3, h4⟩
      · exact Or.inl ⟨h3, n, k, by omega, by omega, c, e⟩
      · refine Or.inr ⟨h3, ?_⟩
        intro n k a b c
        by_cases hn : n = i
        · subst hn
          exact h2 k (Nat.zero_le _) (by omega)
        · exact h4 n k (by omega) (by omega) c

/-- C22 (as stated, refuted): `stray_dot_dir`, read as the directory of inode 5, has
one page of 64 slots that all have `rec_len = 64`; each of its slots with
`inode != 0` is named "." or ".."; yet `bitsfs_empty_dir` returns 0 and `bitsfs_rmdir`
fails with `-ENOTEMPTY`, because the slot named "." points at inode 7. -/
theorem empty_dir_rejects_foreign_dot :
    dir_pages stray_dot_dir = 1 ∧
    bitsfs_last_byte stray_dot_dir 0 / DENT_LEN = 64 ∧
    (∀ k, k < 64 → (stray_dot_dir.entry 0 k).rec_len = 64) ∧
    (∀ k, k < 64 → (stray_dot_dir.entry 0 k).inode ≠ 0 →
      named_dot_or_dotdot (stray_dot_dir.entry 0 k)) ∧
    bitsfs_empty_dir stray_dot_dir 5 = 0 ∧
    (bitsfs_rmdir root_mem_inode
      { i_ino := 5, i_mode := 0o40755, i_nlink := 2, dir := stray_dot_dir } 1 name_x
      BITSFS_BLOCK_SIZE 0).map (fun r => r.ret) = some (- ENOTEMPTY_errno) := by
  decide

/-- C22 (amended): for a directory `inode` all of whose slots (those that end inside
`i_size`) have `rec_len = 64`, `bitsfs_empty_dir` returns 0 or 1; it returns 0 exactly
when some slot has `inode != 0` and is neither an entry whose name starts with '.',
has `name_len < 2` and points at the directory itself, nor an entry with
`name_len = 2` and the name ".."; and when it returns 0, `bitsfs_rmdir` returns
`-ENOTEMPTY` and changes nothing. -/
theorem empty_dir_iff (dir inode : mem_inode) (len : Nat) (name : Nat → Nat) (cs : Nat)
    (ce : Int)
    (hrec : ∀ n k, n < dir_pages inode.dir → k < bitsfs_last_byte inode.dir n / DENT_LEN →
      (inode.dir.entry n k).rec_len = 64) :
    (bitsfs_empty_dir inode.dir inode.i_ino = 0 ∨ bitsfs_empty_dir inode.dir inode.i_ino = 1) ∧
    (bitsfs_empty_dir inode.dir inode.i_ino = 0 ↔
      ∃ n k, n < dir_pages inode.dir ∧ k < bitsfs_last_byte inode.dir n / DENT_LEN ∧
        (inode.dir.entry n k).inode ≠ 0 ∧ ¬ dots_entry (inode.dir.entry n k) inode.i_ino) ∧
    (bitsfs_empty_dir inode.dir inode.i_ino = 0 →
      bitsfs_rmdir dir inode len name cs ce =
        some { ret := - ENOTEMPTY_errno, dir := dir, inode := inode }) := by
  have hspec := empty_dir_in_pages_spec inode.dir inode.i_ino (dir_pages inode.dir) 0
    (fun n k _ h2 h3 => by rw [hrec n k (by omega) h3]; decide)
  have hrm : bitsfs_empty_dir inode.dir inode.i_ino = 0 →
      bitsfs_rmdir dir inode len name cs ce =
        some { ret := - ENOTEMPTY_errno, dir := dir, inode := inode } := by
    intro h
    unfold bitsfs_rmdir
    rw [if_neg (by rw [h]; decide)]
  unfold bitsfs_empty_dir at hrm ⊢
  rcases hspec with ⟨h1, n, k, _, b, c, e, f⟩ | ⟨h1, h2⟩
  · refine ⟨Or.inl h1, ⟨fun _ => ⟨n, k, by omega, c, e, ?_⟩, fun _ => h1⟩, hrm⟩
    exact (empty_dir_rejects_iff _ _).1 f
  · refine ⟨Or.inr h1, ⟨?_, ?_⟩, hrm⟩
    · intro h0
      rw [h1] at h0
      exact absurd h0 (by decide)
    · intro ⟨n, k, a, b, c, e⟩
      exact absurd ⟨c, (empty_dir_rejects_iff _ _).2 e⟩ (h2 n k (Nat.zero_le _) (by omega) b)

theorem stray_dot_dir_rec_len (n k : Nat) : (stray_dot_dir.entry n k).rec_len = 64 := by
  simp only [stray_dot_dir]
  split
  · rfl
  · split
    · rfl
    · rfl

theorem empty_dir_iff_witness :
    (bitsfs_empty_dir stray_dot_dir 5 = 0 ∨ bitsfs_empty_dir stray_dot_dir 5 = 1) ∧
    (bitsfs_empty_dir stray_dot_dir 5 = 0 ↔
      ∃ n k, n < dir_pages stray_dot_dir ∧ k < bitsfs_last_byte stray_dot_dir n / DENT_LEN ∧
        (stray_dot_dir.entry n k).inode ≠ 0 ∧ ¬ dots_entry (stray_dot_dir.entry n k) 5) ∧
    (bitsfs_empty_dir stray_dot_dir 5 = 0 →
      bitsfs_rmdir root_mem_inode
        { i_ino := 5, i_mode := 0o40755, i_nlink := 2, dir := stray_dot_dir } 1 name_x
        BITSFS_BLOCK_SIZE 0 =
        some { ret := - ENOTEMPTY_errno, dir := root_mem_inode,
               inode := { i_ino := 5, i_mode := 0o40755, i_nlink := 2, dir := stray_dot_dir } }) :=
  empty_dir_iff root_mem_inode
    { i_ino := 5, i_mode := 0o40755, i_nlink := 2, dir := stray_dot_dir } 1 name_x
    BITSFS_BLOCK_SIZE 0 (fun n k _ _ => stray_dot_dir_rec_len n k)

/-! ## C23 and C24: `bitsfs_mkdir` and `bitsfs_rename` -/

theorem new_inode_fields (imap : Bitmap) (count mode : Nat) (now : Int) (fresh : vfs_inode)
    (have_inode collides : Bool)
    (h : (bitsfs_new_inode imap count mode now fresh have_inode collides).ret = 0) :
    (bitsfs_new_inode imap count mode now fresh have_inode collides).inode.i_nlink =
      fresh.i_nlink ∧
    (bitsfs_new_inode imap count mode now fresh have_inode collides).inode.i_size =
      fresh.i_size := by
  unfold bitsfs_new_inode at h ⊢
  cases have_inode
  · have h0 : (- ENOMEM_errno : Int) = 0 := h
    exact absurd h0 (by decide)
  · cases collides
    · exact ⟨rfl, rfl⟩
    · have h0 : (- EIO_errno : Int) = 0 := h
      exact absurd h0 EIO_errno_ne

theorem dir_entry_ext (a b : bitsfs_dir_entry) (h1 : a.inode = b.inode)
    (h2 : a.rec_len = b.rec_len) (h3 : a.name_len = b.name_len)
    (h4 : a.file_type = b.file_type) (h5 : ∀ i, a.name i = b.name i) : a = b := by
  cases a
  cases b
  simp only at h1 h2 h3 h4 h5
  subst h1 h2 h3 h4
  congr 1
  exact funext h5

theorem inc_dec_link_count (inode : mem_inode) (h : inode.i_nlink < 2 ^ 32) :
    (inode_dec_link_count (inode_inc_link_count inode)).i_nlink = inode.i_nlink := by
  simp only [inode_dec_link_count, inode_inc_link_count]
  omega

/-- What `bitsfs_make_empty` leaves when it returns 0 on a directory of size 0. -/
theorem make_empty_ok (inode : dir_inode) (ino parent_ino : Nat) (page_ok : Bool)
    (pe ce : Int) (hsz : inode.i_size = 0)
    (h : (bitsfs_make_empty inode ino parent_ino BITSFS_BLOCK_SIZE page_ok pe ce).ret = 0) :
    (bitsfs_make_empty inode ino parent_ino BITSFS_BLOCK_SIZE page_ok pe ce).dir.i_size = 4096 ∧
    (bitsfs_make_empty inode ino parent_ino BITSFS_BLOCK_SIZE page_ok pe ce).dir.entry 0 0 =
      { inode := ino % 2 ^ 32, rec_len := 64, name_len := 1, file_type := 0,
        name := fun i => if i = 0 then 46 else if i < 4 then 0 else 0 } ∧
    (bitsfs_make_empty inode ino parent_ino BITSFS_BLOCK_SIZE page_ok pe ce).dir.entry 0 1 =
      { inode := parent_ino % 2 ^ 32, rec_len := 64, name_len := 2, file_type := 0,
        name := fun i => if i < 2 then 46 else if i < 4 then 0 else 0 } := by
  unfold bitsfs_make_empty at h ⊢
  cases page_ok
  · have h0 : (- ENOMEM_errno : Int) = 0 := h
    exact absurd h0 (by decide)
  · by_cases hpe : pe ≠ 0
    · simp only [Bool.not_true, Bool.false_eq_true, if_false, if_pos hpe] at h
      exact absurd h hpe
    · simp only [Bool.not_true, Bool.false_eq_true, if_false, if_neg hpe]
      simp only [bitsfs_commit_chunk, hsz, BITSFS_BLOCK_SIZE, DENT_LEN]
      refine ⟨rfl, rfl, rfl⟩

/-- C23: `bitsfs_mkdir` on a block size of 4096, with an in-memory inode from the
kernel's `new_inode` (link count 1, size 0), a parent whose link count is below the
largest `unsigned int` and inode numbers that fit 32 bits.  When it returns 0 the
parent's link count has grown by exactly 1, the new directory has link count 2 and
size 4096, its slot 0 is (".", `rec_len` 64, `name_len` 1) with its own number and
its slot 1 is ("..", `rec_len` 64, `name_len` 2) with the parent's number; when it
returns an error the parent's link count is what it was. -/
theorem mkdir_link_counts (dir : mem_inode) (imap : Bitmap) (count len : Nat)
    (name : Nat → Nat) (mode : Nat) (now : Int) (fresh : vfs_inode) (hint : Nat)
    (have_inode collides page_ok : Bool) (epe ece lpe lce : Int)
    (hnl : dir.i_nlink + 1 < 2 ^ 32) (hfresh : fresh.i_nlink = 1 ∧ fresh.i_size = 0)
    (hcount : count + 1 < 2 ^ 32) (hdir : dir.i_ino < 2 ^ 32) :
    ((bitsfs_mkdir dir imap count len name mode now fresh hint have_inode collides
        BITSFS_BLOCK_SIZE page_ok epe ece lpe lce).ret = 0 →
      (bitsfs_mkdir dir imap count len name mode now fresh hint have_inode collides
        BITSFS_BLOCK_SIZE page_ok epe ece lpe lce).dir.i_nlink = dir.i_nlink + 1 ∧
      (bitsfs_mkdir dir imap count len name mode now fresh hint have_inode collides
        BITSFS_BLOCK_SIZE page_ok epe ece lpe lce).inode.i_nlink = 2 ∧
      (bitsfs_mkdir dir imap count len name mode now fresh hint have_inode collides
        BITSFS_BLOCK_SIZE page_ok epe ece lpe lce).inode.dir.i_size = 4096 ∧
      (bitsfs_mkdir dir imap count len name mode now fresh hint have_inode collides
        BITSFS_BLOCK_SIZE page_ok epe ece lpe lce).inode.dir.entry 0 0 =
        { inode := (bitsfs_mkdir dir imap count len name mode now fresh hint have_inode collides
            BITSFS_BLOCK_SIZE page_ok epe ece lpe lce).inode.i_ino,
          rec_len := 64, name_len := 1, file_type := 0,
          name := fun i => if i = 0 then 46 else 0 } ∧
      (bitsfs_mkdir dir imap count len name mode now fresh hint have_inode collides
        BITSFS_BLOCK_SIZE page_ok epe ece lpe lce).inode.dir.entry 0 1 =
        { inode := dir.i_ino, rec_len := 64, name_len := 2, file_type := 0,
          name := fun i => if i < 2 then 46 else 0 }) ∧
    ((bitsfs_mkdir dir imap count len name mode now fresh hint have_inode collides
        BITSFS_BLOCK_SIZE page_ok epe ece lpe lce).ret ≠ 0 →
      (bitsfs_mkdir dir imap count len name mode now fresh hint have_inode collides
        BITSFS_BLOCK_SIZE page_ok epe ece lpe lce).dir.i_nlink = dir.i_nlink) := by
  have hback : (inode_dec_link_count (inode_inc_link_count dir)).i_nlink = dir.i_nlink :=
    inc_dec_link_count dir (by omega)
  have hinc : (inode_inc_link_count dir).i_nlink = dir.i_nlink + 1 := by
    simp only [inode_inc_link_count]
    omega
  have hback2 : ∀ x : dir_inode,
      (inode_dec_link_count { inode_inc_link_count dir with dir := x }).i_nlink =
        dir.i_nlink := by
    intro x
    simp only [inode_dec_link_count, inode_inc_link_count]
    omega
  unfold bitsfs_mkdir
  simp only
  by_cases hr : (bitsfs_new_inode imap count (S_IFDIR ||| mode) now fresh have_inode
      collides).ret ≠ 0
  · rw [if_pos hr]
    exact ⟨fun h => absurd h hr, fun _ => hback⟩
  · rw [if_neg hr]
    have hr0 : (bitsfs_new_inode imap count (S_IFDIR ||| mode) now fresh have_inode
        collides).ret = 0 := by omega
    obtain ⟨hf1, hf2⟩ := new_inode_fields imap count (S_IFDIR ||| mode) now fresh have_inode
      collides hr0
    have hino := new_inode_ok imap count (S_IFDIR ||| mode) now fresh have_inode collides hr0
    have hle := find_next_zero_bit_le imap count 1
    generalize bitsfs_new_inode imap count (S_IFDIR ||| mode) now fresh have_inode
      collides = r at hf1 hf2 hino ⊢
    by_cases he : (bitsfs_make_empty (inode_inc_link_count (mem_inode_of r.inode hint)).dir
        (inode_inc_link_count (mem_inode_of r.inode hint)).i_ino (inode_inc_link_count dir).i_ino
        BITSFS_BLOCK_SIZE page_ok epe ece).ret ≠ 0
    · rw [if_pos he]
      exact ⟨fun h => absurd h he, fun _ => hback⟩
    · rw [if_neg he]
      have he0 : (bitsfs_make_empty (inode_inc_link_count (mem_inode_of r.inode hint)).dir
          (inode_inc_link_count (mem_inode_of r.inode hint)).i_ino
          (inode_inc_link_count dir).i_ino BITSFS_BLOCK_SIZE page_ok epe ece).ret = 0 := by
        omega
      have hsz0 : (inode_inc_link_count (mem_inode_of r.inode hint)).dir.i_size = 0 := by
        simp only [inode_inc_link_count, mem_inode_of, hf2, hfresh.2]
        rfl
      obtain ⟨m1, m2, m3⟩ := make_empty_ok _ _ _ page_ok epe ece hsz0 he0
      by_cases ha : (bitsfs_add_link (inode_inc_link_count dir).dir len name
          (inode_inc_link_count (mem_inode_of r.inode hint)).i_ino lpe lce).ret ≠ 0
      · rw [if_pos ha]
        exact ⟨fun h => absurd h ha, fun _ => hback2 _⟩
      · rw [if_neg ha]
        refine ⟨fun _ => ⟨hinc, ?_, m1, ?_, ?_⟩, fun h => absurd rfl h⟩
        · simp only [inode_inc_link_count, mem_inode_of, hf1, hfresh.1]
          rfl
        · refine Eq.trans m2 (dir_entry_ext _ _ ?_ rfl rfl rfl ?_)
          · show r.inode.i_ino % 2 ^ 32 = r.inode.i_ino
            exact Nat.mod_eq_of_lt (by omega)
          · intro i
            show (if i = 0 then 46 else if i < 4 then 0 else 0) = if i = 0 then 46 else 0
            split
            · rfl
            · split <;> rfl
        · refine Eq.trans m3 (dir_entry_ext _ _ ?_ rfl rfl rfl ?_)
          · show dir.i_ino % 2 ^ 32 = dir.i_ino
            exact Nat.mod_eq_of_lt hdir
          · intro i
            show (if i < 2 then 46 else if i < 4 then 0 else 0) = if i < 2 then 46 else 0
            split
            · rfl
            · split <;> rfl

theorem mkdir_link_counts_witness :
    (bitsfs_mkdir root_mem_inode three_inode_bitmap 4096 1 name_x 0o755 7 kernel_new_inode 0
      true false BITSFS_BLOCK_SIZE true 0 0 0 0).ret = 0 ∧
    ((bitsfs_mkdir root_mem_inode three_inode_bitmap 4096 1 name_x 0o755 7 kernel_new_inode 0
        true false BITSFS_BLOCK_SIZE true 0 0 0 0).ret = 0 →
      (bitsfs_mkdir root_mem_inode three_inode_bitmap 4096 1 name_x 0o755 7 kernel_new_inode 0
        true false BITSFS_BLOCK_SIZE true 0 0 0 0).dir.i_nlink = root_mem_inode.i_nlink + 1 ∧
      (bitsfs_mkdir root_mem_inode three_inode_bitmap 4096 1 name_x 0o755 7 kernel_new_inode 0
        true false BITSFS_BLOCK_SIZE true 0 0 0 0).inode.i_nlink = 2 ∧
      (bitsfs_mkdir root_mem_inode three_inode_bitmap 4096 1 name_x 0o755 7 kernel_new_inode 0
        true false BITSFS_BLOCK_SIZE true 0 0 0 0).inode.dir.i_size = 4096 ∧
      (bitsfs_mkdir root_mem_inode three_inode_bitmap 4096 1 name_x 0o755 7 kernel_new_inode 0
        true false BITSFS_BLOCK_SIZE true 0 0 0 0).inode.dir.entry 0 0 =
        { inode := (bitsfs_mkdir root_mem_inode three_inode_bitmap 4096 1 name_x 0o755 7
            kernel_new_inode 0 true false BITSFS_BLOCK_SIZE true 0 0 0 0).inode.i_ino,
          rec_len := 64, name_len := 1, file_type := 0,
          name := fun i => if i = 0 then 46 else 0 } ∧
      (bitsfs_mkdir root_mem_inode three_inode_bitmap 4096 1 name_x 0o755 7 kernel_new_inode 0
        true false BITSFS_BLOCK_SIZE true 0 0 0 0).inode.dir.entry 0 1 =
        { inode := root_mem_inode.i_ino, rec_len := 64, name_len := 2, file_type := 0,
          name := fun i => if i < 2 then 46 else 0 }) ∧
    ((bitsfs_mkdir root_mem_inode three_inode_bitmap 4096 1 name_x 0o755 7 kernel_new_inode 0
        true false BITSFS_BLOCK_SIZE true 0 0 0 0).ret ≠ 0 →
      (bitsfs_mkdir root_mem_inode three_inode_bitmap 4096 1 name_x 0o755 7 kernel_new_inode 0
        true false BITSFS_BLOCK_SIZE true 0 0 0 0).dir.i_nlink = root_mem_inode.i_nlink) :=
  ⟨by decide,
    mkdir_link_counts root_mem_inode three_inode_bitmap 4096 1 name_x 0o755 7 kernel_new_inode 0
      true false true 0 0 0 0 (by decide) (by decide) (by decide) (by decide)⟩

/-- C24 (the code at `xy_cache`, whose root directory holds "x" (inode 3), "xy"
(inode 4) and "y" (inode 5), for `rename(root, "x", root, "y")`): before the call
the name search finds inode 3 for "x" and inode 5 for "y"; the call returns 0 and
takes the link count of inode 5 from 1 to 0; afterwards the name search finds inode
3 for "y", and for "x" it returns 0 with inode 4, the entry "xy", where the property
has not-found. -/
theorem rename_leaves_old_name_found :
    (bitsfs_get_ino_by_name xy_dir 1 name_x).map (fun g => (g.ret, g.ino)) = some (0, 3) ∧
    (bitsfs_get_ino_by_name xy_dir 1 name_y).map (fun g => (g.ret, g.ino)) = some (0, 5) ∧
    (xy_cache 5).i_nlink = 1 ∧
    (bitsfs_rename xy_cache 2 1 name_x 3 2 1 name_y (some 5) 0 BITSFS_BLOCK_SIZE 0 0).map
      (fun r => (r.ret, (r.cache 5).i_nlink)) = some (0, 0) ∧
    (bitsfs_rename xy_cache 2 1 name_x 3 2 1 name_y (some 5) 0 BITSFS_BLOCK_SIZE 0 0).bind
      (fun r => (bitsfs_get_ino_by_name (r.cache 2).dir 1 name_y).map
        (fun g => (g.ret, g.ino))) = some (0, 3) ∧
    (bitsfs_rename xy_cache 2 1 name_x 3 2 1 name_y (some 5) 0 BITSFS_BLOCK_SIZE 0 0).bind
      (fun r => (bitsfs_get_ino_by_name (r.cache 2).dir 1 name_x).map
        (fun g => (g.ret, g.ino))) = some (0, 4) := by
  decide

/-! ## C27, C28, C29, C30: the block map again -/

/-- C27 (the code at `empty_file`, whose `i_data` is all zero, with `busy_bitmap`): the
call for logical block 12 succeeds, and so does the call for logical block 13 on the
`i_data` and bitmap that the first call left; both map physical block 160, which is
`i_data[12] + 12`. -/
theorem get_block_shares_block_in_cluster :
    (bitsfs_get_block empty_file busy_bitmap 12 unmapped_bh 1).exit = GetBlockExit.mapped ∧
    (bitsfs_get_block
      { empty_file with
        i_data := (bitsfs_get_block empty_file busy_bitmap 12 unmapped_bh 1).i_data }
      (bitsfs_get_block empty_file busy_bitmap 12 unmapped_bh 1).bitmap 13 unmapped_bh 1).exit =
      GetBlockExit.mapped ∧
    (bitsfs_get_block empty_file busy_bitmap 12 unmapped_bh 1).bh_result.b_blocknr = 160 ∧
    (bitsfs_get_block
      { empty_file with
        i_data := (bitsfs_get_block empty_file busy_bitmap 12 unmapped_bh 1).i_data }
      (bitsfs_get_block empty_file busy_bitmap 12 unmapped_bh 1).bitmap 13
        unmapped_bh 1).bh_result.b_blocknr = 160 := by
  decide!

/-- C28 (the code at `mapped_file`, a regular file, with `mapped_bitmap`): every
non-zero entry of `i_data` is above 135, so bit 0 belongs to none of the file's
blocks; it is set before `bitsfs_truncate_blocks` and clear after it. -/
theorem truncate_blocks_clears_foreign_bit :
    S_ISREG mapped_file.i_mode = true ∧
    (∀ n, n < 16 → mapped_file.i_data n = 0 ∨ 135 < mapped_file.i_data n) ∧
    mapped_bitmap 0 = true ∧
    bitsfs_truncate_blocks mapped_file mapped_bitmap 0 0 = false := by
  decide!

/-- C29: `bitsfs_get_block` gives the same result (exit, return value, `i_data`,
bitmap and buffer head with its mapped block) for any two values of `create`, in
particular for 0 and 1. -/
theorem get_block_ignores_create (inode : bitsfs_inode_info) (bm : Bitmap) (iblock : Nat)
    (bh : buffer_head) (c1 c2 : Int) :
    bitsfs_get_block inode bm iblock bh c1 = bitsfs_get_block inode bm iblock bh c2 := rfl

/-- C30 (as stated, refuted): the formatter records 256 blocks for a device of 1 MiB;
with bits 0..120 of the block bitmap set (blocks 135..255 in use) the call for
logical block 0 of an empty file succeeds, stores 256 into `i_data[0]` and maps
block 256, which is not below the recorded block count. -/
theorem get_block_stores_block_past_device :
    (mkfs_main good_device).exit_code = EXIT_SUCCESS ∧
    (mkfs_super_block (good_device.dsize.tdiv 1024)).s_blocks_count = 256 ∧
    (bitsfs_get_block empty_file device_full_bitmap 0 unmapped_bh 1).exit = GetBlockExit.mapped ∧
    (bitsfs_get_block empty_file device_full_bitmap 0 unmapped_bh 1).i_data 0 = 256 ∧
    (bitsfs_get_block empty_file device_full_bitmap 0 unmapped_bh 1).bh_result.b_blocknr = 256 := by
  decide!

theorem get_block_offset_small (iblock : Nat) (h0 : 0 ≤ get_block_pos iblock)
    (h1 : get_block_pos iblock < 16) :
    0 ≤ get_block_offset iblock ∧ get_block_offset iblock < 16 := by
  unfold get_block_offset
  split
  · omega
  · have e : (get_block_pos iblock).tmod BITSFS_NDIR_BLOCK_COUNT = get_block_pos iblock :=
      Int.tmod_eq_of_lt h0 (by simp only [BITSFS_NDIR_BLOCK_COUNT]; omega)
    rw [e]
    exact ⟨h0, h1⟩

/-- C30 (amended): when every non-zero entry of `i_data` lies in `135 <= b < 135 + 32768`
before a call of `bitsfs_get_block`, the same holds after it; every entry the call
fills is `p + 135` for a position `p < 32768` of the bitmap block searched,
whatever block count the superblock records; and a block the call maps lies in
`135 <= b < 135 + 32768 + 15`. -/
theorem get_block_range (inode : bitsfs_inode_info) (bm : Bitmap) (iblock : Nat)
    (bh : buffer_head) (create : Int)
    (hinv : ∀ n, inode.i_data n ≠ 0 → 135 ≤ inode.i_data n ∧ inode.i_data n < 135 + 32768) :
    (∀ n, (bitsfs_get_block inode bm iblock bh create).i_data n ≠ 0 →
      135 ≤ (bitsfs_get_block inode bm iblock bh create).i_data n ∧
      (bitsfs_get_block inode bm iblock bh create).i_data n < 135 + 32768) ∧
    (∀ n, inode.i_data n = 0 →
      (bitsfs_get_block inode bm iblock bh create).i_data n ≠ 0 →
      ∃ p, p < 32768 ∧ (bitsfs_get_block inode bm iblock bh create).i_data n = p + 135) ∧
    ((bitsfs_get_block inode bm iblock bh create).exit = GetBlockExit.mapped →
      135 ≤ (bitsfs_get_block inode bm iblock bh create).bh_result.b_blocknr ∧
      (bitsfs_get_block inode bm iblock bh create).bh_result.b_blocknr < 135 + 32768 + 15) := by
  have hfill : ∀ n, inode.i_data n = 0 →
      (bitsfs_get_block inode bm iblock bh create).i_data n ≠ 0 →
      ∃ p, p < 32768 ∧ (bitsfs_get_block inode bm iblock bh create).i_data n = p + 135 := by
    intro n h0 hnz
    obtain ⟨b, a, ha, he, hv, _, _⟩ := get_block_filled inode bm iblock bh create n h0 hnz
    refine ⟨a.pos, ?_, hv⟩
    by_cases hn : n < 12
    · rw [if_pos hn] at ha
      exact single_alloc_pos b a ha he
    · rw [if_neg hn] at ha
      exact batch_alloc_pos b a ha he
  have hall : ∀ n, (bitsfs_get_block inode bm iblock bh create).i_data n ≠ 0 →
      135 ≤ (bitsfs_get_block inode bm iblock bh create).i_data n ∧
      (bitsfs_get_block inode bm iblock bh create).i_data n < 135 + 32768 := by
    intro n hnz
    by_cases h0 : inode.i_data n = 0
    · obtain ⟨p, hp, hv⟩ := hfill n h0 hnz
      omega
    · rw [get_block_keeps inode bm iblock bh create n h0]
      exact hinv n h0
  refine ⟨hall, hfill, ?_⟩
  intro hm
  obtain ⟨hfin, hp0, hp1, hd, _, heq⟩ := get_block_mapped inode bm iblock bh create hm
  have hnz : (alloc_phase inode bm iblock).2.i_data (get_block_pos iblock).toNat ≠ 0 :=
    alloc_phase_finished inode bm iblock hfin _ (pos_lt_window_end iblock hp0)
  have hv := hall (get_block_pos iblock).toNat (by rw [hd]; exact hnz)
  rw [hd] at hv
  obtain ⟨ho0, ho1⟩ := get_block_offset_small iblock hp0 hp1
  rw [heq]
  unfold get_block_finish
  rw [if_pos ⟨hp0, hp1⟩]
  simp only
  have e : (((alloc_phase inode bm iblock).2.i_data (get_block_pos iblock).toNat : Int) +
      get_block_offset iblock).emod (2 ^ 32) =
      ((alloc_phase inode bm iblock).2.i_data (get_block_pos iblock).toNat : Int) +
      get_block_offset iblock := Int.emod_eq_of_lt (by omega) (by omega)
  rw [e]
  omega

theorem get_block_range_witness :
    (bitsfs_get_block empty_file device_full_bitmap 0 unmapped_bh 1).exit =
      GetBlockExit.mapped ∧
    (∀ n, (bitsfs_get_block empty_file device_full_bitmap 0 unmapped_bh 1).i_data n ≠ 0 →
      135 ≤ (bitsfs_get_block empty_file device_full_bitmap 0 unmapped_bh 1).i_data n ∧
      (bitsfs_get_block empty_file device_full_bitmap 0 unmapped_bh 1).i_data n < 135 + 32768) ∧
    (∀ n, empty_file.i_data n = 0 →
      (bitsfs_get_block empty_file device_full_bitmap 0 unmapped_bh 1).i_data n ≠ 0 →
      ∃ p, p < 32768 ∧
        (bitsfs_get_block empty_file device_full_bitmap 0 unmapped_bh 1).i_data n = p + 135) ∧
    ((bitsfs_get_block empty_file device_full_bitmap 0 unmapped_bh 1).exit =
        GetBlockExit.mapped →
      135 ≤ (bitsfs_get_block empty_file device_full_bitmap 0 unmapped_bh 1).bh_result.b_blocknr ∧
      (bitsfs_get_block empty_file device_full_bitmap 0 unmapped_bh 1).bh_result.b_blocknr <
        135 + 32768 + 15) :=
  ⟨by decide!,
    get_block_range empty_file device_full_bitmap 0 unmapped_bh 1 (fun n h => absurd rfl h)⟩

end Bitsfs
